import Mathlib

/-! Snowcast: wire codec and station membership

A shallow embedding of `pkg/protocol/protocol.go` (the message codec) and of
`pkg/kit/kit.go` (the membership table of the server), with the properties
of the specification stated and proved over it.

Conventions of the embedding.

* A Go `uint8` / `uint16` is a `Nat`; an arithmetic operation or a
  conversion that the Go code performs in eight bits is followed by an
  explicit `% 256`.
* A Go `[]byte` and a Go `string` are both a `List Nat` of bytes.
* A `net.Conn` that is read from is the list of bytes the peer sends before
  it closes its side; reading past the end gives `io.EOF` or
  `io.ErrUnexpectedEOF`.  Read deadlines are not modelled.
* A function that can hit a run-time panic (index or slice bound out of
  range) returns `Option` / `Outcome`, the panic being `none` / `Outcome.panic`.
-/

namespace Snowcast

namespace protocol

/-! ## Constants (protocol.go, lines 12-22) -/

def HelloCommandType : Nat := 0
def SetStationCommandType : Nat := 1
def WelcomeReplyType : Nat := 2
def AnnounceReplyType : Nat := 3
def InvalidCommandReplyType : Nat := 4
def MessageTypeBound : Nat := 4
def StationsCommandType : Nat := 254
def StationsReplyType : Nat := 255

/-! ## Errors, outcomes, buffers -/

/-- The error values `ReadMessage` can return. -/
inductive Error where
  | EOF
  | ErrUnexpectedEOF
  | unknownMessageType
deriving DecidableEq, Repr

/-- Result of running a Go function: it returns a value, or it panics. -/
inductive Outcome (α : Type) where
  | ret (v : α)
  | panic
deriving DecidableEq, Repr

/-- The Go expression `make([]byte, n)`: `n` zero bytes. -/
def make (n : Nat) : List Nat := List.replicate n 0

/-- The Go statement `buf[i] = v`; `none` is the index-out-of-range panic. -/
def setIndex (buf : List Nat) (i v : Nat) : Option (List Nat) :=
  if i < buf.length then some (buf.set i v) else none

/-- The Go expression `buf[i]`; `none` is the index-out-of-range panic. -/
def getIndex (buf : List Nat) (i : Nat) : Option Nat := buf[i]?

/-- The Go expression `buf[i:]`; `none` is the slice-bounds panic. -/
def sliceFrom (buf : List Nat) (i : Nat) : Option (List Nat) :=
  if i ≤ buf.length then some (buf.drop i) else none

/-- The call `binary.BigEndian.Uint16(b)`: it panics when `b` has fewer than
two bytes and otherwise returns `b[1] | b[0] << 8`. -/
def bigEndianUint16 (b : List Nat) : Option Nat :=
  match b with
  | b0 :: b1 :: _ => some ((b0 % 256) * 256 + b1 % 256)
  | _ => none

/-- The call `binary.Write(buf, binary.BigEndian, v)` for a `uint8` value:
one byte is appended to the buffer, the error is nil. -/
def binaryWriteU8 (buf : List Nat) (v : Nat) : List Nat × Option Error :=
  (buf ++ [v % 256], none)

/-- The call `binary.Write(buf, binary.BigEndian, v)` for a `uint16` value:
the high byte and then the low byte are appended, the error is nil. -/
def binaryWriteU16 (buf : List Nat) (v : Nat) : List Nat × Option Error :=
  (buf ++ [v / 256 % 256, v % 256], none)

/-- The call `buf.Write(p)` of a `bytes.Buffer`: `p` is appended, the error
is nil. -/
def bufferWrite (buf : List Nat) (p : List Nat) : List Nat × Option Error :=
  (buf ++ p, none)

/-- The call `io.ReadFull(conn, buf)`.  It returns the filled buffer, the
number of bytes read and the error, together with the unread rest of the
stream.  Nothing is read for an empty buffer; `io.EOF` is returned when no
byte could be read and `io.ErrUnexpectedEOF` when the stream ends after some
but not all bytes. -/
def ioReadFull (conn : List Nat) (buf : List Nat) :
    (List Nat × Nat × Option Error) × List Nat :=
  if buf.length ≤ conn.length then
    ((conn.take buf.length, buf.length, none), conn.drop buf.length)
  else if conn.length = 0 then
    ((buf, 0, some Error.EOF), [])
  else
    ((conn ++ buf.drop conn.length, conn.length, some Error.ErrUnexpectedEOF), [])

/-! ## Messages -/

structure Hello where
  commandType : Nat
  UdpPort : Nat
deriving DecidableEq, Repr

structure SetStation where
  commandType : Nat
  StationNumber : Nat
deriving DecidableEq, Repr

structure Welcome where
  replyType : Nat
  NumStations : Nat
deriving DecidableEq, Repr

structure Announce where
  replyType : Nat
  songnameSize : Nat
  Songname : List Nat
deriving DecidableEq, Repr

structure InvalidCommand where
  replyType : Nat
  replyStringSize : Nat
  ReplyString : List Nat
deriving DecidableEq, Repr

structure StationsCommand where
  commandType : Nat
  none : Nat
deriving DecidableEq, Repr

structure StationsReply where
  replyType : Nat
  replyStringSize : Nat
  ReplyString : List Nat
deriving DecidableEq, Repr

/-- A value of the interface `Message` (or of `any`, as `ReadMessage` returns
it): a pointer to one of the seven message structs. -/
inductive Message where
  | hello (h : Hello)
  | setStation (s : SetStation)
  | welcome (w : Welcome)
  | announce (a : Announce)
  | invalidCommand (i : InvalidCommand)
  | stationsCommand (s : StationsCommand)
  | stationsReply (s : StationsReply)
deriving DecidableEq, Repr

/-! ### Constructors -/

def NewHello (udpPort : Nat) : Hello := ⟨HelloCommandType, udpPort⟩

def NewSetStation (stationNumber : Nat) : SetStation :=
  ⟨SetStationCommandType, stationNumber⟩

def NewWelcome (numStations : Nat) : Welcome := ⟨WelcomeReplyType, numStations⟩

def NewAnnounce (songname : List Nat) : Announce :=
  ⟨AnnounceReplyType, songname.length % 256, songname⟩

def NewInvalidCommand (replyString : List Nat) : InvalidCommand :=
  ⟨InvalidCommandReplyType, replyString.length % 256, replyString⟩

/-- The constructor is declared `func NewStationsCommand() *SetStation`. -/
def NewStationsCommand : SetStation := ⟨StationsCommandType, 0⟩

def NewStationsReply (replyString : List Nat) : StationsReply :=
  ⟨StationsReplyType, replyString.length % 256, replyString⟩

/-! ### Marshal -/

/-- The common body of the `Marshal` methods of `Hello`, `SetStation`,
`Welcome` and `StationsCommand`: the tag byte, then the 16-bit field. -/
def marshalFixed (tag field : Nat) : Option (List Nat) × Option Error :=
  match binaryWriteU8 [] tag with
  | (_, some err) => (none, some err)
  | (buf, none) =>
    match binaryWriteU16 buf field with
    | (_, some err) => (none, some err)
    | (buf, none) => (some buf, none)

/-- The common body of the `Marshal` methods of `Announce`, `InvalidCommand`
and `StationsReply`: the tag byte, the size byte, then the payload. -/
def marshalSized (tag size : Nat) (payload : List Nat) :
    Option (List Nat) × Option Error :=
  match binaryWriteU8 [] tag with
  | (_, some err) => (none, some err)
  | (buf, none) =>
    match binaryWriteU8 buf size with
    | (_, some err) => (none, some err)
    | (buf, none) =>
      match bufferWrite buf payload with
      | (_, some err) => (none, some err)
      | (buf, none) => (some buf, none)

def Hello.Marshal (h : Hello) : Option (List Nat) × Option Error :=
  marshalFixed h.commandType h.UdpPort

def SetStation.Marshal (s : SetStation) : Option (List Nat) × Option Error :=
  marshalFixed s.commandType s.StationNumber

def Welcome.Marshal (w : Welcome) : Option (List Nat) × Option Error :=
  marshalFixed w.replyType w.NumStations

def Announce.Marshal (a : Announce) : Option (List Nat) × Option Error :=
  marshalSized a.replyType a.songnameSize a.Songname

def InvalidCommand.Marshal (i : InvalidCommand) : Option (List Nat) × Option Error :=
  marshalSized i.replyType i.replyStringSize i.ReplyString

def StationsCommand.Marshal (s : StationsCommand) : Option (List Nat) × Option Error :=
  marshalFixed s.commandType s.none

def StationsReply.Marshal (i : StationsReply) : Option (List Nat) × Option Error :=
  marshalSized i.replyType i.replyStringSize i.ReplyString

/-- Dynamic dispatch of `m.Marshal()` on an interface value. -/
def Message.Marshal : Message → Option (List Nat) × Option Error
  | .hello h => h.Marshal
  | .setStation s => s.Marshal
  | .welcome w => w.Marshal
  | .announce a => a.Marshal
  | .invalidCommand i => i.Marshal
  | .stationsCommand s => s.Marshal
  | .stationsReply s => s.Marshal

/-- Dynamic dispatch of `m.GetType()` on an interface value. -/
def Message.GetType : Message → Nat
  | .hello h => h.commandType
  | .setStation s => s.commandType
  | .welcome w => w.replyType
  | .announce a => a.replyType
  | .invalidCommand i => i.replyType
  | .stationsCommand s => s.commandType
  | .stationsReply s => s.replyType

/-! ### Unmarshal

Each method overwrites the fields of its receiver; `none` is a panic. -/

def Hello.Unmarshal (_h : Hello) (data : List Nat) : Option Hello :=
  match sliceFrom data 1 with
  | none => none
  | some d =>
    match bigEndianUint16 d with
    | none => none
    | some v => some ⟨HelloCommandType, v⟩

def SetStation.Unmarshal (_s : SetStation) (data : List Nat) : Option SetStation :=
  match sliceFrom data 1 with
  | none => none
  | some d =>
    match bigEndianUint16 d with
    | none => none
    | some v => some ⟨SetStationCommandType, v⟩

def Welcome.Unmarshal (_w : Welcome) (data : List Nat) : Option Welcome :=
  match sliceFrom data 1 with
  | none => none
  | some d =>
    match bigEndianUint16 d with
    | none => none
    | some v => some ⟨WelcomeReplyType, v⟩

def Announce.Unmarshal (_a : Announce) (data : List Nat) : Option Announce :=
  match getIndex data 1 with
  | none => none
  | some size =>
    match sliceFrom data 2 with
    | none => none
    | some name => some ⟨AnnounceReplyType, size, name⟩

def InvalidCommand.Unmarshal (_i : InvalidCommand) (data : List Nat) :
    Option InvalidCommand :=
  match getIndex data 1 with
  | none => none
  | some size =>
    match sliceFrom data 2 with
    | none => none
    | some str => some ⟨InvalidCommandReplyType, size, str⟩

def StationsCommand.Unmarshal (_s : StationsCommand) (data : List Nat) :
    Option StationsCommand :=
  match sliceFrom data 1 with
  | Option.none => Option.none
  | Option.some d =>
    match bigEndianUint16 d with
    | Option.none => Option.none
    | Option.some v => Option.some ⟨StationsCommandType, v⟩

def StationsReply.Unmarshal (_i : StationsReply) (data : List Nat) :
    Option StationsReply :=
  match getIndex data 1 with
  | none => none
  | some size =>
    match sliceFrom data 2 with
    | none => none
    | some str => some ⟨StationsReplyType, size, str⟩

/-! ### ReadMessage -/

/-- What `ReadMessage` hands back: the pair `(any, error)` it returns, or a
panic; in both cases together with the bytes of the stream left unread. -/
abbrev ReadResult := Outcome (Option Message × Option Error) × List Nat

/-- The function `readMessageType`: one byte is read with `io.ReadFull`; the
byte (zero when nothing was read) is returned with the error. -/
def readMessageType (conn : List Nat) (_timeout : Bool) :
    (Nat × Option Error) × List Nat :=
  match ioReadFull conn (make 1) with
  | ((buf, _, err), conn) => ((buf.getD 0 0, err), conn)

/-- Lines 304-334 of `ReadMessage`: the `switch t` that unmarshals the
buffer into the struct of the tag. -/
def decodeBuffer (t : Nat) (buf : List Nat) : Outcome (Option Message × Option Error) :=
  if t = HelloCommandType then
    match Hello.Unmarshal ⟨0, 0⟩ buf with
    | none => .panic
    | some h => .ret (some (.hello h), none)
  else if t = SetStationCommandType then
    match SetStation.Unmarshal ⟨0, 0⟩ buf with
    | none => .panic
    | some s => .ret (some (.setStation s), none)
  else if t = WelcomeReplyType then
    match Welcome.Unmarshal ⟨0, 0⟩ buf with
    | none => .panic
    | some w => .ret (some (.welcome w), none)
  else if t = AnnounceReplyType then
    match Announce.Unmarshal ⟨0, 0, []⟩ buf with
    | none => .panic
    | some a => .ret (some (.announce a), none)
  else if t = InvalidCommandReplyType then
    match InvalidCommand.Unmarshal ⟨0, 0, []⟩ buf with
    | none => .panic
    | some i => .ret (some (.invalidCommand i), none)
  else if t = StationsCommandType then
    match StationsCommand.Unmarshal ⟨0, 0⟩ buf with
    | none => .panic
    | some s => .ret (some (.stationsCommand s), none)
  else if t = StationsReplyType then
    match StationsReply.Unmarshal ⟨0, 0, []⟩ buf with
    | none => .panic
    | some s => .ret (some (.stationsReply s), none)
  else .ret (none, none)

/-- Lines 293-334 of `ReadMessage`: the rest of the frame is read into
`buf[offset:]`, the three error checks are made, and the buffer is decoded. -/
def readBody (t offset remain : Nat) (buf conn : List Nat) : ReadResult :=
  match sliceFrom buf offset with
  | none => (.panic, conn)
  | some sub =>
    match ioReadFull conn sub with
    | ((sub, n, err), conn) =>
      let buf := buf.take offset ++ sub
      if err = some Error.EOF then (.ret (none, err), conn)
      else if err ≠ none then (.ret (none, err), conn)
      else if n ≠ remain then (.ret (none, err), conn)
      else (decodeBuffer t buf, conn)

/-- The function `ReadMessage`.  The variables `offset` and `remain` are
`uint8`, so the buffer size `offset+remain` is computed modulo 256. -/
def ReadMessage (conn : List Nat) (timeout : Bool) : ReadResult :=
  match readMessageType conn timeout with
  | ((_, some err), conn) => (.ret (none, some err), conn)
  | ((t, none), conn) =>
    if t > MessageTypeBound ∧ t ≠ StationsCommandType ∧ t ≠ StationsReplyType then
      (.ret (none, some Error.unknownMessageType), conn)
    else
      let offset : Nat := 1
      let remain : Nat := 2
      if t = AnnounceReplyType ∨ t = InvalidCommandReplyType ∨ t = StationsReplyType then
        match ioReadFull conn (make 1) with
        | ((_, _, some err), conn) => (.ret (none, some err), conn)
        | ((sizeBuf, _, none), conn) =>
          let offset : Nat := 2
          let remain : Nat := sizeBuf.getD 0 0
          let buf := make ((offset + remain) % 256)
          match setIndex buf 0 t with
          | none => (.panic, conn)
          | some buf =>
            match setIndex buf 1 (remain % 256) with
            | none => (.panic, conn)
            | some buf => readBody t offset remain buf conn
      else
        let buf := make ((offset + remain) % 256)
        match setIndex buf 0 t with
        | none => (.panic, conn)
        | some buf => readBody t offset remain buf conn

/-! ### Vocabulary of the statements -/

/-- Every element of the list is a byte. -/
def IsBytes (l : List Nat) : Prop := ∀ b ∈ l, b < 256

/-- The message `decodeBuffer` builds for a length-prefixed tag. -/
def sizedMessage (t size : Nat) (payload : List Nat) : Message :=
  if t = AnnounceReplyType then .announce ⟨AnnounceReplyType, size, payload⟩
  else if t = InvalidCommandReplyType then
    .invalidCommand ⟨InvalidCommandReplyType, size, payload⟩
  else .stationsReply ⟨StationsReplyType, size, payload⟩

/-- The message `decodeBuffer` builds for a fixed-body tag. -/
def fixedMessage (t v : Nat) : Message :=
  if t = HelloCommandType then .hello ⟨HelloCommandType, v⟩
  else if t = SetStationCommandType then .setStation ⟨SetStationCommandType, v⟩
  else if t = WelcomeReplyType then .welcome ⟨WelcomeReplyType, v⟩
  else .stationsCommand ⟨StationsCommandType, v⟩

/-- A well-formed frame, in the words of the protocol table: a tag 0, 1, 2
or 254 followed by exactly two bytes, or a tag 3, 4 or 255 followed by a
length byte and exactly that many payload bytes. -/
def WellFormedFrame (b : List Nat) : Prop :=
  IsBytes b ∧
  match b with
  | t :: rest =>
    ((t = 0 ∨ t = 1 ∨ t = 2 ∨ t = 254) ∧ rest.length = 2) ∨
    ((t = 3 ∨ t = 4 ∨ t = 255) ∧
      match rest with
      | len :: payload => payload.length = len
      | [] => False)
  | [] => False

/-- The tag that the protocol table gives to the struct of the message. -/
def Message.variantTag : Message → Nat
  | .hello _ => 0
  | .setStation _ => 1
  | .welcome _ => 2
  | .announce _ => 3
  | .invalidCommand _ => 4
  | .stationsCommand _ => 254
  | .stationsReply _ => 255

end protocol

namespace kit

/-! ## Membership (kit.go)

Pointers are indices.  A `*Client` is the index of the client record in
`State.heap`, the list of all records allocated by `AddClient` so far; a
`*Station` is the index of the station in `State.Stations`, a slice that is
filled once by `NewState` and never reassigned.  The mutex calls have no
effect in a sequential run and are left out; the wait group is its counter. -/

structure Client where
  Station : Option Nat
  TcpConn : Nat
  UdpConn : Nat
  CloseChan : List Int
  SongChan : List (List Nat)
deriving DecidableEq, Repr

structure Station where
  Songname : List Nat
  Listeners : List Nat
deriving DecidableEq, Repr

def NewStation (name : List Nat) : Station := ⟨name, []⟩

structure State where
  heap : List Client
  clients : List Nat
  Stations : List Station
  waitGroup : Int
deriving DecidableEq, Repr

def NewState (files : List (List Nat)) : State :=
  ⟨[], [], files.map NewStation, 0⟩

/-- The loop `for i, c := range l { if c == client { index = i; break } }`:
the first index at which `client` occurs; `none` stands for `index == -1`. -/
def searchClient : List Nat → Nat → Option Nat
  | [], _ => none
  | c :: cs, client =>
    if c = client then some 0 else (searchClient cs client).map (· + 1)

/-- The expression `append(l[:index], l[index+1:]...)`. -/
def removeAt (l : List Nat) (index : Nat) : List Nat :=
  l.take index ++ l.drop (index + 1)

/-- The method `AddClient`: a fresh record with no station and two empty
channels of capacity 1 is allocated, the wait group is incremented, the
pointer is appended to `clients` and returned. -/
def State.AddClient (s : State) (tcpConn udpConn : Nat) : State × Nat :=
  let client : Client := ⟨none, tcpConn, udpConn, [], []⟩
  let ptr := s.heap.length
  (⟨s.heap ++ [client], s.clients ++ [ptr], s.Stations, s.waitGroup + 1⟩, ptr)

/-- The block `if client.Station != nil { ... }` that `RemoveClient` (lines
132-144) and `SetStation` (lines 149-161) both contain: the client is looked
up in the listener list of its current station and removed from it when it
is found.  `none` is the panic of dereferencing a pointer that is not a live
record. -/
def State.dropListener (s : State) (client : Nat) : Option State :=
  match s.heap[client]? with
  | none => none
  | some c =>
    match c.Station with
    | none => some s
    | some st =>
      match s.Stations[st]? with
      | none => none
      | some station =>
        match searchClient station.Listeners client with
        | none => some s
        | some index =>
          some ⟨s.heap, s.clients,
            s.Stations.set st ⟨station.Songname, removeAt station.Listeners index⟩,
            s.waitGroup⟩

/-- The method `RemoveClient`.  `waitGroup.Done()` panics when the counter
would become negative. -/
def State.RemoveClient (s : State) (client : Nat) : Option State :=
  match searchClient s.clients client with
  | none => some s
  | some index =>
    let s1 : State := ⟨s.heap, removeAt s.clients index, s.Stations, s.waitGroup⟩
    match s1.dropListener client with
    | none => none
    | some s2 =>
      if s2.waitGroup - 1 < 0 then none
      else some ⟨s2.heap, s2.clients, s2.Stations, s2.waitGroup - 1⟩

/-- The method `SetStation`.  There is no bounds check: `s.Stations[x]`
panics for an index out of range, after the client was removed from the
listener list of its old station. -/
def State.SetStation (s : State) (x : Int) (client : Nat) : Option State :=
  match s.dropListener client with
  | none => none
  | some s1 =>
    if 0 ≤ x ∧ x < s1.Stations.length then
      match s1.Stations[x.toNat]?, s1.heap[client]? with
      | some station, some c =>
        some ⟨s1.heap.set client ⟨some x.toNat, c.TcpConn, c.UdpConn, c.CloseChan, c.SongChan⟩,
          s1.clients,
          s1.Stations.set x.toNat ⟨station.Songname, station.Listeners ++ [client]⟩,
          s1.waitGroup⟩
      | _, _ => none
    else none

/-! ### Runs of the membership operations -/

/-- One call on the membership table. -/
inductive Op where
  | addClient (tcpConn udpConn : Nat)
  | setStation (x : Nat) (client : Nat)
  | removeClient (client : Nat)
deriving DecidableEq, Repr

/-- The calls considered: `SetStation` with an index below the station count,
and only pointers that `AddClient` has returned. -/
def Op.admissible (s : State) : Op → Bool
  | .addClient _ _ => true
  | .setStation x client => decide (x < s.Stations.length) && decide (client < s.heap.length)
  | .removeClient client => decide (client < s.heap.length)

def State.apply (s : State) : Op → Option State
  | .addClient tcpConn udpConn => some (s.AddClient tcpConn udpConn).1
  | .setStation x client => s.SetStation x client
  | .removeClient client => s.RemoveClient client

def State.step (s : State) (op : Op) : Option State :=
  if op.admissible s then s.apply op else none

def State.run (s : State) : List Op → Option State
  | [] => some s
  | op :: ops =>
    match s.step op with
    | none => none
    | some s1 => s1.run ops

/-- The states reachable from `NewState(files)`. -/
def Reachable (files : List (List Nat)) (s : State) : Prop :=
  ∃ ops, (NewState files).run ops = some s

/-- The call concerns the client `c`. -/
def Op.touches (c : Nat) : Op → Bool
  | .addClient _ _ => false
  | .setStation _ client => decide (client = c)
  | .removeClient client => decide (client = c)

/-- Two stations, with the one-letter song names `a` and `b`. -/
def demoFiles : List (List Nat) := [[97], [98]]

/-- Two sessions: both tune to station 1, the first moves to station 0, the
second ends. -/
def demoOps : List Op :=
  [.addClient 0 0, .addClient 1 1, .setStation 1 0, .setStation 1 1, .setStation 0 0,
    .removeClient 1]

/-- The state in which the run `demoOps` ends. -/
def demoState : State :=
  ⟨[⟨some 0, 0, 0, [], []⟩, ⟨some 1, 1, 1, [], []⟩], [0], [⟨[97], [0]⟩, ⟨[98], []⟩], 1⟩

/-- The listener list of station `i` (empty when there is no such station). -/
def State.listeners (s : State) (i : Nat) : List Nat :=
  match s.Stations[i]? with
  | some station => station.Listeners
  | none => []

/-- The `Station` field of the client `c`, as a station index. -/
def State.stationOf (s : State) (c : Nat) : Option Nat :=
  match s.heap[c]? with
  | some client => client.Station
  | none => none

/-- The listener list of `i` with the client `c` taken out when `c` is
recorded as tuned to `i`. -/
def State.unsub (s : State) (c i : Nat) : List Nat :=
  if s.stationOf c = some i then (s.listeners i).erase c else s.listeners i

/-- The invariant of the membership table. -/
structure Inv (s : State) : Prop where
  clients_lt : ∀ c ∈ s.clients, c < s.heap.length
  clients_nodup : s.clients.Nodup
  waitGroup_eq : s.waitGroup = s.clients.length
  station_lt : ∀ c i, s.stationOf c = some i → i < s.Stations.length
  listener_station : ∀ i c, c ∈ s.listeners i → s.stationOf c = some i
  listeners_nodup : ∀ i, (s.listeners i).Nodup

/-! ### The station engine (kit.go, lines 58-99)

A buffered channel is the list of the values it holds, oldest first.  A send
on a channel that holds as many values as its capacity does not return until
a receiver has taken a value: the goroutine is blocked. -/

def count : Nat := 16

def chunkSize : Nat := 16 * 1024 / count

def interval : Nat := 1000000 / count

/-- The capacity given to `CloseChan` and `SongChan` in `AddClient`:
`make(chan int, 1)`, `make(chan string, 1)`. -/
def chanCap : Nat := 1

/-- How a piece of code that sends on channels ends: it runs to its end, it is
blocked at a send (the state is the one reached at that send), or it panics. -/
inductive Run (α : Type) where
  | done (v : α)
  | blocked (v : α)
  | panic
deriving DecidableEq, Repr

/-- The content of the announcement channel of the client `c`. -/
def State.songChan (s : State) (c : Nat) : List (List Nat) :=
  match s.heap[c]? with
  | some client => client.SongChan
  | none => []

/-- The loop of `notify` over the listeners that are still to be served:
`client.SongChan <- s.Songname`, a plain send, for each of them in turn. -/
def notifyLoop (songname : List Nat) : List Nat → State → Run State
  | [], state => .done state
  | client :: rest, state =>
    match state.heap[client]? with
    | none => .panic
    | some c =>
      if c.SongChan.length < chanCap then
        notifyLoop songname rest
          ⟨state.heap.set client
              ⟨c.Station, c.TcpConn, c.UdpConn, c.CloseChan, c.SongChan ++ [songname]⟩,
            state.clients, state.Stations, state.waitGroup⟩
      else .blocked state

/-- The function `notify(s, state)`, the station `s` given by its index. -/
def notify (s : Nat) (state : State) : Run State :=
  match state.Stations[s]? with
  | none => .panic
  | some station => notifyLoop station.Songname station.Listeners state

/-- The function `send(s, state, data, n)`: for each listener in turn,
`data[:n]` is written to its UDP connection; the result is the list of the
datagrams, each with the connection it was written to.  `none` is a panic:
of the slice expression `data[:n]`, evaluated inside the loop, when `n`
exceeds the length of `data`, or of the dereference of a pointer that is not
a live record.  With no listener the loop body does not run and the function
returns whatever `n` is. -/
def send (s : Nat) (state : State) (data : List Nat) (n : Nat) :
    Option (List (Nat × List Nat)) :=
  match state.Stations[s]? with
  | none => none
  | some station =>
    station.Listeners.mapM (fun client =>
      match state.heap[client]? with
      | none => none
      | some c => if n ≤ data.length then some (c.UdpConn, data.take n) else none)

/-- The call `file.Read(data)` on a regular file with the bytes `content`,
at the read position `pos`: up to `len(data)` bytes are copied to the front
of `data`; at the end of the file nothing is read and the error is `io.EOF`.
The result is the buffer, the count `n` and whether the error is `io.EOF`. -/
def fileRead (content : List Nat) (pos : Nat) (data : List Nat) :
    List Nat × Nat × Bool :=
  let bytes := (content.drop pos).take data.length
  if bytes.length = 0 ∧ 0 < data.length then (data, 0, true)
  else (bytes ++ data.drop bytes.length, bytes.length, false)

/-- What one turn of the loop of `start` does with the file, as seen from
the read position `pos` before the turn. -/
structure FileTick where
  data : List Nat
  n : Nat
  wrap : Bool
  pos : Nat
deriving DecidableEq, Repr

/-- The file side of one turn of the loop of `start` (lines 72-80): a chunk
is read; when `n < chunkSize || err == io.EOF` the file is rewound to offset
0 (and `notify` is called), otherwise the position has advanced by `n`. -/
def tickFile (content : List Nat) (pos : Nat) : FileTick :=
  match fileRead content pos (protocol.make chunkSize) with
  | (data, n, eof) =>
    let wrap := decide (n < chunkSize) || eof
    ⟨data, n, wrap, if wrap then 0 else pos + n⟩

/-- What one turn of the loop of `start` leaves behind. -/
structure TickResult where
  pos : Nat
  wrapped : Bool
  state : State
  datagrams : List (Nat × List Nat)
deriving DecidableEq, Repr

/-- One turn of the loop of `start` for the station `s` (lines 72-85): read,
rewind and `notify` on a wrap, then `send`.  The sleep is not modelled. -/
def tick (content : List Nat) (s : Nat) (state : State) (pos : Nat) : Run TickResult :=
  let f := tickFile content pos
  if f.wrap then
    match notify s state with
    | .panic => .panic
    | .blocked state1 => .blocked ⟨f.pos, true, state1, []⟩
    | .done state1 =>
      match send s state1 f.data f.n with
      | none => .panic
      | some datagrams => .done ⟨f.pos, true, state1, datagrams⟩
  else
    match send s state f.data f.n with
    | none => .panic
    | some datagrams => .done ⟨f.pos, false, state, datagrams⟩

/-- The read position of the pacer after `k` turns, starting at offset 0. -/
def pacerPos (content : List Nat) : Nat → Nat
  | 0 => 0
  | k + 1 => (tickFile content (pacerPos content k)).pos

/-- Whether the `k`-th turn (`k = 1, 2, ...`) of a pacer that starts at offset
0 detects the wrap. -/
def wrapOnTick (content : List Nat) (k : Nat) : Bool :=
  (tickFile content (pacerPos content (k - 1))).wrap

/-- The state `demoState` after a wrap of station 0 that no session has
answered yet: the announcement channel of client 0 holds the song name. -/
def demoPending : State :=
  ⟨[⟨some 0, 0, 0, [], [[97]]⟩, ⟨some 1, 1, 1, [], []⟩], [0], [⟨[97], [0]⟩, ⟨[98], []⟩], 1⟩

/-- The UDP connection of the client `c`. -/
def State.udpConn (s : State) (c : Nat) : Nat :=
  match s.heap[c]? with
  | some client => client.UdpConn
  | none => 0

/-- The content of the close channel of the client `c`. -/
def State.closeChan (s : State) (c : Nat) : List Int :=
  match s.heap[c]? with
  | some client => client.CloseChan
  | none => []

/-- The payload `data[:n]` of the datagrams of the `k`-th turn
(`k = 1, 2, ...`) of a pacer that starts at offset 0. -/
def payloadOnTick (content : List Nat) (k : Nat) : List Nat :=
  (tickFile content (pacerPos content (k - 1))).data.take
    (tickFile content (pacerPos content (k - 1))).n

/-- The first `k` turns of the loop `for { ... }` of `start`, each on the
state and the read position that the turn before it left; nothing else acts
on the state in between.  The result lists what each turn has left behind;
the loop stops at a turn that is blocked, which is then the last of the
list. -/
def startLoop (content : List Nat) (s : Nat) : Nat → State → Nat → Run (List TickResult)
  | 0, _, _ => .done []
  | k + 1, state, pos =>
    match tick content s state pos with
    | .panic => .panic
    | .blocked r => .blocked [r]
    | .done r =>
      match startLoop content s k r.state r.pos with
      | .panic => .panic
      | .blocked l => .blocked (r :: l)
      | .done l => .done (r :: l)

/-- The chunk of the file that the turn with index `j` (`j = 0, 1, ...`) of a
pacer that starts at offset 0 reads before the first wrap. -/
def chunkAt (content : List Nat) (j : Nat) : List Nat :=
  (content.drop (j * chunkSize)).take chunkSize

/-- A song file of 2500 bytes, two chunks and a rest, with the bytes
`0, 1, ..., 250, 0, 1, ...`. -/
def demoSong : List Nat := (List.range 2500).map (fun i => i % 251)

/-- The state `s1` differs from the state `s` at most in what the channels
of the clients hold. -/
def SameMembership (s s1 : State) : Prop :=
  s1.clients = s.clients ∧ s1.Stations = s.Stations ∧ s1.waitGroup = s.waitGroup ∧
  s1.heap.map (fun c => (c.Station, c.TcpConn, c.UdpConn))
    = s.heap.map (fun c => (c.Station, c.TcpConn, c.UdpConn))

/-- The state `demoState` after `State.Close()` has sent on the close channel
of its one client. -/
def demoClosing : State :=
  ⟨[⟨some 0, 0, 0, [1], []⟩, ⟨some 1, 1, 1, [], []⟩], [0], [⟨[97], [0]⟩, ⟨[98], []⟩], 1⟩

end kit

namespace server

open protocol kit

/-! ## The session code (cmd/server/main.go)

The global `state` is passed in and handed back.  A TCP connection is the
bytes still to be read from the peer, the list of the byte slices given to
`Write` so far, and a script that says which of the coming `Write` calls fail
(`true`: that call returns an error; past the end of the script the calls
succeed).  `net.Dial` is a function from the UDP port of the peer to the
connection it returns, or to `none` when it returns an error. -/

structure TcpConn where
  id : Nat
  input : List Nat
  writes : List (List Nat)
  failures : List Bool
  closed : Bool
deriving DecidableEq, Repr

/-- The error values of `WriteMessage`: the one of `Marshal`, or the one of
`conn.Write`. -/
inductive WriteError where
  | marshal (e : Error)
  | conn
deriving DecidableEq, Repr

/-- The call `conn.Write(buf)`. -/
def TcpConn.Write (conn : TcpConn) (buf : List Nat) : TcpConn × Nat × Option WriteError :=
  match conn.failures with
  | true :: rest =>
    (⟨conn.id, conn.input, conn.writes ++ [buf], rest, conn.closed⟩, 0, some WriteError.conn)
  | false :: rest =>
    (⟨conn.id, conn.input, conn.writes ++ [buf], rest, conn.closed⟩, buf.length, none)
  | [] =>
    (⟨conn.id, conn.input, conn.writes ++ [buf], [], conn.closed⟩, buf.length, none)

/-- The call `conn.Close()`. -/
def TcpConn.Close (conn : TcpConn) : TcpConn :=
  ⟨conn.id, conn.input, conn.writes, conn.failures, true⟩

/-- The function `protocol.WriteMessage` (protocol.go, lines 242-249). -/
def WriteMessage (conn : TcpConn) (m : Message) : TcpConn × Nat × Option WriteError :=
  match m.Marshal with
  | (_, some err) => (conn, 0, some (WriteError.marshal err))
  | (some buf, none) => conn.Write buf
  | (none, none) => conn.Write []

/-- The bytes of a Go string literal made of ASCII characters. -/
def goString (s : String) : List Nat := s.toList.map Char.toNat

/-- The verb `%d` of `fmt.Sprintf` for a non-negative `int`: its decimal
digits. -/
def decimal (i : Nat) : List Nat := (Nat.toDigits 10 i).map Char.toNat

/-- The function `handleSetStation`.  The result is the state, the
connection and the returned `bool`; `none` is a panic.  The comparison is
made in `uint16`: `uint16(len(state.Stations)) <= s.StationNumber`. -/
def handleSetStation (state : State) (conn : TcpConn) (s : SetStation) (client : Nat) :
    Option (State × TcpConn × Bool) :=
  if state.Stations.length % 65536 ≤ s.StationNumber then
    match WriteMessage conn
      (.invalidCommand (NewInvalidCommand (goString "invalid station number"))) with
    | (conn1, _, _) => some (state, conn1, false)
  else
    match state.SetStation (s.StationNumber : Int) client with
    | none => none
    | some state1 =>
      match state1.heap[client]? with
      | none => none
      | some c =>
        match c.Station with
        | none => none
        | some st =>
          match state1.Stations[st]? with
          | none => none
          | some station =>
            match WriteMessage conn (.announce (NewAnnounce station.Songname)) with
            | (conn1, _, err) => some (state1, conn1, decide (err = none))

/-- The loop of `handleStationsCommand`, from the index `i` on:
`result = fmt.Sprintf("%s%d %s\n", result, i, station.Songname)`. -/
def listingLoop : List Station → Nat → List Nat → List Nat
  | [], _, result => result
  | station :: rest, i, result =>
    listingLoop rest (i + 1) (result ++ decimal i ++ [32] ++ station.Songname ++ [10])

/-- The listing in the words of the specification: for every station, in
index order and with the indices counted from `i`, the decimal index, one
space, the song name and a newline. -/
def listingFrom : Nat → List Station → List Nat
  | _, [] => []
  | i, station :: rest =>
    (decimal i ++ [32] ++ station.Songname ++ [10]) ++ listingFrom (i + 1) rest

/-- The function `handleStationsCommand`. -/
def handleStationsCommand (state : State) (conn : TcpConn) (_s : StationsCommand)
    (_client : Nat) : State × TcpConn × Bool :=
  let result := listingLoop state.Stations 0 []
  match WriteMessage conn (.stationsReply (NewStationsReply result)) with
  | (conn1, _, err) => (state, conn1, decide (err = none))

/-- The function `handleCommand`, for a value `a` that holds a message (the
conversion to `protocol.Message` succeeds).  The `switch` is on the tag; the
type assertions of the first two cases fail for a message of another
struct. -/
def handleCommand (state : State) (conn : TcpConn) (a : Message) (client : Nat) :
    Option (State × TcpConn × Bool) :=
  if a.GetType = SetStationCommandType then
    match a with
    | .setStation s => handleSetStation state conn s client
    | _ => some (state, conn, false)
  else if a.GetType = StationsCommandType then
    match a with
    | .stationsCommand s => some (handleStationsCommand state conn s client)
    | _ => some (state, conn, false)
  else
    match WriteMessage conn (.invalidCommand (NewInvalidCommand (goString "invalid command"))) with
    | (conn1, _, _) => some (state, conn1, false)

/-- The function `handshake`.  The result is the pair `(net.Conn, bool)` it
returns, with the TCP connection after the call.  The second `if err != nil`
tests the error of `ReadMessage` again, which is nil there. -/
def handshake (state : State) (tcpConn : TcpConn) (dial : Nat → Option Nat) :
    Outcome ((Option Nat × Bool) × TcpConn) :=
  match ReadMessage tcpConn.input true with
  | (.panic, _) => .panic
  | (.ret (_, some _), rest) =>
    .ret ((none, false), ⟨tcpConn.id, rest, tcpConn.writes, tcpConn.failures, tcpConn.closed⟩)
  | (.ret (a, none), rest) =>
    let conn : TcpConn := ⟨tcpConn.id, rest, tcpConn.writes, tcpConn.failures, tcpConn.closed⟩
    match a with
    | some (.hello h) =>
      match WriteMessage conn (.welcome (NewWelcome (state.Stations.length % 65536))) with
      | (conn1, _, _) =>
        match dial h.UdpPort with
        | none => .ret ((none, false), conn1)
        | some udpConn => .ret ((some udpConn, true), conn1)
    | _ => .ret ((none, false), conn)

/-- Lines 93-99 of `handle`: the handshake; when it fails the connection is
closed and the session ends, otherwise the client is added.  The result is
the state, the connection and the new client, if any. -/
def handleGreeting (state : State) (tcpConn : TcpConn) (dial : Nat → Option Nat) :
    Outcome (State × TcpConn × Option Nat) :=
  match handshake state tcpConn dial with
  | .panic => .panic
  | .ret ((some udpConn, true), conn) =>
    match state.AddClient conn.id udpConn with
    | (state1, client) => .ret (state1, conn, some client)
  | .ret (_, conn) => .ret (state, conn.Close, none)

/-- The case of the `select` in the loop of `handle` that fires: a value is
received from `socketChan` (nil once the reading goroutine has closed the
channel, a message otherwise), from `client.SongChan`, or from
`client.CloseChan`. -/
inductive Ready where
  | socket (a : Option Message)
  | song
  | close
deriving DecidableEq, Repr

/-- How one turn of the loop of `handle` ends: the loop goes on, `handle`
has returned, the chosen case cannot fire because its channel is empty, or
there was a panic. -/
inductive Turn where
  | next (state : State) (conn : TcpConn)
  | returned (state : State) (conn : TcpConn)
  | notReady
  | panic
deriving DecidableEq, Repr

/-- One turn of the loop of `handle` (lines 106-137) for the case that
fires.  The sends on the local `closeChan`, which only stop the reading
goroutine, are not modelled. -/
def handleTurn (state : State) (tcpConn : TcpConn) (client : Nat) : Ready → Turn
  | .socket none =>
    match state.RemoveClient client with
    | none => .panic
    | some state1 => .returned state1 tcpConn
  | .socket (some a) =>
    match handleCommand state tcpConn a client with
    | none => .panic
    | some (state1, conn1, true) => .next state1 conn1
    | some (state1, conn1, false) =>
      match state1.RemoveClient client with
      | none => .panic
      | some state2 => .returned state2 conn1.Close
  | .song =>
    match state.heap[client]? with
    | none => .panic
    | some c =>
      match c.SongChan with
      | [] => .notReady
      | songname :: rest =>
        let state1 : State :=
          ⟨state.heap.set client ⟨c.Station, c.TcpConn, c.UdpConn, c.CloseChan, rest⟩,
            state.clients, state.Stations, state.waitGroup⟩
        match WriteMessage tcpConn (.announce (NewAnnounce songname)) with
        | (conn1, _, none) => .next state1 conn1
        | (conn1, _, some _) =>
          match state1.RemoveClient client with
          | none => .panic
          | some state2 => .returned state2 conn1
  | .close =>
    match state.heap[client]? with
    | none => .panic
    | some c =>
      match c.CloseChan with
      | [] => .notReady
      | _ :: rest =>
        let state1 : State :=
          ⟨state.heap.set client ⟨c.Station, c.TcpConn, c.UdpConn, rest, c.SongChan⟩,
            state.clients, state.Stations, state.waitGroup⟩
        match state1.RemoveClient client with
        | none => .panic
        | some state2 => .returned state2 tcpConn

/-- A membership state with 65536 stations and no client. -/
def manyStations : State := ⟨[], [], List.replicate 65536 ⟨[], []⟩, 0⟩

/-- A connection on which the peer has sent the bytes `input`. -/
def freshConn (input : List Nat) : TcpConn := ⟨7, input, [], [], false⟩

/-- A song file path of 256 bytes: `./` followed by 254 times the letter
`a`. -/
def longName : List Nat := 46 :: 47 :: List.replicate 254 97

/-- The server started with the one file `longName`, after one client has
been added. -/
def longNameState : State := ((NewState [longName]).AddClient 7 9000).1

/-- The server started with 60 files, each named `a`. -/
def sixtyStations : State := NewState (List.replicate 60 [97])

end server

namespace protocol

/-! ## Lemmas on `ReadMessage` -/

theorem make_add_two (n : Nat) : make (n + 2) = 0 :: 0 :: make n := by
  simp [make, List.replicate_succ]

theorem make_three : make 3 = [0, 0, 0] := rfl

theorem make_one : make 1 = [0] := rfl

theorem length_make (n : Nat) : (make n).length = n := by simp [make]

/-- A frame of a fixed-body tag followed by anything: three bytes are read
and the buffer `[t, hi, lo]` is decoded. -/
theorem ReadMessage_fixed (t hi lo : Nat) (r : List Nat) (tm : Bool)
    (ht : t = 0 ∨ t = 1 ∨ t = 2 ∨ t = 254) :
    ReadMessage (t :: hi :: lo :: r) tm = (decodeBuffer t [t, hi, lo], r) := by
  rcases ht with h | h | h | h <;> subst h <;>
    simp [ReadMessage, readMessageType, ioReadFull, make_one, make_three, setIndex,
      readBody, sliceFrom, MessageTypeBound, StationsCommandType, StationsReplyType,
      AnnounceReplyType, InvalidCommandReplyType]

theorem decodeBuffer_fixed (t hi lo : Nat) (ht : t = 0 ∨ t = 1 ∨ t = 2 ∨ t = 254) :
    decodeBuffer t [t, hi, lo]
      = .ret (some (fixedMessage t ((hi % 256) * 256 + lo % 256)), none) := by
  rcases ht with h | h | h | h <;> subst h <;>
    simp [decodeBuffer, fixedMessage, Hello.Unmarshal, SetStation.Unmarshal,
      Welcome.Unmarshal, StationsCommand.Unmarshal, sliceFrom, bigEndianUint16,
      HelloCommandType, SetStationCommandType, WelcomeReplyType, AnnounceReplyType,
      InvalidCommandReplyType, StationsCommandType, StationsReplyType]

theorem decodeBuffer_sized (t size : Nat) (p : List Nat) (ht : t = 3 ∨ t = 4 ∨ t = 255) :
    decodeBuffer t (t :: size :: p) = .ret (some (sizedMessage t size p), none) := by
  rcases ht with h | h | h <;> subst h <;>
    simp [decodeBuffer, sizedMessage, Announce.Unmarshal, InvalidCommand.Unmarshal,
      StationsReply.Unmarshal, sliceFrom, getIndex,
      HelloCommandType, SetStationCommandType, WelcomeReplyType, AnnounceReplyType,
      InvalidCommandReplyType, StationsCommandType, StationsReplyType]

/-- A frame of a length-prefixed tag whose length byte is at most 253,
followed by anything: `2 + L` bytes are read and decoded. -/
theorem ReadMessage_sized (t : Nat) (p r : List Nat) (tm : Bool)
    (ht : t = 3 ∨ t = 4 ∨ t = 255) (hL : p.length ≤ 253) :
    ReadMessage (t :: p.length :: (p ++ r)) tm
      = (.ret (some (sizedMessage t p.length p), none), r) := by
  have h256 : (2 + p.length) % 256 = p.length + 2 := by omega
  have hmod : p.length % 256 = p.length := by omega
  have hbody : readBody t 2 p.length (t :: p.length :: make p.length) (p ++ r)
      = (decodeBuffer t (t :: p.length :: p), r) := by
    simp [readBody, sliceFrom, ioReadFull, length_make]
  rcases ht with h | h | h <;> subst h <;>
    simp [ReadMessage, readMessageType, ioReadFull, make_one, setIndex, h256, hmod,
      make_add_two, hbody, decodeBuffer_sized,
      MessageTypeBound, StationsCommandType, StationsReplyType,
      AnnounceReplyType, InvalidCommandReplyType]

/-- A length byte of 254 makes the `uint8` sum `offset+remain` wrap to 0: the
buffer is empty and `buf[0] = t` panics, after two bytes were read. -/
theorem ReadMessage_254 (t : Nat) (r : List Nat) (tm : Bool)
    (ht : t = 3 ∨ t = 4 ∨ t = 255) :
    ReadMessage (t :: 254 :: r) tm = (.panic, r) := by
  rcases ht with h | h | h <;> subst h <;>
    simp [ReadMessage, readMessageType, ioReadFull, make_one, setIndex, make,
      MessageTypeBound, StationsCommandType, StationsReplyType,
      AnnounceReplyType, InvalidCommandReplyType]

/-- A length byte of 255 makes the `uint8` sum `offset+remain` wrap to 1: the
buffer has one byte and `buf[1] = byte(remain)` panics, after two bytes were
read. -/
theorem ReadMessage_255 (t : Nat) (r : List Nat) (tm : Bool)
    (ht : t = 3 ∨ t = 4 ∨ t = 255) :
    ReadMessage (t :: 255 :: r) tm = (.panic, r) := by
  rcases ht with h | h | h <;> subst h <;>
    simp [ReadMessage, readMessageType, ioReadFull, make_one, setIndex, make,
      MessageTypeBound, StationsCommandType, StationsReplyType,
      AnnounceReplyType, InvalidCommandReplyType]

theorem readMessageType_cons (t : Nat) (rest : List Nat) (tm : Bool) :
    readMessageType (t :: rest) tm = ((t, none), rest) := by
  simp [readMessageType, ioReadFull, make_one]

/-- The error of `io.ReadFull` is nil, `io.EOF` or `io.ErrUnexpectedEOF`. -/
theorem ioReadFull_error (conn buf : List Nat) :
    (ioReadFull conn buf).1.2.2 ≠ some Error.unknownMessageType := by
  unfold ioReadFull
  split_ifs <;> simp

theorem decodeBuffer_error (t : Nat) (buf : List Nat) (x : Option Message) :
    decodeBuffer t buf ≠ .ret (x, some Error.unknownMessageType) := by
  unfold decodeBuffer
  split_ifs <;> first | (split <;> simp) | simp

theorem readBody_error (t offset remain : Nat) (buf conn : List Nat) (x : Option Message) :
    (readBody t offset remain buf conn).1 ≠ .ret (x, some Error.unknownMessageType) := by
  unfold readBody
  split
  · simp
  · have h := ioReadFull_error conn (by assumption)
    split
    rename_i heq
    rw [heq] at h
    simp only at h
    split_ifs with h1 h2 h3
    · simp [h1]
    · simpa using fun _ => h
    · simp at h2; simp [h2]
    · exact decodeBuffer_error _ _ _

theorem Marshal_NewAnnounce (s : List Nat) :
    (NewAnnounce s).Marshal = (some (3 :: s.length % 256 :: s), none) := by
  simp [NewAnnounce, Announce.Marshal, marshalSized, binaryWriteU8, bufferWrite,
    AnnounceReplyType]

theorem Marshal_NewInvalidCommand (s : List Nat) :
    (NewInvalidCommand s).Marshal = (some (4 :: s.length % 256 :: s), none) := by
  simp [NewInvalidCommand, InvalidCommand.Marshal, marshalSized, binaryWriteU8, bufferWrite,
    InvalidCommandReplyType]

theorem Marshal_NewStationsReply (s : List Nat) :
    (NewStationsReply s).Marshal = (some (255 :: s.length % 256 :: s), none) := by
  simp [NewStationsReply, StationsReply.Marshal, marshalSized, binaryWriteU8, bufferWrite,
    StationsReplyType]

theorem isBytes_replicate (n b : Nat) (hb : b < 256) : IsBytes (List.replicate n b) := by
  intro x hx
  rw [List.eq_of_mem_replicate hx]
  exact hb

/-! ### The tag of a decoded message -/

theorem Hello_Unmarshal_tag {h0 h : Hello} {data : List Nat}
    (hh : Hello.Unmarshal h0 data = some h) : h.commandType = HelloCommandType := by
  unfold Hello.Unmarshal at hh
  split at hh
  · cases hh
  · split at hh
    · cases hh
    · cases hh
      rfl

theorem SetStation_Unmarshal_tag {s0 s : SetStation} {data : List Nat}
    (hh : SetStation.Unmarshal s0 data = some s) : s.commandType = SetStationCommandType := by
  unfold SetStation.Unmarshal at hh
  split at hh
  · cases hh
  · split at hh
    · cases hh
    · cases hh
      rfl

theorem Welcome_Unmarshal_tag {w0 w : Welcome} {data : List Nat}
    (hh : Welcome.Unmarshal w0 data = some w) : w.replyType = WelcomeReplyType := by
  unfold Welcome.Unmarshal at hh
  split at hh
  · cases hh
  · split at hh
    · cases hh
    · cases hh
      rfl

theorem Announce_Unmarshal_tag {a0 a : Announce} {data : List Nat}
    (hh : Announce.Unmarshal a0 data = some a) : a.replyType = AnnounceReplyType := by
  unfold Announce.Unmarshal at hh
  split at hh
  · cases hh
  · split at hh
    · cases hh
    · cases hh
      rfl

theorem InvalidCommand_Unmarshal_tag {i0 i : InvalidCommand} {data : List Nat}
    (hh : InvalidCommand.Unmarshal i0 data = some i) :
    i.replyType = InvalidCommandReplyType := by
  unfold InvalidCommand.Unmarshal at hh
  split at hh
  · cases hh
  · split at hh
    · cases hh
    · cases hh
      rfl

theorem StationsCommand_Unmarshal_tag {s0 s : StationsCommand} {data : List Nat}
    (hh : StationsCommand.Unmarshal s0 data = some s) :
    s.commandType = StationsCommandType := by
  unfold StationsCommand.Unmarshal at hh
  split at hh
  · cases hh
  · split at hh
    · cases hh
    · cases hh
      rfl

theorem StationsReply_Unmarshal_tag {i0 i : StationsReply} {data : List Nat}
    (hh : StationsReply.Unmarshal i0 data = some i) : i.replyType = StationsReplyType := by
  unfold StationsReply.Unmarshal at hh
  split at hh
  · cases hh
  · split at hh
    · cases hh
    · cases hh
      rfl

/-- A message built by the `switch` of `ReadMessage` carries the tag of its
struct. -/
theorem decodeBuffer_GetType {t : Nat} {buf : List Nat} {m : Message} {e : Option Error}
    (h : decodeBuffer t buf = .ret (some m, e)) : m.GetType = m.variantTag := by
  unfold decodeBuffer at h
  split_ifs at h
  · split at h
    · cases h
    · rename_i x hx
      cases h
      exact Hello_Unmarshal_tag hx
  · split at h
    · cases h
    · rename_i x hx
      cases h
      exact SetStation_Unmarshal_tag hx
  · split at h
    · cases h
    · rename_i x hx
      cases h
      exact Welcome_Unmarshal_tag hx
  · split at h
    · cases h
    · rename_i x hx
      cases h
      exact Announce_Unmarshal_tag hx
  · split at h
    · cases h
    · rename_i x hx
      cases h
      exact InvalidCommand_Unmarshal_tag hx
  · split at h
    · cases h
    · rename_i x hx
      cases h
      exact StationsCommand_Unmarshal_tag hx
  · split at h
    · cases h
    · rename_i x hx
      cases h
      exact StationsReply_Unmarshal_tag hx
  · cases h

theorem readBody_GetType {t offset remain : Nat} {buf conn rest : List Nat} {m : Message}
    {e : Option Error} (h : readBody t offset remain buf conn = (.ret (some m, e), rest)) :
    m.GetType = m.variantTag := by
  unfold readBody at h
  split at h
  · cases h
  · split at h
    simp only at h
    split_ifs at h
    · cases h
    · cases h
    · cases h
    · exact decodeBuffer_GetType (congrArg Prod.fst h)

/-- A message returned by `ReadMessage` carries the tag of its struct. -/
theorem ReadMessage_GetType {conn rest : List Nat} {tm : Bool} {m : Message}
    {e : Option Error} (h : ReadMessage conn tm = (.ret (some m, e), rest)) :
    m.GetType = m.variantTag := by
  unfold ReadMessage at h
  split at h
  · cases h
  · simp only at h
    split_ifs at h
    · cases h
    · split at h
      · cases h
      · split at h
        · cases h
        · split at h
          · cases h
          · exact readBody_GetType h
    · split at h
      · cases h
      · exact readBody_GetType h

/-! ### Where `ReadMessage` panics -/

/-- The `switch` of `ReadMessage` does not panic on a buffer of three bytes
or more, nor on a buffer of two bytes or more for a length-prefixed tag. -/
theorem decodeBuffer_no_panic (t : Nat) (buf : List Nat)
    (h : 3 ≤ buf.length ∨ (2 ≤ buf.length ∧ (t = 3 ∨ t = 4 ∨ t = 255))) :
    decodeBuffer t buf ≠ .panic := by
  rcases h with h | ⟨h, ht⟩
  · match buf, h with
    | a :: b :: c :: r, _ =>
      unfold decodeBuffer
      split_ifs <;>
        simp [Hello.Unmarshal, SetStation.Unmarshal, Welcome.Unmarshal, Announce.Unmarshal,
          InvalidCommand.Unmarshal, StationsCommand.Unmarshal, StationsReply.Unmarshal,
          sliceFrom, bigEndianUint16, getIndex]
  · match buf, h with
    | a :: b :: r, _ =>
      rcases ht with ht | ht | ht <;> subst ht <;>
        simp [decodeBuffer, Announce.Unmarshal, InvalidCommand.Unmarshal,
          StationsReply.Unmarshal, sliceFrom, getIndex,
          HelloCommandType, SetStationCommandType, WelcomeReplyType, AnnounceReplyType,
          InvalidCommandReplyType, StationsCommandType, StationsReplyType]

theorem readBody_no_panic (t offset remain : Nat) (buf conn : List Nat)
    (ho : offset ≤ buf.length)
    (h : 3 ≤ buf.length ∨ (2 ≤ buf.length ∧ (t = 3 ∨ t = 4 ∨ t = 255))) :
    (readBody t offset remain buf conn).1 ≠ .panic := by
  unfold readBody
  simp only [sliceFrom, ho, if_true]
  by_cases h1 : (buf.drop offset).length ≤ conn.length
  · have hr : ioReadFull conn (buf.drop offset)
        = ((conn.take (buf.drop offset).length, (buf.drop offset).length, none),
            conn.drop (buf.drop offset).length) := by
      unfold ioReadFull
      rw [if_pos h1]
    rw [hr]
    simp only
    rw [if_neg (by simp : ¬ ((none : Option Error) = some Error.EOF)),
      if_neg (by simp : ¬ ((none : Option Error) ≠ none))]
    by_cases hn : (buf.drop offset).length ≠ remain
    · rw [if_pos hn]
      intro hp
      cases hp
    · rw [if_neg hn]
      apply decodeBuffer_no_panic
      have hl : (buf.take offset ++ conn.take (buf.drop offset).length).length
          = buf.length := by
        simp only [List.length_append, List.length_take, List.length_drop] at h1 ⊢
        omega
      rw [hl]
      exact h
  · by_cases h2 : conn.length = 0
    · have hr : ioReadFull conn (buf.drop offset)
          = ((buf.drop offset, 0, some Error.EOF), []) := by
        unfold ioReadFull
        rw [if_neg h1, if_pos h2]
      rw [hr]
      simp
    · have hr : ioReadFull conn (buf.drop offset)
          = ((conn ++ (buf.drop offset).drop conn.length, conn.length,
              some Error.ErrUnexpectedEOF), []) := by
        unfold ioReadFull
        rw [if_neg h1, if_neg h2]
      rw [hr]
      simp

/-- The inputs on which `ReadMessage` panics are exactly the streams that
begin with a tag 3, 4 or 255 and a length byte `L` for which `2 + L`, taken
modulo 256, is 0 or 1: the length bytes 254 and 255. -/
theorem ReadMessage_panic_iff (conn : List Nat) (tm : Bool) :
    (ReadMessage conn tm).1 = .panic ↔
      ∃ t L rest, conn = t :: L :: rest ∧ (t = 3 ∨ t = 4 ∨ t = 255) ∧ (2 + L) % 256 < 2 := by
  cases conn with
  | nil =>
    simp [ReadMessage, readMessageType, ioReadFull, make_one]
  | cons t r1 =>
    rw [ReadMessage, readMessageType_cons]
    simp only [MessageTypeBound, StationsCommandType, StationsReplyType, AnnounceReplyType,
      InvalidCommandReplyType]
    by_cases hu : t > 4 ∧ t ≠ 254 ∧ t ≠ 255
    · rw [if_pos hu]
      constructor
      · intro h
        cases h
      · rintro ⟨t1, L, rest, he, ht, _⟩
        have : t = t1 := (List.cons.inj he).1
        omega
    · rw [if_neg hu]
      by_cases hs : t = 3 ∨ t = 4 ∨ t = 255
      · rw [if_pos hs]
        cases r1 with
        | nil =>
          simp [ioReadFull, make_one]
        | cons L rest =>
          have hread : ioReadFull (L :: rest) (make 1) = (([L], 1, none), rest) := by
            simp [ioReadFull, make_one]
          simp only [hread, List.getD_cons_zero]
          by_cases hsz : (2 + L) % 256 < 2
          · have hp : (match setIndex (make ((2 + L) % 256)) 0 t with
                | none => ((Outcome.panic, rest) : ReadResult)
                | some buf =>
                  match setIndex buf 1 (L % 256) with
                  | none => (.panic, rest)
                  | some buf => readBody t 2 L buf rest) = (.panic, rest) := by
              have h01 : (2 + L) % 256 = 0 ∨ (2 + L) % 256 = 1 := by omega
              rcases h01 with h0 | h0 <;> rw [h0] <;> simp [make, setIndex]
            rw [hp]
            exact ⟨fun _ => ⟨t, L, rest, rfl, hs, hsz⟩, fun _ => rfl⟩
          · obtain ⟨m, hm⟩ : ∃ m, (2 + L) % 256 = m + 2 := ⟨(2 + L) % 256 - 2, by omega⟩
            rw [hm, make_add_two]
            simp only [setIndex, List.length_cons, Nat.zero_lt_succ, if_true, List.set_cons_zero,
              Nat.one_lt_succ_succ, List.set_cons_succ]
            constructor
            · intro h
              exact absurd h (readBody_no_panic t 2 L _ rest (by simp) (Or.inr ⟨by simp, hs⟩))
            · rintro ⟨t1, L1, rest1, he, _, hlt⟩
              have hL : L = L1 := (List.cons.inj (List.cons.inj he).2).1
              subst hL
              omega
      · rw [if_neg hs]
        have hb : setIndex (make ((1 + 2) % 256)) 0 t = some [t, 0, 0] := by
          simp [make_three, setIndex]
        simp only [hb]
        constructor
        · intro h
          exact absurd h (readBody_no_panic t 1 2 _ r1 (by simp) (Or.inl (by simp)))
        · rintro ⟨t1, L, rest, he, ht, _⟩
          have : t = t1 := (List.cons.inj he).1
          subst this
          exact absurd ht hs

/-! ### Where the round trips do hold -/

/-- Decoding the encoding of `NewHello(v)`, `NewSetStation(v)` and
`NewWelcome(v)` gives the message back, for every `uint16` value `v`. -/
theorem decode_encode_fixed (v : Nat) (tm : Bool) (hv : v < 65536) :
    ReadMessage [0, v / 256, v % 256] tm = (.ret (some (.hello (NewHello v)), none), []) ∧
    ReadMessage [1, v / 256, v % 256] tm
      = (.ret (some (.setStation (NewSetStation v)), none), []) ∧
    ReadMessage [2, v / 256, v % 256] tm
      = (.ret (some (.welcome (NewWelcome v)), none), []) := by
  have e : v / 256 % 256 * 256 + v % 256 % 256 = v := by omega
  refine ⟨?_, ?_, ?_⟩
  · rw [ReadMessage_fixed 0 _ _ [] tm (by decide), decodeBuffer_fixed 0 _ _ (by decide), e]
    rfl
  · rw [ReadMessage_fixed 1 _ _ [] tm (by decide), decodeBuffer_fixed 1 _ _ (by decide), e]
    rfl
  · rw [ReadMessage_fixed 2 _ _ [] tm (by decide), decodeBuffer_fixed 2 _ _ (by decide), e]
    rfl

/-- Decoding the encoding of `NewAnnounce(s)`, `NewInvalidCommand(s)` and
`NewStationsReply(s)` gives the message back when `s` has at most 253
bytes. -/
theorem decode_encode_sized (s : List Nat) (tm : Bool) (hs : s.length ≤ 253) :
    ReadMessage (3 :: s.length % 256 :: s) tm
      = (.ret (some (.announce (NewAnnounce s)), none), []) ∧
    ReadMessage (4 :: s.length % 256 :: s) tm
      = (.ret (some (.invalidCommand (NewInvalidCommand s)), none), []) ∧
    ReadMessage (255 :: s.length % 256 :: s) tm
      = (.ret (some (.stationsReply (NewStationsReply s)), none), []) := by
  have hmod : s.length % 256 = s.length := by omega
  have h3 := ReadMessage_sized 3 s [] tm (by decide) hs
  have h4 := ReadMessage_sized 4 s [] tm (by decide) hs
  have h255 := ReadMessage_sized 255 s [] tm (by decide) hs
  rw [List.append_nil] at h3 h4 h255
  rw [hmod]
  refine ⟨?_, ?_, ?_⟩
  · rw [h3]
    simp [sizedMessage, NewAnnounce, AnnounceReplyType, hmod]
  · rw [h4]
    simp [sizedMessage, NewInvalidCommand, AnnounceReplyType, InvalidCommandReplyType, hmod]
  · rw [h255]
    simp [sizedMessage, NewStationsReply, AnnounceReplyType, InvalidCommandReplyType,
      StationsReplyType, hmod]

/-- Encoding what was decoded gives the frame back, for a frame of a
fixed-body tag. -/
theorem encode_decode_fixed (t hi lo : Nat) (tm : Bool)
    (ht : t = 0 ∨ t = 1 ∨ t = 2 ∨ t = 254) (hhi : hi < 256) (hlo : lo < 256) :
    ∃ m, ReadMessage [t, hi, lo] tm = (.ret (some m, none), []) ∧
      m.Marshal = (some [t, hi, lo], none) := by
  have e1 : (hi % 256 * 256 + lo % 256) / 256 % 256 = hi := by omega
  have e2 : (hi % 256 * 256 + lo % 256) % 256 = lo := by omega
  refine ⟨fixedMessage t (hi % 256 * 256 + lo % 256), ?_, ?_⟩
  · rw [ReadMessage_fixed t hi lo [] tm ht, decodeBuffer_fixed t hi lo ht]
  · rcases ht with h | h | h | h <;> subst h <;>
      simp [fixedMessage, Message.Marshal, Hello.Marshal, SetStation.Marshal, Welcome.Marshal,
        StationsCommand.Marshal, marshalFixed, binaryWriteU8, binaryWriteU16, e1, e2,
        HelloCommandType, SetStationCommandType, WelcomeReplyType, StationsCommandType]

/-- Encoding what was decoded gives the frame back, for a frame of a
length-prefixed tag with at most 253 payload bytes. -/
theorem encode_decode_sized (t : Nat) (p : List Nat) (tm : Bool)
    (ht : t = 3 ∨ t = 4 ∨ t = 255) (hL : p.length ≤ 253) :
    ∃ m, ReadMessage (t :: p.length :: p) tm = (.ret (some m, none), []) ∧
      m.Marshal = (some (t :: p.length :: p), none) := by
  have hmod : p.length % 256 = p.length := by omega
  have h := ReadMessage_sized t p [] tm ht hL
  rw [List.append_nil] at h
  refine ⟨sizedMessage t p.length p, h, ?_⟩
  rcases ht with h | h | h <;> subst h <;>
    simp [sizedMessage, Message.Marshal, Announce.Marshal, InvalidCommand.Marshal,
      StationsReply.Marshal, marshalSized, binaryWriteU8, bufferWrite, hmod,
      AnnounceReplyType, InvalidCommandReplyType, StationsReplyType]

/-! ## The claims on the codec -/

/-- C1 (fails on the code). `Decode(Encode(M)) = M` does not hold for every
constructor-built message.  `NewStationsCommand()` is a `SetStation` value
with tag 254; its encoding `[254, 0, 0]` decodes to a `StationsCommand`
value, a different variant.  Further, `NewAnnounce` of a 254-byte name
encodes to a frame on which `ReadMessage` panics, and `NewAnnounce` of a
256-byte name encodes with length byte 0 and decodes to the empty name. -/
theorem C1_decode_encode_not_identity :
    (NewStationsCommand.Marshal = (some [254, 0, 0], none) ∧
      ReadMessage [254, 0, 0] false
        = (.ret (some (.stationsCommand ⟨254, 0⟩), none), []) ∧
      Message.stationsCommand ⟨254, 0⟩ ≠ Message.setStation NewStationsCommand) ∧
    ((NewAnnounce (List.replicate 254 97)).Marshal
        = (some (3 :: 254 :: List.replicate 254 97), none) ∧
      ReadMessage (3 :: 254 :: List.replicate 254 97) false
        = (.panic, List.replicate 254 97)) ∧
    ((NewAnnounce (List.replicate 256 97)).Marshal
        = (some (3 :: 0 :: List.replicate 256 97), none) ∧
      ReadMessage (3 :: 0 :: List.replicate 256 97) false
        = (.ret (some (.announce ⟨3, 0, []⟩), none), List.replicate 256 97) ∧
      Message.announce ⟨3, 0, []⟩ ≠ Message.announce (NewAnnounce (List.replicate 256 97))) := by
  have h254 : (List.replicate 254 97).length % 256 = 254 := by
    rw [List.length_replicate]
  have h256 : (List.replicate 256 97).length % 256 = 0 := by
    rw [List.length_replicate]
  refine ⟨⟨by decide, by decide, by decide⟩, ⟨?_, ?_⟩, ⟨?_, ?_, ?_⟩⟩
  · rw [Marshal_NewAnnounce, h254]
  · exact ReadMessage_254 3 _ false (by decide)
  · rw [Marshal_NewAnnounce, h256]
  · exact ReadMessage_sized 3 [] (List.replicate 256 97) false (by decide) (by decide)
  · intro h
    have hlen := congrArg
      (fun m => match m with
        | Message.announce a => a.Songname.length
        | _ => 0) h
    simp only [NewAnnounce, List.length_nil, List.length_replicate] at hlen
    omega

/-- C2 (fails on the code). The frame with tag 3, length byte 254 and 254
payload bytes is well formed, yet `ReadMessage` does not return a message on
it: the buffer size `offset+remain` wraps to 0 in `uint8` and the store
`buf[0] = t` panics.  The same holds with length byte 255. -/
theorem C2_encode_decode_panics :
    (WellFormedFrame (3 :: 254 :: List.replicate 254 0) ∧
      ReadMessage (3 :: 254 :: List.replicate 254 0) false
        = (.panic, List.replicate 254 0)) ∧
    (WellFormedFrame (3 :: 255 :: List.replicate 255 0) ∧
      ReadMessage (3 :: 255 :: List.replicate 255 0) false
        = (.panic, List.replicate 255 0)) := by
  refine ⟨⟨⟨?_, ?_⟩, ReadMessage_254 3 _ false (by decide)⟩,
    ⟨⟨?_, ?_⟩, ReadMessage_255 3 _ false (by decide)⟩⟩
  · intro b hb
    simp only [List.mem_cons] at hb
    rcases hb with h | h | h
    · omega
    · omega
    · exact isBytes_replicate 254 0 (by decide) b h
  · exact Or.inr ⟨by decide, List.length_replicate _ _⟩
  · intro b hb
    simp only [List.mem_cons] at hb
    rcases hb with h | h | h
    · omega
    · omega
    · exact isBytes_replicate 255 0 (by decide) b h
  · exact Or.inr ⟨by decide, List.length_replicate _ _⟩

/-- C3 (fails on the code). For each of the tags 3, 4 and 255 and each of the
lengths 254 and 255, `ReadMessage` on `[t, L]` followed by any payload (in
particular one of exactly `L` bytes) panics instead of returning the message
with that payload. -/
theorem C3_length_prefixed_decode_panics (p : List Nat) (tm : Bool) :
    ReadMessage (3 :: 254 :: p) tm = (.panic, p) ∧
    ReadMessage (4 :: 254 :: p) tm = (.panic, p) ∧
    ReadMessage (255 :: 254 :: p) tm = (.panic, p) ∧
    ReadMessage (3 :: 255 :: p) tm = (.panic, p) ∧
    ReadMessage (4 :: 255 :: p) tm = (.panic, p) ∧
    ReadMessage (255 :: 255 :: p) tm = (.panic, p) :=
  ⟨ReadMessage_254 3 p tm (by decide), ReadMessage_254 4 p tm (by decide),
    ReadMessage_254 255 p tm (by decide), ReadMessage_255 3 p tm (by decide),
    ReadMessage_255 4 p tm (by decide), ReadMessage_255 255 p tm (by decide)⟩

/-- C4 (fails on the code). For a string of 256 bytes the three `Marshal`
methods write the length byte 0 (the length modulo 256) followed by all 256
bytes of the string: the length byte is not the number of payload bytes. -/
theorem C4_marshal_long_string_malformed :
    (NewAnnounce (List.replicate 256 97)).Marshal
      = (some (3 :: 0 :: List.replicate 256 97), none) ∧
    (NewInvalidCommand (List.replicate 256 97)).Marshal
      = (some (4 :: 0 :: List.replicate 256 97), none) ∧
    (NewStationsReply (List.replicate 256 97)).Marshal
      = (some (255 :: 0 :: List.replicate 256 97), none) ∧
    (List.replicate 256 97).length ≠ 0 := by
  have h256 : (List.replicate 256 97).length % 256 = 0 := by
    rw [List.length_replicate]
  refine ⟨?_, ?_, ?_, ?_⟩
  · rw [Marshal_NewAnnounce, h256]
  · rw [Marshal_NewInvalidCommand, h256]
  · rw [Marshal_NewStationsReply, h256]
  · rw [List.length_replicate]
    decide

/-- C5. For each fixed-body tag 0, 1, 2, 254 and all bytes `hi`, `lo`,
`ReadMessage` on `[t, hi, lo]` (followed by any bytes `r`, in particular by
none) returns, with a nil error, the message of the variant of `t` whose
16-bit field is `256 * hi + lo`; the body read is exactly the two bytes
`hi`, `lo`, and `r` is left unread. -/
theorem C5_fixed_body_decode (hi lo : Nat) (r : List Nat) (tm : Bool)
    (hhi : hi < 256) (hlo : lo < 256) :
    ReadMessage (0 :: hi :: lo :: r) tm
      = (.ret (some (.hello ⟨HelloCommandType, 256 * hi + lo⟩), none), r) ∧
    ReadMessage (1 :: hi :: lo :: r) tm
      = (.ret (some (.setStation ⟨SetStationCommandType, 256 * hi + lo⟩), none), r) ∧
    ReadMessage (2 :: hi :: lo :: r) tm
      = (.ret (some (.welcome ⟨WelcomeReplyType, 256 * hi + lo⟩), none), r) ∧
    ReadMessage (254 :: hi :: lo :: r) tm
      = (.ret (some (.stationsCommand ⟨StationsCommandType, 256 * hi + lo⟩), none), r) := by
  have e : hi % 256 * 256 + lo % 256 = 256 * hi + lo := by
    rw [Nat.mod_eq_of_lt hhi, Nat.mod_eq_of_lt hlo, Nat.mul_comm]
  refine ⟨?_, ?_, ?_, ?_⟩
  · rw [ReadMessage_fixed 0 hi lo r tm (by decide), decodeBuffer_fixed 0 hi lo (by decide), e]
    rfl
  · rw [ReadMessage_fixed 1 hi lo r tm (by decide), decodeBuffer_fixed 1 hi lo (by decide), e]
    rfl
  · rw [ReadMessage_fixed 2 hi lo r tm (by decide), decodeBuffer_fixed 2 hi lo (by decide), e]
    rfl
  · rw [ReadMessage_fixed 254 hi lo r tm (by decide),
      decodeBuffer_fixed 254 hi lo (by decide), e]
    rfl

/-- C5 at the body `35, 40` (the port 9000) with nothing after it. -/
theorem C5_fixed_body_decode_witness :
    ReadMessage (0 :: 35 :: 40 :: []) true
      = (.ret (some (.hello ⟨HelloCommandType, 256 * 35 + 40⟩), none), []) ∧
    ReadMessage (1 :: 35 :: 40 :: []) true
      = (.ret (some (.setStation ⟨SetStationCommandType, 256 * 35 + 40⟩), none), []) ∧
    ReadMessage (2 :: 35 :: 40 :: []) true
      = (.ret (some (.welcome ⟨WelcomeReplyType, 256 * 35 + 40⟩), none), []) ∧
    ReadMessage (254 :: 35 :: 40 :: []) true
      = (.ret (some (.stationsCommand ⟨StationsCommandType, 256 * 35 + 40⟩), none), []) :=
  C5_fixed_body_decode 35 40 [] true (by decide) (by decide)

/-- C6. For every `uint16` value `v`, the encodings of `NewHello(v)`,
`NewSetStation(v)` and `NewWelcome(v)` are the three bytes tag, `v / 256`,
`v mod 256`, each returned with a nil error. -/
theorem C6_fixed_body_encode (v : Nat) (hv : v < 65536) :
    (NewHello v).Marshal = (some [0, v / 256, v % 256], none) ∧
    (NewSetStation v).Marshal = (some [1, v / 256, v % 256], none) ∧
    (NewWelcome v).Marshal = (some [2, v / 256, v % 256], none) := by
  have h : v / 256 % 256 = v / 256 := by omega
  simp [NewHello, NewSetStation, NewWelcome, Hello.Marshal, SetStation.Marshal,
    Welcome.Marshal, marshalFixed, binaryWriteU8, binaryWriteU16, h,
    HelloCommandType, SetStationCommandType, WelcomeReplyType]

/-- C6 at the value 9000. -/
theorem C6_fixed_body_encode_witness :
    (NewHello 9000).Marshal = (some [0, 9000 / 256, 9000 % 256], none) ∧
    (NewSetStation 9000).Marshal = (some [1, 9000 / 256, 9000 % 256], none) ∧
    (NewWelcome 9000).Marshal = (some [2, 9000 / 256, 9000 % 256], none) :=
  C6_fixed_body_encode 9000 (by decide)

/-- C7. A stream whose first byte is none of 0, 1, 2, 3, 4, 254, 255 makes
`ReadMessage` return the unknown-message-type error and no message, whatever
follows, having read that one byte; and a stream whose first byte is one of
the seven tags never yields the unknown-message-type error. -/
theorem C7_unknown_tag (t : Nat) (rest : List Nat) (tm : Bool) :
    (t ∉ [0, 1, 2, 3, 4, 254, 255] →
      ReadMessage (t :: rest) tm = (.ret (none, some Error.unknownMessageType), rest)) ∧
    (t ∈ [0, 1, 2, 3, 4, 254, 255] →
      ∀ x, (ReadMessage (t :: rest) tm).1 ≠ .ret (x, some Error.unknownMessageType)) := by
  constructor
  · intro ht
    simp only [List.mem_cons, List.mem_singleton, List.not_mem_nil, or_false, not_or] at ht
    have h4 : 4 < t := by omega
    simp [ReadMessage, readMessageType, ioReadFull, make_one, MessageTypeBound,
      StationsCommandType, StationsReplyType, h4, ht]
  · intro ht x
    simp only [List.mem_cons, List.mem_singleton, List.not_mem_nil, or_false] at ht
    have hk : ¬ (t > MessageTypeBound ∧ t ≠ StationsCommandType ∧ t ≠ StationsReplyType) := by
      simp only [MessageTypeBound, StationsCommandType, StationsReplyType]
      omega
    rw [ReadMessage, readMessageType_cons]
    simp only [hk, if_false]
    split_ifs
    · split
      · rename_i heq
        have h := ioReadFull_error rest (make 1)
        rw [heq] at h
        simpa using fun _ => h
      · split
        · simp
        · split
          · simp
          · exact readBody_error _ _ _ _ _ _
    · split
      · simp
      · exact readBody_error _ _ _ _ _ _

/-- C7 at the first byte 77, which is no tag, and at the first byte 3, which
is one, each followed by two bytes. -/
theorem C7_unknown_tag_witness :
    ReadMessage (77 :: [1, 2]) true = (.ret (none, some Error.unknownMessageType), [1, 2]) ∧
    ∀ x, (ReadMessage (3 :: [1, 2]) true).1 ≠ .ret (x, some Error.unknownMessageType) :=
  ⟨(C7_unknown_tag 77 [1, 2] true).1 (by decide), (C7_unknown_tag 3 [1, 2] true).2 (by decide)⟩

/-- C8 (fails on the code). On the well-formed frame `f` with tag 255, length
byte 254 and 254 payload bytes, followed by a second frame `[254, 0, 0]`,
`ReadMessage` reads two bytes instead of `len f = 256`, returns no message
and panics; the payload and the second frame are left unread. -/
theorem C8_one_frame_not_consumed :
    WellFormedFrame (255 :: 254 :: List.replicate 254 7) ∧
    ReadMessage ((255 :: 254 :: List.replicate 254 7) ++ [254, 0, 0]) false
      = (.panic, List.replicate 254 7 ++ [254, 0, 0]) := by
  refine ⟨⟨?_, ?_⟩, ReadMessage_254 255 _ false (by decide)⟩
  · intro b hb
    simp only [List.mem_cons] at hb
    rcases hb with h | h | h
    · omega
    · omega
    · exact isBytes_replicate 254 7 (by decide) b h
  · exact Or.inr ⟨by decide, List.length_replicate _ _⟩

/-- C25 (fails on the code). A peer that sends a tag 3, 4 or 255 followed by
the length byte 254 or 255 makes `ReadMessage` panic: the buffer made with
the `uint8` size `offset+remain` has no byte (for 254) or one byte (for 255),
and the store `buf[0] = t`, respectively `buf[1] = byte(remain)`, is out of
its bounds.  No message and no error is returned. -/
theorem C25_ReadMessage_not_total :
    make ((2 + 254) % 256) = [] ∧ setIndex (make ((2 + 254) % 256)) 0 3 = none ∧
    (ReadMessage [3, 254] false).1 = .panic ∧
    make ((2 + 255) % 256) = [0] ∧ setIndex [4] 1 255 = none ∧
    (ReadMessage [4, 255] true).1 = .panic ∧
    (ReadMessage [255, 254, 1, 2, 3] false).1 = .panic := by
  decide

end protocol

namespace kit

/-! ## Lemmas on the membership operations -/

theorem searchClient_eq_none {l : List Nat} {c : Nat} (h : searchClient l c = none) :
    c ∉ l := by
  induction l with
  | nil => simp
  | cons a t ih =>
    unfold searchClient at h
    split_ifs at h with hac
    have ht : searchClient t c = none := by simpa using h
    simp only [List.mem_cons, not_or]
    exact ⟨fun e => hac e.symm, ih ht⟩

theorem searchClient_eq_some {l : List Nat} {c i : Nat} (h : searchClient l c = some i) :
    c ∈ l ∧ removeAt l i = l.erase c := by
  induction l generalizing i with
  | nil => simp [searchClient] at h
  | cons a t ih =>
    unfold searchClient at h
    split_ifs at h with hac
    · have hi : i = 0 := by simpa using h.symm
      subst hi
      subst hac
      simp [removeAt]
    · cases hs : searchClient t c with
      | none => simp [hs] at h
      | some j =>
        have hi : i = j + 1 := by simpa [hs] using h.symm
        subst hi
        obtain ⟨hm, he⟩ := ih hs
        refine ⟨List.mem_cons_of_mem _ hm, ?_⟩
        have hne : ¬ (a == c) = true := by simpa using hac
        rw [List.erase_cons, if_neg hne, ← he]
        simp [removeAt]

theorem stationOf_of_heap {s : State} {c : Nat} {cl : Client} (h : s.heap[c]? = some cl) :
    s.stationOf c = cl.Station := by
  simp [State.stationOf, h]

theorem stationOf_lt {s : State} {c i : Nat} (h : s.stationOf c = some i) :
    c < s.heap.length := by
  by_contra hlt
  have : s.heap[c]? = none := List.getElem?_eq_none (by omega)
  simp [State.stationOf, this] at h

theorem mem_unsub {s : State} {c i d : Nat} (h : d ∈ s.unsub c i) : d ∈ s.listeners i := by
  unfold State.unsub at h
  split_ifs at h
  · exact List.mem_of_mem_erase h
  · exact h

theorem listeners_set (heap : List Client) (clients : List Nat) (stations : List Station)
    (wg : Int) (st : Nat) (stn : Station) (i : Nat) (hst : st < stations.length) :
    (State.mk heap clients (stations.set st stn) wg).listeners i
      = if i = st then stn.Listeners else (State.mk heap clients stations wg).listeners i := by
  simp only [State.listeners, List.getElem?_set]
  by_cases h : st = i
  · subst h
    simp [hst]
  · have h2 : ¬ i = st := fun e => h e.symm
    simp [h, h2]

/-- What the unsubscribe block does, for a live client whose station (if
any) exists: only listener lists change, and only by erasing the client from
the list of its current station. -/
theorem dropListener_spec (s : State) (c : Nat) (hc : c < s.heap.length)
    (hst : ∀ i, s.stationOf c = some i → i < s.Stations.length) :
    ∃ s1, s.dropListener c = some s1 ∧ s1.heap = s.heap ∧ s1.clients = s.clients ∧
      s1.waitGroup = s.waitGroup ∧ s1.Stations.length = s.Stations.length ∧
      s1.Stations.map Station.Songname = s.Stations.map Station.Songname ∧
      ∀ i, s1.listeners i = s.unsub c i := by
  obtain ⟨heap, clients, stations, wg⟩ := s
  simp only at hc
  have hcl : heap[c]? = some heap[c] := List.getElem?_eq_getElem hc
  have hso : (State.mk heap clients stations wg).stationOf c = heap[c].Station :=
    stationOf_of_heap hcl
  rw [hso] at hst
  unfold State.dropListener
  simp only [hcl]
  cases hS : heap[c].Station with
  | none =>
    refine ⟨_, rfl, rfl, rfl, rfl, rfl, rfl, ?_⟩
    intro i
    simp [State.unsub, hso, hS]
  | some st =>
    have hlt : st < stations.length := hst st hS
    have hstn : stations[st]? = some stations[st] := List.getElem?_eq_getElem hlt
    simp only [hstn]
    have hL : (State.mk heap clients stations wg).listeners st = stations[st].Listeners := by
      simp [State.listeners, hstn]
    cases hsearch : searchClient stations[st].Listeners c with
    | none =>
      refine ⟨_, rfl, rfl, rfl, rfl, rfl, rfl, ?_⟩
      intro i
      have hnot := searchClient_eq_none hsearch
      simp only [State.unsub, hso, hS, Option.some.injEq]
      split_ifs with h
      · subst h
        rw [hL, List.erase_of_not_mem hnot]
      · rfl
    | some index =>
      obtain ⟨_, he⟩ := searchClient_eq_some hsearch
      refine ⟨_, rfl, rfl, rfl, rfl, ?_, ?_, ?_⟩
      · simp
      · simp only
        apply List.ext_getElem?
        intro n
        simp only [List.getElem?_map, List.getElem?_set]
        by_cases hn : st = n
        · subst hn
          simp [hlt, hstn]
        · simp [hn]
      · intro i
        rw [listeners_set _ _ _ _ _ _ _ hlt]
        simp only [State.unsub, hso, hS, Option.some.injEq]
        by_cases h : i = st
        · subst h
          simp [he, hL]
        · have h2 : ¬ st = i := fun e => h e.symm
          simp [h, h2]

theorem stationOf_set (heap : List Client) (clients : List Nat) (stations : List Station)
    (wg : Int) (c : Nat) (cl : Client) (d : Nat) (hc : c < heap.length) :
    (State.mk (heap.set c cl) clients stations wg).stationOf d
      = if d = c then cl.Station else (State.mk heap clients stations wg).stationOf d := by
  simp only [State.stationOf, List.getElem?_set]
  by_cases h : c = d
  · subst h
    simp [hc]
  · have h2 : ¬ d = c := fun e => h e.symm
    simp [h, h2]

/-- What `SetStation` does for a live client and an index in range. -/
theorem SetStation_spec (s : State) (x c : Nat) (hc : c < s.heap.length)
    (hst : ∀ i, s.stationOf c = some i → i < s.Stations.length)
    (hx : x < s.Stations.length) :
    ∃ s1, s.SetStation x c = some s1 ∧ s1.clients = s.clients ∧
      s1.waitGroup = s.waitGroup ∧ s1.heap.length = s.heap.length ∧
      s1.Stations.length = s.Stations.length ∧
      s1.Stations.map Station.Songname = s.Stations.map Station.Songname ∧
      (∀ d, s1.stationOf d = if d = c then some x else s.stationOf d) ∧
      (∀ i, s1.listeners i = if i = x then s.unsub c x ++ [c] else s.unsub c i) := by
  obtain ⟨s0, h0, hheap, hclients, hwg, hlen, hnames, hlist⟩ := dropListener_spec s c hc hst
  obtain ⟨heap, clients, stations, wg⟩ := s0
  simp only at hheap hclients hwg hlen
  subst hheap hclients hwg
  have hx0 : x < stations.length := by omega
  have hcl : s.heap[c]? = some s.heap[c] := List.getElem?_eq_getElem hc
  have hstn : stations[x]? = some stations[x] := List.getElem?_eq_getElem hx0
  have hrange : (0 : Int) ≤ (x : Int) ∧ (x : Int) < (stations.length : Int) := by
    constructor <;> omega
  unfold State.SetStation
  simp only [h0, hrange, and_self, if_true, Int.toNat_ofNat, hstn, hcl]
  refine ⟨_, rfl, rfl, rfl, ?_, ?_, ?_, ?_, ?_⟩
  · simp
  · simp only [List.length_set]
    exact hlen
  · rw [← hnames]
    simp only
    apply List.ext_getElem?
    intro n
    simp only [List.getElem?_map, List.getElem?_set]
    by_cases hn : x = n
    · subst hn
      simp [hx0, hstn]
    · simp [hn]
  · intro d
    rw [stationOf_set _ _ _ _ _ _ _ hc]
    by_cases h : d = c
    · simp [h]
    · simp only [h, if_false]
      simp [State.stationOf]
  · intro i
    rw [listeners_set _ _ _ _ _ _ _ hx0]
    by_cases h : i = x
    · subst h
      simp only [if_true]
      have := hlist i
      simp only [State.listeners, hstn] at this
      rw [this]
    · simp only [h, if_false]
      rw [← hlist i]
      simp [State.listeners]

/-- A `RemoveClient` on a pointer that is not in the client list returns at
once. -/
theorem RemoveClient_not_mem (s : State) (c : Nat) (hc : c ∉ s.clients) :
    s.RemoveClient c = some s := by
  unfold State.RemoveClient
  cases h : searchClient s.clients c with
  | none => rfl
  | some i => exact absurd (searchClient_eq_some h).1 hc

/-- What `RemoveClient` does for a client of the client list. -/
theorem RemoveClient_spec (s : State) (c : Nat) (hmem : c ∈ s.clients)
    (hc : c < s.heap.length)
    (hst : ∀ i, s.stationOf c = some i → i < s.Stations.length)
    (hwg : 0 < s.waitGroup) :
    ∃ s1, s.RemoveClient c = some s1 ∧ s1.clients = s.clients.erase c ∧
      s1.waitGroup = s.waitGroup - 1 ∧ s1.heap = s.heap ∧
      s1.Stations.length = s.Stations.length ∧
      s1.Stations.map Station.Songname = s.Stations.map Station.Songname ∧
      (∀ d, s1.stationOf d = s.stationOf d) ∧
      (∀ i, s1.listeners i = s.unsub c i) := by
  unfold State.RemoveClient
  cases h : searchClient s.clients c with
  | none => exact absurd hmem (searchClient_eq_none h)
  | some index =>
    have he := (searchClient_eq_some h).2
    simp only
    obtain ⟨s0, h0, hheap, hclients, hwg0, hlen, hnames, hlist⟩ :=
      dropListener_spec ⟨s.heap, removeAt s.clients index, s.Stations, s.waitGroup⟩ c hc hst
    simp only at hheap hclients hwg0 hlen hnames
    have hneg : ¬ s0.waitGroup - 1 < 0 := by omega
    simp only [h0, hneg, if_false]
    refine ⟨_, rfl, ?_, ?_, hheap, hlen, hnames, ?_, ?_⟩
    · simp only [hclients, he]
    · simp only [hwg0]
    · intro d
      simp [State.stationOf, hheap]
    · intro i
      have := hlist i
      simp only [State.listeners, State.unsub, State.stationOf] at this ⊢
      exact this

theorem AddClient_stationOf (s : State) (t u d : Nat) :
    (s.AddClient t u).1.stationOf d = s.stationOf d := by
  simp only [State.AddClient, State.stationOf, List.getElem?_append]
  by_cases h : d < s.heap.length
  · simp [h]
  · have hn : s.heap[d]? = none := List.getElem?_eq_none (by omega)
    simp only [h, if_false, hn]
    by_cases h0 : d - s.heap.length = 0
    · simp [h0]
    · have : [(⟨none, t, u, [], []⟩ : Client)][d - s.heap.length]? = none :=
        List.getElem?_eq_none (by simp; omega)
      simp [this]

theorem AddClient_listeners (s : State) (t u i : Nat) :
    (s.AddClient t u).1.listeners i = s.listeners i := rfl

theorem unsub_nodup {s : State} (hI : Inv s) (c i : Nat) : (s.unsub c i).Nodup := by
  unfold State.unsub
  split_ifs
  · exact (hI.listeners_nodup i).erase c
  · exact hI.listeners_nodup i

theorem not_mem_unsub {s : State} (hI : Inv s) (c i : Nat) : c ∉ s.unsub c i := by
  unfold State.unsub
  split_ifs with h
  · exact (hI.listeners_nodup i).not_mem_erase
  · exact fun hm => h (hI.listener_station i c hm)

theorem Inv_NewState (files : List (List Nat)) : Inv (NewState files) := by
  have hl : ∀ i, (NewState files).listeners i = [] := by
    intro i
    simp only [NewState, State.listeners, List.getElem?_map]
    cases files[i]? <;> simp [NewStation]
  refine ⟨?_, ?_, ?_, ?_, ?_, ?_⟩
  · simp [NewState]
  · simp [NewState]
  · simp [NewState]
  · intro c i h
    simp [NewState, State.stationOf] at h
  · intro i c h
    simp [hl] at h
  · intro i
    simp [hl]

theorem Inv_AddClient {s : State} (hI : Inv s) (t u : Nat) : Inv (s.AddClient t u).1 := by
  refine ⟨?_, ?_, ?_, ?_, ?_, ?_⟩
  · intro c hc
    simp only [State.AddClient, List.mem_append, List.mem_singleton, List.length_append,
      List.length_singleton] at hc ⊢
    rcases hc with h | h
    · have := hI.clients_lt c h
      omega
    · omega
  · simp only [State.AddClient]
    refine List.Nodup.append hI.clients_nodup (List.nodup_singleton _) ?_
    intro a ha hb
    have h1 := hI.clients_lt a ha
    simp only [List.mem_singleton] at hb
    omega
  · simp only [State.AddClient, List.length_append, List.length_singleton]
    have := hI.waitGroup_eq
    push_cast
    omega
  · intro c i h
    rw [AddClient_stationOf] at h
    exact hI.station_lt c i h
  · intro i c h
    rw [AddClient_stationOf]
    exact hI.listener_station i c h
  · intro i
    exact hI.listeners_nodup i

theorem Inv_SetStation {s s1 : State} (hI : Inv s) (x c : Nat) (hc : c < s.heap.length)
    (hx : x < s.Stations.length) (h : s.SetStation x c = some s1) : Inv s1 := by
  obtain ⟨s2, h2, hclients, hwg, hheap, hlen, _, hso, hlist⟩ :=
    SetStation_spec s x c hc (hI.station_lt c) hx
  rw [h] at h2
  cases h2
  refine ⟨?_, ?_, ?_, ?_, ?_, ?_⟩
  · intro d hd
    rw [hclients] at hd
    rw [hheap]
    exact hI.clients_lt d hd
  · rw [hclients]
    exact hI.clients_nodup
  · rw [hwg, hclients]
    exact hI.waitGroup_eq
  · intro d i hd
    rw [hso, hlen] at *
    split_ifs at hd with hdc
    · cases hd
      exact hx
    · exact hI.station_lt d i hd
  · intro i d hd
    rw [hlist] at hd
    rw [hso]
    by_cases hdc : d = c
    · subst hdc
      simp only [if_true]
      split_ifs at hd with hix
      · rw [hix]
      · exact absurd hd (not_mem_unsub hI d i)
    · simp only [hdc, if_false]
      split_ifs at hd with hix
      · subst hix
        simp only [List.mem_append, List.mem_singleton, hdc, or_false] at hd
        exact hI.listener_station i d (mem_unsub hd)
      · exact hI.listener_station i d (mem_unsub hd)
  · intro i
    rw [hlist]
    split_ifs with hix
    · refine List.Nodup.append (unsub_nodup hI c x) (List.nodup_singleton _) ?_
      intro a ha hb
      simp only [List.mem_singleton] at hb
      subst hb
      exact not_mem_unsub hI a x ha
    · exact unsub_nodup hI c i

theorem Inv_RemoveClient {s s1 : State} (hI : Inv s) (c : Nat)
    (h : s.RemoveClient c = some s1) : Inv s1 := by
  by_cases hmem : c ∈ s.clients
  · have hpos : 0 < s.waitGroup := by
      rw [hI.waitGroup_eq]
      exact_mod_cast List.length_pos_of_mem hmem
    obtain ⟨s2, h2, hclients, hwg, hheap, hlen, _, hso, hlist⟩ :=
      RemoveClient_spec s c hmem (hI.clients_lt c hmem) (hI.station_lt c) hpos
    rw [h] at h2
    cases h2
    refine ⟨?_, ?_, ?_, ?_, ?_, ?_⟩
    · intro d hd
      rw [hclients] at hd
      rw [hheap]
      exact hI.clients_lt d (List.mem_of_mem_erase hd)
    · rw [hclients]
      exact hI.clients_nodup.erase c
    · rw [hwg, hclients, hI.waitGroup_eq, List.length_erase_of_mem hmem]
      have := List.length_pos_of_mem hmem
      omega
    · intro d i hd
      rw [hso] at hd
      rw [hlen]
      exact hI.station_lt d i hd
    · intro i d hd
      rw [hlist] at hd
      rw [hso]
      exact hI.listener_station i d (mem_unsub hd)
    · intro i
      rw [hlist]
      exact unsub_nodup hI c i
  · rw [RemoveClient_not_mem s c hmem] at h
    cases h
    exact hI

theorem admissible_setStation {s : State} {x c : Nat}
    (h : (Op.setStation x c).admissible s = true) :
    x < s.Stations.length ∧ c < s.heap.length := by
  simpa [Op.admissible] using h

theorem Inv_step {s s1 : State} (hI : Inv s) (op : Op) (h : s.step op = some s1) :
    Inv s1 := by
  unfold State.step at h
  split_ifs at h with hadm
  cases op with
  | addClient t u =>
    simp only [State.apply, Option.some.injEq] at h
    subst h
    exact Inv_AddClient hI t u
  | setStation x c =>
    obtain ⟨hx, hc⟩ := admissible_setStation hadm
    exact Inv_SetStation hI x c hc hx h
  | removeClient c => exact Inv_RemoveClient hI c h

theorem Inv_run {s s1 : State} (hI : Inv s) (ops : List Op) (h : s.run ops = some s1) :
    Inv s1 := by
  induction ops generalizing s with
  | nil =>
    simp only [State.run, Option.some.injEq] at h
    subst h
    exact hI
  | cons op ops ih =>
    unfold State.run at h
    cases hs : s.step op with
    | none => simp [hs] at h
    | some s2 =>
      simp only [hs] at h
      exact ih (Inv_step hI op hs) h

theorem Inv_of_Reachable {files : List (List Nat)} {s : State} (h : Reachable files s) :
    Inv s := by
  obtain ⟨ops, hops⟩ := h
  exact Inv_run (Inv_NewState files) ops hops

theorem mem_unsub_of_ne {s : State} {c d i : Nat} (hne : c ≠ d) (h : c ∈ s.listeners i) :
    c ∈ s.unsub d i := by
  unfold State.unsub
  split_ifs
  · exact (List.mem_erase_of_ne hne).2 h
  · exact h

theorem listeners_of_getElem? {s : State} {i : Nat} {si : Station}
    (h : s.Stations[i]? = some si) : s.listeners i = si.Listeners := by
  simp [State.listeners, h]

/-- On a state that satisfies the invariant every admissible call returns. -/
theorem step_isSome {s : State} (hI : Inv s) (op : Op) (hadm : op.admissible s = true) :
    ∃ s1, s.step op = some s1 := by
  unfold State.step
  simp only [hadm, if_true]
  cases op with
  | addClient t u => exact ⟨_, rfl⟩
  | setStation x c =>
    obtain ⟨hx, hc⟩ := admissible_setStation hadm
    obtain ⟨s1, h1, _⟩ := SetStation_spec s x c hc (hI.station_lt c) hx
    exact ⟨s1, h1⟩
  | removeClient c =>
    by_cases hmem : c ∈ s.clients
    · have hpos : 0 < s.waitGroup := by
        rw [hI.waitGroup_eq]
        exact_mod_cast List.length_pos_of_mem hmem
      obtain ⟨s1, h1, _⟩ :=
        RemoveClient_spec s c hmem (hI.clients_lt c hmem) (hI.station_lt c) hpos
      exact ⟨s1, h1⟩
    · exact ⟨s, RemoveClient_not_mem s c hmem⟩

/-- A call that does not concern `c` leaves `c` tuned to `x` and in the
listener list of `x`. -/
theorem tuned_step {s s1 : State} (hI : Inv s) (c x : Nat) (op : Op)
    (hop : op.touches c = false) (h : s.step op = some s1)
    (hso : s.stationOf c = some x) (hmem : c ∈ s.listeners x) :
    s1.stationOf c = some x ∧ c ∈ s1.listeners x := by
  unfold State.step at h
  split_ifs at h with hadm
  cases op with
  | addClient t u =>
    simp only [State.apply, Option.some.injEq] at h
    subst h
    exact ⟨by rw [AddClient_stationOf]; exact hso, hmem⟩
  | setStation y d =>
    have hne : c ≠ d := by
      intro e
      simp [Op.touches, e] at hop
    obtain ⟨hy, hd⟩ := admissible_setStation hadm
    obtain ⟨s2, h2, _, _, _, _, _, hso2, hlist⟩ :=
      SetStation_spec s y d hd (hI.station_lt d) hy
    simp only [State.apply] at h
    rw [h] at h2
    cases h2
    refine ⟨?_, ?_⟩
    · rw [hso2, if_neg hne]
      exact hso
    · rw [hlist]
      split_ifs with hxy
      · subst hxy
        exact List.mem_append_left _ (mem_unsub_of_ne hne hmem)
      · exact mem_unsub_of_ne hne hmem
  | removeClient d =>
    have hne : c ≠ d := by
      intro e
      simp [Op.touches, e] at hop
    simp only [State.apply] at h
    by_cases hdm : d ∈ s.clients
    · have hpos : 0 < s.waitGroup := by
        rw [hI.waitGroup_eq]
        exact_mod_cast List.length_pos_of_mem hdm
      obtain ⟨s2, h2, _, _, _, _, _, hso2, hlist⟩ :=
        RemoveClient_spec s d hdm (hI.clients_lt d hdm) (hI.station_lt d) hpos
      rw [h] at h2
      cases h2
      refine ⟨?_, ?_⟩
      · rw [hso2]
        exact hso
      · rw [hlist]
        exact mem_unsub_of_ne hne hmem
    · rw [RemoveClient_not_mem s d hdm] at h
      cases h
      exact ⟨hso, hmem⟩

theorem tuned_run {s s1 : State} (hI : Inv s) (c x : Nat) (ops : List Op)
    (hops : ∀ op ∈ ops, op.touches c = false) (h : s.run ops = some s1)
    (hso : s.stationOf c = some x) (hmem : c ∈ s.listeners x) :
    s1.stationOf c = some x ∧ c ∈ s1.listeners x := by
  induction ops generalizing s with
  | nil =>
    simp only [State.run, Option.some.injEq] at h
    subst h
    exact ⟨hso, hmem⟩
  | cons op ops ih =>
    unfold State.run at h
    cases hs : s.step op with
    | none => simp [hs] at h
    | some s2 =>
      simp only [hs] at h
      obtain ⟨h1, h2⟩ := tuned_step hI c x op (hops op (List.mem_cons_self _ _)) hs hso hmem
      exact ih (Inv_step hI op hs) (fun o ho => hops o (List.mem_cons_of_mem _ ho)) h h1 h2

/-! ## The claims on the membership table -/

/-- C9. In every state reachable from `NewState(files)` by `AddClient`,
`SetStation` with an index below the station count and `RemoveClient`, a
client is in the `Listeners` list of at most one station and occurs at most
once in that list. -/
theorem C9_membership_invariant (files : List (List Nat)) (s : State)
    (h : Reachable files s) (c : Nat) :
    (∀ (i j : Nat) (si sj : Station), s.Stations[i]? = some si → s.Stations[j]? = some sj →
      c ∈ si.Listeners → c ∈ sj.Listeners → i = j) ∧
    (∀ (i : Nat) (si : Station), s.Stations[i]? = some si → si.Listeners.count c ≤ 1) := by
  have hI := Inv_of_Reachable h
  constructor
  · intro i j si sj hi hj hci hcj
    rw [← listeners_of_getElem? hi] at hci
    rw [← listeners_of_getElem? hj] at hcj
    have h1 := hI.listener_station i c hci
    have h2 := hI.listener_station j c hcj
    rw [h1] at h2
    exact Option.some.inj h2
  · intro i si hi
    have hn := hI.listeners_nodup i
    rw [listeners_of_getElem? hi] at hn
    exact List.nodup_iff_count_le_one.1 hn c

/-- C9 at the state `demoState`, reached by the run `demoOps`, and client 0. -/
theorem C9_membership_invariant_witness :
    Reachable demoFiles demoState ∧ 0 ∈ demoState.listeners 0 ∧
    ((∀ (i j : Nat) (si sj : Station),
      demoState.Stations[i]? = some si → demoState.Stations[j]? = some sj →
      0 ∈ si.Listeners → 0 ∈ sj.Listeners → i = j) ∧
    (∀ (i : Nat) (si : Station),
      demoState.Stations[i]? = some si → si.Listeners.count 0 ≤ 1)) :=
  ⟨⟨demoOps, by decide⟩, by decide,
    C9_membership_invariant demoFiles demoState ⟨demoOps, by decide⟩ 0⟩

/-- C10. In a reachable state, for a live client `c` and an index `x` below
the station count, `SetStation(x, c)` returns; afterwards the `Station` field
of `c` is station `x`, the `Listeners` list of `x` is its former content
without `c` followed by `c`, and `c` is in no other `Listeners` list.  The
three facts (field, membership in `x`, absence elsewhere) still hold after
any further calls none of which is a `SetStation` or `RemoveClient` on `c`. -/
theorem C10_SetStation_postcondition (files : List (List Nat)) (s : State)
    (h : Reachable files s) (c x : Nat) (hc : c ∈ s.clients)
    (hx : x < s.Stations.length) :
    ∃ s1, s.SetStation x c = some s1 ∧
      s1.stationOf c = some x ∧
      s1.listeners x = (s.listeners x).erase c ++ [c] ∧
      (∀ y, y ≠ x → c ∉ s1.listeners y) ∧
      ∀ ops s2, (∀ op ∈ ops, op.touches c = false) → s1.run ops = some s2 →
        s2.stationOf c = some x ∧ c ∈ s2.listeners x ∧
          ∀ y, y ≠ x → c ∉ s2.listeners y := by
  have hI := Inv_of_Reachable h
  have hlt := hI.clients_lt c hc
  obtain ⟨s1, h1, _, _, _, _, _, hso, hlist⟩ :=
    SetStation_spec s x c hlt (hI.station_lt c) hx
  have hI1 : Inv s1 := Inv_SetStation hI x c hlt hx h1
  have hso1 : s1.stationOf c = some x := by
    rw [hso]
    simp
  have hmem1 : c ∈ s1.listeners x := by
    rw [hlist]
    simp
  have only : ∀ s2 : State, Inv s2 → s2.stationOf c = some x →
      ∀ y, y ≠ x → c ∉ s2.listeners y := by
    intro s2 hI2 h2 y hy hm
    have := hI2.listener_station y c hm
    rw [h2] at this
    exact hy (Option.some.inj this).symm
  refine ⟨s1, h1, hso1, ?_, only s1 hI1 hso1, ?_⟩
  · rw [hlist]
    simp only [if_true, State.unsub]
    split_ifs with hs
    · rfl
    · have hnm : c ∉ s.listeners x := fun hm => hs (hI.listener_station x c hm)
      rw [List.erase_of_not_mem hnm]
  · intro ops s2 hops hrun
    obtain ⟨ha, hb⟩ := tuned_run hI1 c x ops hops hrun hso1 hmem1
    exact ⟨ha, hb, only s2 (Inv_run hI1 ops hrun) ha⟩

/-- C10 at the state `demoState`, client 0 (tuned to station 0) and index 1. -/
theorem C10_SetStation_postcondition_witness :
    Reachable demoFiles demoState ∧ 0 ∈ demoState.clients ∧ 1 < demoState.Stations.length ∧
    ∃ s1, demoState.SetStation (1 : Nat) 0 = some s1 ∧
      s1.stationOf 0 = some 1 ∧
      s1.listeners 1 = (demoState.listeners 1).erase 0 ++ [0] ∧
      (∀ y, y ≠ 1 → 0 ∉ s1.listeners y) ∧
      ∀ ops s2, (∀ op ∈ ops, op.touches 0 = false) → s1.run ops = some s2 →
        s2.stationOf 0 = some 1 ∧ 0 ∈ s2.listeners 1 ∧
          ∀ y, y ≠ 1 → 0 ∉ s2.listeners y :=
  ⟨⟨demoOps, by decide⟩, by decide, by decide,
    C10_SetStation_postcondition demoFiles demoState ⟨demoOps, by decide⟩ 0 1
      (by decide) (by decide)⟩

theorem dropListener_length {s s1 : State} {c : Nat} (h : s.dropListener c = some s1) :
    s1.Stations.length = s.Stations.length := by
  unfold State.dropListener at h
  split at h
  · simp at h
  · split at h
    · simp only [Option.some.injEq] at h
      rw [← h]
    · split at h
      · simp at h
      · split at h
        · simp only [Option.some.injEq] at h
          rw [← h]
        · simp only [Option.some.injEq] at h
          rw [← h]
          simp

/-- C11. In a reachable state, for a client `c` of the client list,
`RemoveClient(c)` returns; afterwards `c` is not in the client list and is in
the `Listeners` list of no station, whether or not `c` had a station. -/
theorem C11_RemoveClient_postcondition (files : List (List Nat)) (s : State)
    (h : Reachable files s) (c : Nat) (hc : c ∈ s.clients) :
    ∃ s1, s.RemoveClient c = some s1 ∧ c ∉ s1.clients ∧
      ∀ (i : Nat) (si : Station), s1.Stations[i]? = some si → c ∉ si.Listeners := by
  have hI := Inv_of_Reachable h
  have hpos : 0 < s.waitGroup := by
    rw [hI.waitGroup_eq]
    exact_mod_cast List.length_pos_of_mem hc
  obtain ⟨s1, h1, hclients, _, _, _, _, _, hlist⟩ :=
    RemoveClient_spec s c hc (hI.clients_lt c hc) (hI.station_lt c) hpos
  refine ⟨s1, h1, ?_, ?_⟩
  · rw [hclients]
    exact hI.clients_nodup.not_mem_erase
  · intro i si hi
    rw [← listeners_of_getElem? hi, hlist]
    exact not_mem_unsub hI c i

/-- C11 at the state `demoState` and client 0, which is tuned to station 0. -/
theorem C11_RemoveClient_postcondition_witness :
    Reachable demoFiles demoState ∧ 0 ∈ demoState.clients ∧ 0 ∈ demoState.listeners 0 ∧
    ∃ s1, demoState.RemoveClient 0 = some s1 ∧ 0 ∉ s1.clients ∧
      ∀ (i : Nat) (si : Station), s1.Stations[i]? = some si → 0 ∉ si.Listeners :=
  ⟨⟨demoOps, by decide⟩, by decide, by decide,
    C11_RemoveClient_postcondition demoFiles demoState ⟨demoOps, by decide⟩ 0 (by decide)⟩

/-- C12. In a reachable state, for every client pointer `c`, `RemoveClient(c)`
returns a state on which a second `RemoveClient(c)` returns the very same
state (same client list, same `Listeners` lists, same wait-group counter);
and when `c` is not in the client list the first call already changes
nothing. -/
theorem C12_RemoveClient_idempotent (files : List (List Nat)) (s : State)
    (h : Reachable files s) (c : Nat) :
    ∃ s1, s.RemoveClient c = some s1 ∧ s1.RemoveClient c = some s1 ∧
      (c ∉ s.clients → s1 = s) := by
  have hI := Inv_of_Reachable h
  by_cases hc : c ∈ s.clients
  · have hpos : 0 < s.waitGroup := by
      rw [hI.waitGroup_eq]
      exact_mod_cast List.length_pos_of_mem hc
    obtain ⟨s1, h1, hclients, _⟩ :=
      RemoveClient_spec s c hc (hI.clients_lt c hc) (hI.station_lt c) hpos
    have hnot : c ∉ s1.clients := by
      rw [hclients]
      exact hI.clients_nodup.not_mem_erase
    exact ⟨s1, h1, RemoveClient_not_mem s1 c hnot, fun hn => absurd hc hn⟩
  · exact ⟨s, RemoveClient_not_mem s c hc, RemoveClient_not_mem s c hc, fun _ => rfl⟩

/-- C12 at the state `demoState` and client 0. -/
theorem C12_RemoveClient_idempotent_witness :
    Reachable demoFiles demoState ∧
    ∃ s1, demoState.RemoveClient 0 = some s1 ∧ s1.RemoveClient 0 = some s1 ∧
      (0 ∉ demoState.clients → s1 = demoState) :=
  ⟨⟨demoOps, by decide⟩, C12_RemoveClient_idempotent demoFiles demoState ⟨demoOps, by decide⟩ 0⟩

/-- C13 (counterexample). With two stations, `SetStation(2, c)` on the client
0 of `demoState` returns no `BadStation` error: it panics on `s.Stations[2]`,
and the unsubscribe block that runs before the index expression has by then
emptied the `Listeners` list of station 0, to which the client was tuned. -/
theorem C13_SetStation_not_checked :
    demoState.Stations.length = 2 ∧ demoState.listeners 0 = [0] ∧
    demoState.SetStation 2 0 = none ∧
    ∃ s1, demoState.dropListener 0 = some s1 ∧ s1.listeners 0 = [] := by
  refine ⟨by decide, by decide, by decide, ?_⟩
  exact ⟨⟨[⟨some 0, 0, 0, [], []⟩, ⟨some 1, 1, 1, [], []⟩], [0], [⟨[97], []⟩, ⟨[98], []⟩], 1⟩,
    by decide, by decide⟩

/-- C13 (amended). `State.SetStation` makes no bounds check and has no error
result: for every membership state with `N` stations, every client `c` and
every index `x ≥ N` the call does not return, it panics. -/
theorem C13_SetStation_out_of_range_panics (s : State) (c : Nat) (x : Int)
    (hx : (s.Stations.length : Int) ≤ x) : s.SetStation x c = none := by
  unfold State.SetStation
  cases h : s.dropListener c with
  | none => rfl
  | some s1 =>
    have hlen := dropListener_length h
    have hnot : ¬ (0 ≤ x ∧ x < (s1.Stations.length : Int)) := by
      rw [hlen]
      omega
    simp only [hnot, if_false]

/-- C13 (amended) at the state `demoState`, client 0 and index 2. -/
theorem C13_SetStation_out_of_range_panics_witness :
    ((demoState.Stations.length : Nat) : Int) ≤ 2 ∧ demoState.SetStation 2 0 = none :=
  ⟨by decide, C13_SetStation_out_of_range_panics demoState 0 2 (by decide)⟩

/-! ## Lemmas on the station engine -/

theorem songChan_set (heap : List Client) (clients : List Nat) (stations : List Station)
    (wg : Int) (c : Nat) (cl : Client) (d : Nat) (hc : c < heap.length) :
    (State.mk (heap.set c cl) clients stations wg).songChan d
      = if d = c then cl.SongChan else (State.mk heap clients stations wg).songChan d := by
  simp only [State.songChan, List.getElem?_set]
  by_cases h : c = d
  · subst h
    simp [hc]
  · have h2 : ¬ d = c := fun e => h e.symm
    simp [h, h2]

/-- A listener whose channel is full stops the loop of `notify`: the loop is
blocked, at that listener or at an earlier one, and the channel of the
listener is as it was. -/
theorem notifyLoop_blocked (songname : List Nat) (c : Nat) (l : List Nat) (state : State)
    (hl : ∀ d ∈ l, d < state.heap.length) (hc : c ∈ l)
    (hfull : chanCap ≤ (state.songChan c).length) :
    ∃ state1, notifyLoop songname l state = .blocked state1 ∧
      state1.songChan c = state.songChan c := by
  induction l generalizing state with
  | nil => simp at hc
  | cons d rest ih =>
    obtain ⟨heap, clients, stations, wg⟩ := state
    have hd : d < heap.length := hl d (List.mem_cons_self _ _)
    have hget : heap[d]? = some heap[d] := List.getElem?_eq_getElem hd
    unfold notifyLoop
    simp only [hget]
    by_cases hroom : heap[d].SongChan.length < chanCap
    · simp only [hroom, if_true]
      have hne : c ≠ d := by
        intro e
        subst e
        simp only [State.songChan, hget] at hfull
        omega
      have hrest : c ∈ rest := by
        rcases List.mem_cons.1 hc with h | h
        · exact absurd h hne
        · exact h
      have hsame := songChan_set heap clients stations wg d
        ⟨heap[d].Station, heap[d].TcpConn, heap[d].UdpConn, heap[d].CloseChan,
          heap[d].SongChan ++ [songname]⟩ c hd
      rw [if_neg hne] at hsame
      obtain ⟨state1, h1, h2⟩ := ih
        (State.mk (heap.set d ⟨heap[d].Station, heap[d].TcpConn, heap[d].UdpConn,
          heap[d].CloseChan, heap[d].SongChan ++ [songname]⟩) clients stations wg)
        (by
          intro e he
          simp only [List.length_set]
          exact hl e (List.mem_cons_of_mem _ he))
        hrest (by rw [hsame]; exact hfull)
      exact ⟨state1, h1, by rw [h2, hsame]⟩
    · simp only [hroom, if_false]
      exact ⟨_, rfl, rfl⟩

/-- When the channel of every listener is empty the loop of `notify` runs to
its end and leaves the song name in the channel of each listener; nothing
else changes. -/
theorem notifyLoop_done (songname : List Nat) (l : List Nat) (state : State)
    (hnd : l.Nodup) (hl : ∀ d ∈ l, d < state.heap.length ∧ state.songChan d = []) :
    ∃ state1, notifyLoop songname l state = .done state1 ∧
      (∀ d ∈ l, state1.songChan d = [songname]) ∧
      (∀ d, d ∉ l → state1.songChan d = state.songChan d) ∧
      state1.heap.length = state.heap.length ∧
      state1.clients = state.clients ∧ state1.Stations = state.Stations ∧
      state1.waitGroup = state.waitGroup := by
  induction l generalizing state with
  | nil => exact ⟨state, rfl, by simp, by simp, rfl, rfl, rfl, rfl⟩
  | cons d rest ih =>
    obtain ⟨heap, clients, stations, wg⟩ := state
    obtain ⟨hd, hempty⟩ := hl d (List.mem_cons_self _ _)
    simp only at hd
    have hget : heap[d]? = some heap[d] := List.getElem?_eq_getElem hd
    have hch : heap[d].SongChan = [] := by
      simpa [State.songChan, hget] using hempty
    have hroom : heap[d].SongChan.length < chanCap := by
      rw [hch]
      decide
    obtain ⟨hdr, hndr⟩ := List.nodup_cons.1 hnd
    have hsame := songChan_set heap clients stations wg d
      ⟨heap[d].Station, heap[d].TcpConn, heap[d].UdpConn, heap[d].CloseChan,
        heap[d].SongChan ++ [songname]⟩
    obtain ⟨state1, h1, hin, hout, hlen, hcl, hst, hwg⟩ := ih
      (State.mk (heap.set d ⟨heap[d].Station, heap[d].TcpConn, heap[d].UdpConn,
        heap[d].CloseChan, heap[d].SongChan ++ [songname]⟩) clients stations wg) hndr
      (by
        intro e he
        have hne : e ≠ d := fun h => hdr (h ▸ he)
        refine ⟨?_, ?_⟩
        · simp only [List.length_set]
          exact (hl e (List.mem_cons_of_mem _ he)).1
        · rw [hsame e hd, if_neg hne]
          exact (hl e (List.mem_cons_of_mem _ he)).2)
    refine ⟨state1, ?_, ?_, ?_, ?_, hcl, hst, hwg⟩
    · unfold notifyLoop
      simp only [hget, hroom, if_true]
      exact h1
    · intro e he
      rcases List.mem_cons.1 he with h | h
      · subst h
        rw [hout e hdr, hsame e hd, if_pos rfl, hch]
        rfl
      · exact hin e h
    · intro e he
      have hne : e ≠ d := fun h => he (h ▸ List.mem_cons_self _ _)
      have hnr : e ∉ rest := fun h => he (List.mem_cons_of_mem _ h)
      rw [hout e hnr, hsame e hd, if_neg hne]
    · rw [hlen]
      simp


/-- C19 (counterexample). Station 0 of `demoState` has the one listener 0.
A first `notify` puts the song name into the empty channel of the listener;
a second `notify`, made while that name is still in the channel, does not
complete: it is blocked at the send, and nothing is dropped. -/
theorem C19_notify_blocks_on_full_channel :
    notify 0 demoState = .done demoPending ∧ demoPending.songChan 0 = [[97]] ∧
    notify 0 demoPending = .blocked demoPending := by
  decide

/-- C19 (amended). `notify` makes a plain, blocking send.  For a station whose
listeners are live clients: when the channel of a listener `c` already holds
a name, `notify` does not run to its end but is blocked at a send, and the
channel of `c` still holds exactly that one name; when the channel of every
listener is empty, `notify` runs to its end and leaves exactly one name, the
song name of the station, in the channel of each listener. -/
theorem C19_notify_blocking_send (state : State) (s : Nat) (station : Station)
    (hs : state.Stations[s]? = some station)
    (hl : ∀ d ∈ station.Listeners, d < state.heap.length) :
    (∀ c ∈ station.Listeners, (state.songChan c).length = chanCap →
      ∃ state1, notify s state = .blocked state1 ∧
        state1.songChan c = state.songChan c ∧ (state1.songChan c).length = 1) ∧
    (station.Listeners.Nodup → (∀ d ∈ station.Listeners, state.songChan d = []) →
      ∃ state1, notify s state = .done state1 ∧
        ∀ d ∈ station.Listeners, state1.songChan d = [station.Songname]) := by
  constructor
  · intro c hc hfull
    obtain ⟨state1, h1, h2⟩ :=
      notifyLoop_blocked station.Songname c station.Listeners state hl hc (by omega)
    refine ⟨state1, ?_, h2, ?_⟩
    · simp only [notify, hs]
      exact h1
    · rw [h2, hfull]
      rfl
  · intro hnd hempty
    obtain ⟨state1, h1, hin, _⟩ :=
      notifyLoop_done station.Songname station.Listeners state hnd
        (fun d hd => ⟨hl d hd, hempty d hd⟩)
    refine ⟨state1, ?_, hin⟩
    simp only [notify, hs]
    exact h1

/-- C19 (amended) at station 0 of `demoPending`, where the channel of the
listener 0 is full, and of `demoState`, where it is empty. -/
theorem C19_notify_blocking_send_witness :
    (∃ state1, notify 0 demoPending = .blocked state1 ∧
      state1.songChan 0 = demoPending.songChan 0 ∧ (state1.songChan 0).length = 1) ∧
    (∃ state1, notify 0 demoState = .done state1 ∧
      ∀ d ∈ [0], state1.songChan d = [[97]]) :=
  ⟨(C19_notify_blocking_send demoPending 0 ⟨[97], [0]⟩ rfl (by decide)).1 0
      (by decide) (by decide),
    (C19_notify_blocking_send demoState 0 ⟨[97], [0]⟩ rfl (by decide)).2
      (by decide) (by decide)⟩

theorem chunkSize_eq : chunkSize = 1024 := by decide

/-- The file side of a turn, in numbers: `n` is the smaller of the chunk size
and the bytes left, the wrap is detected exactly when fewer than a chunk is
left, and the data are the bytes read. -/
theorem tickFile_spec (content : List Nat) (pos : Nat) :
    (tickFile content pos).n = min chunkSize (content.length - pos) ∧
    ((tickFile content pos).wrap = true ↔ content.length - pos < chunkSize) ∧
    (tickFile content pos).pos
      = (if content.length - pos < chunkSize then 0 else pos + chunkSize) ∧
    (tickFile content pos).data.take (tickFile content pos).n
      = (content.drop pos).take chunkSize := by
  have hc := chunkSize_eq
  have hlen : ((content.drop pos).take chunkSize).length
      = min chunkSize (content.length - pos) := by
    simp
  unfold tickFile fileRead
  simp only [protocol.length_make]
  by_cases h0 : ((content.drop pos).take chunkSize).length = 0 ∧ 0 < chunkSize
  · simp only [h0, and_self, if_true]
    have hz : content.length - pos = 0 := by
      have := h0.1
      rw [hlen] at this
      omega
    have hnil : (content.drop pos).take chunkSize = [] := List.length_eq_zero.1 h0.1
    have hw : content.length - pos < chunkSize := by omega
    refine ⟨by omega, ?_, ?_, ?_⟩
    · simp [hw]
    · simp [hw]
    · simp [hnil]
  · simp only [h0, if_false]
    have hpos : 0 < content.length - pos := by
      by_contra hn
      apply h0
      rw [hlen]
      omega
    refine ⟨hlen, ?_, ?_, ?_⟩
    · simp only [Bool.or_false, decide_eq_true_eq, hlen]
      omega
    · simp only [Bool.or_false, decide_eq_true_eq, hlen]
      by_cases hw : content.length - pos < chunkSize
      · have : min chunkSize (content.length - pos) < chunkSize := by omega
        simp [this, hw]
      · have : ¬ min chunkSize (content.length - pos) < chunkSize := by omega
        simp only [this, hw, if_false]
        omega
    · simp

theorem succ_mod_cases (k K : Nat) (hK : 0 < K) :
    (k % K + 1 < K ∧ (k + 1) % K = k % K + 1) ∨ (k % K + 1 = K ∧ (k + 1) % K = 0) := by
  have hlt := Nat.mod_lt k hK
  by_cases h : k % K + 1 < K
  · left
    refine ⟨h, ?_⟩
    have h1 : 1 % K = 1 := Nat.mod_eq_of_lt (by omega)
    rw [Nat.add_mod, h1, Nat.mod_eq_of_lt h]
  · right
    have he : k % K + 1 = K := by omega
    refine ⟨he, ?_⟩
    by_cases hK1 : K = 1
    · subst hK1
      exact Nat.mod_one _
    · have h1 : 1 % K = 1 := Nat.mod_eq_of_lt (by omega)
      rw [Nat.add_mod, h1, he, Nat.mod_self]

/-- The read position after `k` turns: the pacer runs through the offsets
`0, chunkSize, 2 * chunkSize, ...` with period `F / chunkSize + 1`. -/
theorem pacerPos_eq (content : List Nat) (k : Nat) :
    pacerPos content k = (k % (content.length / chunkSize + 1)) * chunkSize := by
  have hc := chunkSize_eq
  induction k with
  | zero => simp [pacerPos]
  | succ k ih =>
    rw [pacerPos, (tickFile_spec content _).2.2.1, ih]
    have hm := Nat.mod_lt k (Nat.succ_pos (content.length / chunkSize))
    rcases succ_mod_cases k (content.length / chunkSize + 1) (Nat.succ_pos _) with
      ⟨h1, h2⟩ | ⟨h1, h2⟩
    · rw [h2]
      generalize k % (content.length / chunkSize + 1) = m at *
      rw [hc] at *
      have : ¬ content.length - m * 1024 < 1024 := by omega
      simp only [this, if_false]
      omega
    · rw [h2]
      generalize k % (content.length / chunkSize + 1) = m at *
      rw [hc] at *
      have : content.length - m * 1024 < 1024 := by omega
      simp only [this, if_true]

/-- The turns on which the wrap is detected are the multiples of
`F / chunkSize + 1`. -/
theorem wrapOnTick_iff (content : List Nat) (k : Nat) (hk : 1 ≤ k) :
    wrapOnTick content k = true ↔ (content.length / chunkSize + 1) ∣ k := by
  have hc := chunkSize_eq
  obtain ⟨j, rfl⟩ : ∃ j, k = j + 1 := ⟨k - 1, by omega⟩
  unfold wrapOnTick
  rw [(tickFile_spec content _).2.1, Nat.add_sub_cancel, pacerPos_eq,
    Nat.dvd_iff_mod_eq_zero]
  have hm := Nat.mod_lt j (Nat.succ_pos (content.length / chunkSize))
  rcases succ_mod_cases j (content.length / chunkSize + 1) (Nat.succ_pos _) with
    ⟨h1, h2⟩ | ⟨h1, h2⟩
  · rw [h2]
    generalize j % (content.length / chunkSize + 1) = m at *
    rw [hc] at *
    omega
  · rw [h2]
    generalize j % (content.length / chunkSize + 1) = m at *
    rw [hc] at *
    omega

/-- A turn of `start` that runs to its end has moved the read position and
detected the wrap as `tickFile` says, and `notify` has run exactly on a
wrap. -/
theorem tick_done (content : List Nat) (s : Nat) (state : State) (pos : Nat)
    (r : TickResult) (h : tick content s state pos = .done r) :
    r.pos = (tickFile content pos).pos ∧ r.wrapped = (tickFile content pos).wrap ∧
    (r.wrapped = true → notify s state = .done r.state) ∧
    (r.wrapped = false → r.state = state) := by
  unfold tick at h
  generalize tickFile content pos = f at h ⊢
  obtain ⟨data, n, wrap, pos1⟩ := f
  simp only at h
  split_ifs at h with hw
  · split at h
    · cases h
    · cases h
    · rename_i state1 hn
      split at h
      · cases h
      · simp only [Run.done.injEq] at h
        subst h
        exact ⟨rfl, hw.symm, fun _ => hn, fun hf => Bool.noConfusion hf⟩
  · split at h
    · cases h
    · simp only [Run.done.injEq] at h
      subst h
      have hwf : wrap = false := Bool.eq_false_iff.2 hw
      exact ⟨rfl, hwf.symm, fun hf => Bool.noConfusion hf, fun _ => rfl⟩

/-- C20 (counterexample). For a file of exactly one chunk, `F = 1024`, the
number `ceil(F / CHUNK_SIZE)` is 1, yet the first turn reads a full chunk
without error and detects no wrap; the wrap is detected on the second turn,
when the read returns no byte and `io.EOF`.  For the file of 40 chunks the
wrap is detected on turn 41 and not on turn 40. -/
theorem C20_wrap_late_for_whole_chunks :
    ((List.replicate 1024 0).length + chunkSize - 1) / chunkSize = 1 ∧
    wrapOnTick (List.replicate 1024 0) 1 = false ∧
    wrapOnTick (List.replicate 1024 0) 2 = true ∧
    ((List.replicate 40960 0).length + chunkSize - 1) / chunkSize = 40 ∧
    wrapOnTick (List.replicate 40960 0) 40 = false ∧
    wrapOnTick (List.replicate 40960 0) 41 = true := by
  have hc := chunkSize_eq
  have h1 : (List.replicate 1024 0).length = 1024 := List.length_replicate _ _
  have h40 : (List.replicate 40960 0).length = 40960 := List.length_replicate _ _
  refine ⟨?_, ?_, ?_, ?_, ?_, ?_⟩
  · rw [h1, hc]
  · rw [Bool.eq_false_iff]
    intro h
    have := (wrapOnTick_iff _ 1 (by omega)).1 h
    rw [h1, hc] at this
    omega
  · apply (wrapOnTick_iff _ 2 (by omega)).2
    rw [h1, hc]
  · rw [h40, hc]
  · rw [Bool.eq_false_iff]
    intro h
    have := (wrapOnTick_iff _ 40 (by omega)).1 h
    rw [h40, hc] at this
    omega
  · apply (wrapOnTick_iff _ 41 (by omega)).2
    rw [h40, hc]

/-- C20 (amended). For a song file of `F > 0` bytes and a pacer whose read
position is 0, the wrap is detected for the first time on turn
`F / CHUNK_SIZE + 1` (integer division) and on no earlier turn, and after
that exactly on the multiples of that number.  The number is
`ceil(F / CHUNK_SIZE)` when `F` is not a multiple of `CHUNK_SIZE`, and one
more than that when it is. -/
theorem C20_wrap_timing (content : List Nat) (hF : 0 < content.length) :
    wrapOnTick content (content.length / chunkSize + 1) = true ∧
    (∀ j, 1 ≤ j → j < content.length / chunkSize + 1 → wrapOnTick content j = false) ∧
    (∀ k, 1 ≤ k →
      (wrapOnTick content k = true ↔ (content.length / chunkSize + 1) ∣ k)) ∧
    (¬ chunkSize ∣ content.length →
      content.length / chunkSize + 1 = (content.length + chunkSize - 1) / chunkSize) ∧
    (chunkSize ∣ content.length →
      content.length / chunkSize + 1
        = (content.length + chunkSize - 1) / chunkSize + 1) := by
  have hc := chunkSize_eq
  refine ⟨?_, ?_, ?_, ?_, ?_⟩
  · exact (wrapOnTick_iff content _ (Nat.succ_pos _)).2 (dvd_refl _)
  · intro j h1 h2
    rw [Bool.eq_false_iff]
    intro h
    have hd := (wrapOnTick_iff content j h1).1 h
    have := Nat.le_of_dvd (by omega) hd
    omega
  · intro k hk
    exact wrapOnTick_iff content k hk
  · rw [hc]
    intro h
    omega
  · rw [hc]
    intro h
    omega

/-- C20 (amended) at a file of three bytes. -/
theorem C20_wrap_timing_witness :
    0 < [1, 2, 3].length ∧
    (wrapOnTick [1, 2, 3] ([1, 2, 3].length / chunkSize + 1) = true ∧
    (∀ j, 1 ≤ j → j < [1, 2, 3].length / chunkSize + 1 → wrapOnTick [1, 2, 3] j = false) ∧
    (∀ k, 1 ≤ k →
      (wrapOnTick [1, 2, 3] k = true ↔ ([1, 2, 3].length / chunkSize + 1) ∣ k)) ∧
    (¬ chunkSize ∣ [1, 2, 3].length →
      [1, 2, 3].length / chunkSize + 1 = ([1, 2, 3].length + chunkSize - 1) / chunkSize) ∧
    (chunkSize ∣ [1, 2, 3].length →
      [1, 2, 3].length / chunkSize + 1
        = ([1, 2, 3].length + chunkSize - 1) / chunkSize + 1)) :=
  ⟨by decide, C20_wrap_timing [1, 2, 3] (by decide)⟩

/-- C24. The chunk size that the constant expression `16 * 1024 / count`
gives is 1024 bytes and `count` is 16 chunks per second, so that the rate is
16384 bytes per second; the interval `1000000 / count` is 62500
microseconds, and 16 intervals are one second: neither division leaves a
remainder. -/
theorem C24_pacing_constants :
    chunkSize = 1024 ∧ count = 16 ∧ count * chunkSize = 16384 ∧ interval = 62500 ∧
    count * interval = 1000000 ∧ 1000000 % count = 0 ∧ 16 * 1024 % count = 0 := by
  decide

theorem filter_ne_erase (l : List Nat) (c : Nat) :
    (l.erase c).filter (fun d => decide (d ≠ c)) = l.filter (fun d => decide (d ≠ c)) := by
  induction l with
  | nil => rfl
  | cons a t ih =>
    by_cases h : a = c
    · subst h
      simp
    · have hne : ¬ (a == c) = true := by simpa using h
      rw [List.erase_cons, if_neg hne, List.filter_cons, List.filter_cons, ih]

theorem filter_ne_unsub (s : State) (c i : Nat) :
    (s.unsub c i).filter (fun d => decide (d ≠ c))
      = (s.listeners i).filter (fun d => decide (d ≠ c)) := by
  unfold State.unsub
  split_ifs
  · exact filter_ne_erase _ _
  · rfl

/-- C26. In a reachable state, for a client `c` that `AddClient` has returned
and an index `x` below the station count, `SetStation(x, c)` and
`RemoveClient(c)` both return, and each of them leaves the `Station` field of
every other client, the number of stations and the `Songname` of every
station as they were; every `Listeners` list, with `c` filtered out, is the
same list as before (same clients, same order). -/
theorem C26_other_clients_untouched (files : List (List Nat)) (s : State)
    (h : Reachable files s) (c x : Nat) (hc : c < s.heap.length)
    (hx : x < s.Stations.length) :
    (∃ s1, s.SetStation x c = some s1 ∧
      (∀ d, d ≠ c → s1.stationOf d = s.stationOf d) ∧
      s1.Stations.length = s.Stations.length ∧
      s1.Stations.map Station.Songname = s.Stations.map Station.Songname ∧
      ∀ i, (s1.listeners i).filter (fun d => decide (d ≠ c))
        = (s.listeners i).filter (fun d => decide (d ≠ c))) ∧
    (∃ s2, s.RemoveClient c = some s2 ∧
      (∀ d, d ≠ c → s2.stationOf d = s.stationOf d) ∧
      s2.Stations.length = s.Stations.length ∧
      s2.Stations.map Station.Songname = s.Stations.map Station.Songname ∧
      ∀ i, (s2.listeners i).filter (fun d => decide (d ≠ c))
        = (s.listeners i).filter (fun d => decide (d ≠ c))) := by
  have hI := Inv_of_Reachable h
  constructor
  · obtain ⟨s1, h1, _, _, _, hlen, hnames, hso, hlist⟩ :=
      SetStation_spec s x c hc (hI.station_lt c) hx
    refine ⟨s1, h1, ?_, hlen, hnames, ?_⟩
    · intro d hd
      rw [hso, if_neg hd]
    · intro i
      rw [hlist]
      split_ifs with hix
      · subst hix
        rw [List.filter_append, filter_ne_unsub]
        simp
      · exact filter_ne_unsub s c i
  · by_cases hmem : c ∈ s.clients
    · have hpos : 0 < s.waitGroup := by
        rw [hI.waitGroup_eq]
        exact_mod_cast List.length_pos_of_mem hmem
      obtain ⟨s2, h2, _, _, _, hlen, hnames, hso, hlist⟩ :=
        RemoveClient_spec s c hmem hc (hI.station_lt c) hpos
      refine ⟨s2, h2, fun d _ => hso d, hlen, hnames, ?_⟩
      intro i
      rw [hlist]
      exact filter_ne_unsub s c i
    · exact ⟨s, RemoveClient_not_mem s c hmem, fun _ _ => rfl, rfl, rfl, fun _ => rfl⟩

/-- C26 at the state `demoState`, client 0 (tuned to station 0) and index 1. -/
theorem C26_other_clients_untouched_witness :
    Reachable demoFiles demoState ∧ 0 < demoState.heap.length ∧
    1 < demoState.Stations.length ∧
    ((∃ s1, demoState.SetStation (1 : Nat) 0 = some s1 ∧
      (∀ d, d ≠ 0 → s1.stationOf d = demoState.stationOf d) ∧
      s1.Stations.length = demoState.Stations.length ∧
      s1.Stations.map Station.Songname = demoState.Stations.map Station.Songname ∧
      ∀ i, (s1.listeners i).filter (fun d => decide (d ≠ 0))
        = (demoState.listeners i).filter (fun d => decide (d ≠ 0))) ∧
    (∃ s2, demoState.RemoveClient 0 = some s2 ∧
      (∀ d, d ≠ 0 → s2.stationOf d = demoState.stationOf d) ∧
      s2.Stations.length = demoState.Stations.length ∧
      s2.Stations.map Station.Songname = demoState.Stations.map Station.Songname ∧
      ∀ i, (s2.listeners i).filter (fun d => decide (d ≠ 0))
        = (demoState.listeners i).filter (fun d => decide (d ≠ 0)))) :=
  ⟨⟨demoOps, by decide⟩, by decide, by decide,
    C26_other_clients_untouched demoFiles demoState ⟨demoOps, by decide⟩ 0 1
      (by decide) (by decide)⟩

/-! ## Lemmas on the datagrams -/

theorem udpConn_set (heap : List Client) (clients : List Nat) (stations : List Station)
    (wg : Int) (c : Nat) (cl : Client) (d : Nat) (hc : heap[c]? = some cl)
    (x : List Int) (y : List (List Nat)) :
    (State.mk (heap.set c ⟨cl.Station, cl.TcpConn, cl.UdpConn, x, y⟩) clients stations
        wg).udpConn d
      = (State.mk heap clients stations wg).udpConn d := by
  have hlt : c < heap.length := by
    by_contra hn
    rw [List.getElem?_eq_none (by omega)] at hc
    cases hc
  simp only [State.udpConn, List.getElem?_set]
  by_cases h : c = d
  · subst h
    simp [hlt, hc]
  · simp [h]

/-- A `notify` that runs to its end changes neither the stations nor the UDP
connection of any client. -/
theorem notifyLoop_frame (songname : List Nat) (l : List Nat) (state state1 : State)
    (h : notifyLoop songname l state = .done state1) :
    state1.Stations = state.Stations ∧ ∀ c, state1.udpConn c = state.udpConn c := by
  induction l generalizing state with
  | nil =>
    simp only [notifyLoop, Run.done.injEq] at h
    subst h
    exact ⟨rfl, fun _ => rfl⟩
  | cons d rest ih =>
    obtain ⟨heap, clients, stations, wg⟩ := state
    unfold notifyLoop at h
    cases hget : heap[d]? with
    | none =>
      simp only [hget] at h
      cases h
    | some c =>
      simp only [hget] at h
      split_ifs at h with hroom
      · obtain ⟨h1, h2⟩ := ih _ h
        refine ⟨h1, fun e => ?_⟩
        rw [h2 e]
        exact udpConn_set heap clients stations wg d c e hget _ _

theorem mapM_datagrams (state : State) (payload : List Nat) (l : List Nat) :
    (∀ dg, l.mapM (fun client =>
        match state.heap[client]? with
        | none => (none : Option (Nat × List Nat))
        | some c => some (c.UdpConn, payload)) = some dg →
      dg = l.map (fun c => (state.udpConn c, payload))) ∧
    ((∀ d ∈ l, d < state.heap.length) →
      l.mapM (fun client =>
        match state.heap[client]? with
        | none => (none : Option (Nat × List Nat))
        | some c => some (c.UdpConn, payload))
        = some (l.map (fun c => (state.udpConn c, payload)))) := by
  induction l with
  | nil =>
    refine ⟨fun dg h => ?_, fun _ => rfl⟩
    rw [List.mapM_nil] at h
    cases h
    rfl
  | cons a t ih =>
    rw [List.mapM_cons]
    cases hget : state.heap[a]? with
    | none =>
      refine ⟨fun dg h => ?_, fun hl => ?_⟩
      · simp at h
      · have := hl a (List.mem_cons_self _ _)
        rw [List.getElem?_eq_none_iff] at hget
        omega
    | some c =>
      have hu : state.udpConn a = c.UdpConn := by simp [State.udpConn, hget]
      refine ⟨fun dg h => ?_, fun hl => ?_⟩
      · cases hm : t.mapM (fun client =>
            match state.heap[client]? with
            | none => (none : Option (Nat × List Nat))
            | some c => some (c.UdpConn, payload)) with
        | none =>
          rw [hm] at h
          simp at h
        | some rest =>
          rw [hm] at h
          simp only [Option.pure_def, Option.bind_eq_bind, Option.some_bind,
            Option.some.injEq] at h
          rw [← h, ih.1 rest hm, List.map_cons, hu]
      · rw [ih.2 (fun d hd => hl d (List.mem_cons_of_mem _ hd))]
        simp [hu]

theorem tickFile_data_length (content : List Nat) (pos : Nat) :
    (tickFile content pos).data.length = chunkSize ∧
    (tickFile content pos).n ≤ (tickFile content pos).data.length := by
  have hn := (tickFile_spec content pos).1
  have hd : (tickFile content pos).data.length = chunkSize := by
    unfold tickFile fileRead
    simp only [protocol.length_make]
    split_ifs
    · simp [protocol.length_make]
    · simp only [List.length_append, List.length_take, List.length_drop, protocol.length_make]
      omega
  exact ⟨hd, by rw [hd, hn]; exact Nat.min_le_left _ _⟩

/-- A turn of `start` that runs to its end has written one datagram to the
UDP connection of each listener of the station, in the order of the list,
each holding the bytes read in that turn. -/
theorem tick_datagrams (content : List Nat) (s : Nat) (state : State) (station : Station)
    (pos : Nat) (r : TickResult) (hs : state.Stations[s]? = some station)
    (h : tick content s state pos = .done r) :
    r.datagrams
      = station.Listeners.map (fun c => (state.udpConn c, (content.drop pos).take chunkSize)) := by
  have hpay := (tickFile_spec content pos).2.2.2
  have hlen := (tickFile_data_length content pos).2
  unfold tick at h
  generalize tickFile content pos = f at h hpay hlen
  obtain ⟨data, n, wrap, pos1⟩ := f
  simp only at h hpay hlen
  split_ifs at h with hw
  · split at h
    · cases h
    · cases h
    · rename_i state1 hn
      simp only [notify, hs] at hn
      obtain ⟨hst, hudp⟩ := notifyLoop_frame _ _ _ _ hn
      split at h
      · cases h
      · rename_i dg hsend
        simp only [Run.done.injEq] at h
        subst h
        simp only [send, hst, hs, hlen, if_true] at hsend
        rw [(mapM_datagrams state1 (data.take n) station.Listeners).1 dg hsend, hpay]
        exact List.map_congr_left (fun c _ => by rw [hudp c])
  · split at h
    · cases h
    · rename_i dg hsend
      simp only [Run.done.injEq] at h
      subst h
      simp only [send, hs, hlen, if_true] at hsend
      rw [(mapM_datagrams state (data.take n) station.Listeners).1 dg hsend, hpay]

/-- A turn of `start` runs to its end when the listeners of the station are
live clients, each once in the list, whose announcement channels are empty. -/
theorem tick_completes (content : List Nat) (s : Nat) (state : State) (station : Station)
    (pos : Nat) (hs : state.Stations[s]? = some station) (hnd : station.Listeners.Nodup)
    (hl : ∀ d ∈ station.Listeners, d < state.heap.length ∧ state.songChan d = []) :
    ∃ r, tick content s state pos = .done r := by
  have hlen := (tickFile_data_length content pos).2
  unfold tick
  generalize tickFile content pos = f at hlen
  obtain ⟨data, n, wrap, pos1⟩ := f
  simp only at hlen ⊢
  split_ifs with hw
  · obtain ⟨state1, h1, _, _, hheap, _, hst, _⟩ :=
      notifyLoop_done station.Songname station.Listeners state hnd hl
    have hn : notify s state = .done state1 := by
      simp only [notify, hs]
      exact h1
    have hsend : send s state1 data n
        = some (station.Listeners.map (fun c => (state1.udpConn c, data.take n))) := by
      simp only [send, hst, hs, hlen, if_true]
      exact (mapM_datagrams state1 (data.take n) station.Listeners).2
        (fun d hd => by rw [hheap]; exact (hl d hd).1)
    simp only [hn, hsend]
    exact ⟨_, rfl⟩
  · have hsend : send s state data n
        = some (station.Listeners.map (fun c => (state.udpConn c, data.take n))) := by
      simp only [send, hs, hlen, if_true]
      exact (mapM_datagrams state (data.take n) station.Listeners).2 (fun d hd => (hl d hd).1)
    simp only [hsend]
    exact ⟨_, rfl⟩

theorem chunks_flatten (l : List Nat) (c n : Nat) :
    ((List.range n).map (fun j => (l.drop (j * c)).take c)).flatten = l.take (n * c) := by
  induction n with
  | zero => simp
  | succ n ih =>
    rw [List.range_succ, List.map_append, List.flatten_append, ih, List.map_singleton,
      List.flatten_singleton, Nat.succ_mul, List.take_add]

theorem payloadOnTick_eq (content : List Nat) (j : Nat)
    (hj : j < content.length / chunkSize + 1) :
    payloadOnTick content (j + 1) = (content.drop (j * chunkSize)).take chunkSize := by
  unfold payloadOnTick
  rw [Nat.add_sub_cancel, (tickFile_spec content _).2.2.2, pacerPos_eq, Nat.mod_eq_of_lt hj]

/-- The payloads of the turns up to and including the first wrap, put one
after the other, are the content of the file. -/
theorem payloads_flatten (content : List Nat) :
    ((List.range (content.length / chunkSize + 1)).map
      (fun j => payloadOnTick content (j + 1))).flatten = content := by
  have hc := chunkSize_eq
  rw [List.map_congr_left (fun j hj => payloadOnTick_eq content j (List.mem_range.1 hj)),
    chunks_flatten]
  apply List.take_of_length_le
  rw [hc]
  omega

/-- A `notify` that runs to its end allocates no client record. -/
theorem notifyLoop_length (songname : List Nat) (l : List Nat) (state state1 : State)
    (h : notifyLoop songname l state = .done state1) :
    state1.heap.length = state.heap.length := by
  induction l generalizing state with
  | nil =>
    simp only [notifyLoop, Run.done.injEq] at h
    subst h
    rfl
  | cons d rest ih =>
    obtain ⟨heap, clients, stations, wg⟩ := state
    unfold notifyLoop at h
    cases hget : heap[d]? with
    | none =>
      simp only [hget] at h
      cases h
    | some c =>
      simp only [hget] at h
      split_ifs at h with hroom
      · rw [ih _ h]
        simp

/-- A turn of `start` that detects no wrap runs to its end whatever the
channels hold: no channel is touched. -/
theorem tick_nowrap (content : List Nat) (s : Nat) (state : State) (station : Station)
    (pos : Nat) (hs : state.Stations[s]? = some station)
    (hl : ∀ d ∈ station.Listeners, d < state.heap.length)
    (hw : (tickFile content pos).wrap = false) :
    tick content s state pos = .done ⟨(tickFile content pos).pos, false, state,
      station.Listeners.map (fun c => (state.udpConn c, (content.drop pos).take chunkSize))⟩ := by
  have hpay := (tickFile_spec content pos).2.2.2
  have hlen := (tickFile_data_length content pos).2
  unfold tick
  generalize tickFile content pos = f at hlen hpay hw
  obtain ⟨data, n, wrap, pos1⟩ := f
  simp only at hlen hpay hw ⊢
  subst hw
  have hsend : send s state data n
      = some (station.Listeners.map (fun c => (state.udpConn c, data.take n))) := by
    simp only [send, hs, hlen, if_true]
    exact (mapM_datagrams state (data.take n) station.Listeners).2 hl
  simp only [hsend, hpay]
  rfl

/-- A turn of `start` that detects the wrap while the channel of every
listener is empty runs to its end: `notify` returns and the chunk is sent. -/
theorem tick_wrap_done (content : List Nat) (s : Nat) (state state1 : State)
    (station : Station) (pos : Nat) (hs : state.Stations[s]? = some station)
    (hn : notify s state = .done state1)
    (hl : ∀ d ∈ station.Listeners, d < state.heap.length)
    (hw : (tickFile content pos).wrap = true) :
    tick content s state pos = .done ⟨(tickFile content pos).pos, true, state1,
      station.Listeners.map (fun c => (state.udpConn c, (content.drop pos).take chunkSize))⟩ := by
  have hpay := (tickFile_spec content pos).2.2.2
  have hlen := (tickFile_data_length content pos).2
  have hn1 := hn
  simp only [notify, hs] at hn1
  obtain ⟨hst, hudp⟩ := notifyLoop_frame _ _ _ _ hn1
  unfold tick
  generalize tickFile content pos = f at hlen hpay hw
  obtain ⟨data, n, wrap, pos1⟩ := f
  simp only at hlen hpay hw ⊢
  subst hw
  have hheap : ∀ d ∈ station.Listeners, d < state1.heap.length := by
    intro d hd
    rw [notifyLoop_length _ _ _ _ hn1]
    exact hl d hd
  have hsend : send s state1 data n
      = some (station.Listeners.map (fun c => (state.udpConn c, data.take n))) := by
    simp only [send, hst, hs, hlen, if_true]
    rw [(mapM_datagrams state1 (data.take n) station.Listeners).2 hheap]
    exact congrArg some (List.map_congr_left (fun c _ => by rw [hudp c]))
  simp only [hn, hsend, hpay]
  rfl

/-- A turn of `start` that detects the wrap while the channel of a listener
is full does not reach `send`: it is blocked in `notify`. -/
theorem tick_wrap_blocked (content : List Nat) (s : Nat) (state state1 : State)
    (pos : Nat) (hn : notify s state = .blocked state1)
    (hw : (tickFile content pos).wrap = true) :
    tick content s state pos = .blocked ⟨(tickFile content pos).pos, true, state1, []⟩ := by
  unfold tick
  generalize tickFile content pos = f at hw
  obtain ⟨data, n, wrap, pos1⟩ := f
  simp only at hw ⊢
  subst hw
  simp only [hn]
  rfl


set_option maxRecDepth 100000 in
theorem startLoop_done (content : List Nat) (s k : Nat) (state : State) (pos : Nat)
    (r : TickResult) (l : List TickResult) (h : tick content s state pos = .done r)
    (hl : startLoop content s k r.state r.pos = .done l) :
    startLoop content s (k + 1) state pos = .done (r :: l) := by
  unfold startLoop
  rw [h]
  simp only
  rw [hl]

set_option maxRecDepth 100000 in
theorem startLoop_blocked (content : List Nat) (s k : Nat) (state : State) (pos : Nat)
    (r : TickResult) (l : List TickResult) (h : tick content s state pos = .done r)
    (hl : startLoop content s k r.state r.pos = .blocked l) :
    startLoop content s (k + 1) state pos = .blocked (r :: l) := by
  unfold startLoop
  rw [h]
  simp only
  rw [hl]

set_option maxRecDepth 100000 in
theorem startLoop_blocked_now (content : List Nat) (s k : Nat) (state : State) (pos : Nat)
    (r : TickResult) (h : tick content s state pos = .blocked r) :
    startLoop content s (k + 1) state pos = .blocked [r] := by
  unfold startLoop
  rw [h]

/-- The turns of the first pass over the file, from turn `m` on: `k + 1`
turns of which the last is the one that wraps. -/
theorem startLoop_pass (content : List Nat) (s : Nat) (state state1 : State)
    (station : Station) (hs : state.Stations[s]? = some station)
    (hn : notify s state = .done state1)
    (hl : ∀ d ∈ station.Listeners, d < state.heap.length) (k m : Nat)
    (hk : m + (k + 1) = content.length / chunkSize + 1) :
    startLoop content s (k + 1) state (m * chunkSize)
      = .done ((List.range (k + 1)).map (fun i =>
          (⟨if m + i + 1 = content.length / chunkSize + 1 then 0 else (m + i + 1) * chunkSize,
            decide (m + i + 1 = content.length / chunkSize + 1),
            if m + i + 1 = content.length / chunkSize + 1 then state1 else state,
            station.Listeners.map (fun c => (state.udpConn c, chunkAt content (m + i)))⟩ :
            TickResult))) := by
  have hc := chunkSize_eq
  induction k generalizing m with
  | zero =>
    have hm : m + 0 + 1 = content.length / chunkSize + 1 := by omega
    have hw : (tickFile content (m * chunkSize)).wrap = true := by
      rw [(tickFile_spec content _).2.1, hc] at *
      omega
    have hp : (tickFile content (m * chunkSize)).pos = 0 := by
      rw [(tickFile_spec content _).2.2.1, if_pos ((tickFile_spec content _).2.1.1 hw)]
    have ht := tick_wrap_done content s state state1 station _ hs hn hl hw
    rw [hp] at ht
    rw [startLoop_done content s 0 state _ _ [] ht (by unfold startLoop; rfl),
      List.range_succ_eq_map 0, List.range_zero, List.map_nil, List.map_cons, List.map_nil,
      if_pos hm, if_pos hm, decide_eq_true hm]
    rfl
  | succ k ih =>
    have hnw : ¬ content.length - m * chunkSize < chunkSize := by
      rw [hc] at *
      omega
    have hw : (tickFile content (m * chunkSize)).wrap = false := by
      rw [Bool.eq_false_iff]
      intro h
      exact hnw ((tickFile_spec content _).2.1.1 h)
    have hp : (tickFile content (m * chunkSize)).pos = (m + 1) * chunkSize := by
      rw [(tickFile_spec content _).2.2.1, if_neg hnw, Nat.succ_mul]
    have hne : ¬ m + 0 + 1 = content.length / chunkSize + 1 := by omega
    have ht := tick_nowrap content s state station _ hs hl hw
    rw [hp] at ht
    rw [startLoop_done content s (k + 1) state _ _ _ ht (ih (m + 1) (by omega)),
      List.range_succ_eq_map (k + 1), List.map_cons, List.map_map, if_neg hne, if_neg hne,
      decide_eq_false hne]
    simp only [Nat.add_zero, chunkAt]
    refine congrArg Run.done (congrArg₂ List.cons rfl (List.map_congr_left fun i _ => ?_))
    have e : m + 1 + i = m + (i + 1) := by omega
    simp only [Function.comp, Nat.succ_eq_add_one, e]


theorem chunkAt_length (content : List Nat) (j : Nat) : (chunkAt content j).length ≤ chunkSize := by
  unfold chunkAt
  rw [List.length_take]
  exact Nat.min_le_left _ _

theorem chunkAt_flatten (content : List Nat) :
    ((List.range (content.length / chunkSize + 1)).map (chunkAt content)).flatten = content := by
  have hc := chunkSize_eq
  unfold chunkAt
  rw [chunks_flatten]
  apply List.take_of_length_le
  rw [hc]
  omega

set_option maxRecDepth 100000 in
/-- C21 (counterexample). Station 0 of `demoState` has the one subscriber 0
and plays a file of three bytes; the pacer is at read position 0.  The first
turn wraps, leaves the song name in the channel of the subscriber and sends
the three bytes.  The second turn, made while no session has received that
name, sends no datagram to the subscriber: it is blocked in `notify`, before
`send` is reached.  So it is not every tick that sends a datagram to each
subscriber. -/
theorem C21_full_channel_turn_sends_nothing :
    0 < [1, 2, 3].length ∧ demoState.listeners 0 = [0] ∧
    tick [1, 2, 3] 0 demoState 0 = .done ⟨0, true, demoPending, [(0, [1, 2, 3])]⟩ ∧
    tick [1, 2, 3] 0 demoPending 0 = .blocked ⟨0, true, demoPending, []⟩ ∧
    startLoop [1, 2, 3] 0 2 demoState 0
      = .blocked [⟨0, true, demoPending, [(0, [1, 2, 3])]⟩, ⟨0, true, demoPending, []⟩] := by
  decide

/-- C21 (amended). For a song file `content` of any length and a station
whose listeners are live clients:
the bytes `data[:n]` of a turn are the bytes read at the read position, at
most `CHUNK_SIZE` of them;
a turn that reads a whole chunk detects no wrap and writes to each listener, in list order, one datagram with exactly those
bytes, whatever the channels hold, and advances the read position by
`CHUNK_SIZE`;
a turn that detects the wrap while the announcement channel of every
listener is empty does the same after `notify` has returned, and leaves the
read position 0;
a turn that detects the wrap while the channel of some listener is full is
blocked in `notify` and has written no datagram;
and for a pacer at read position 0 with the channels of the listeners empty,
the `F / CHUNK_SIZE + 1` turns up to and including the first wrap all run to
their end, turn `j` (counted from 0) sending the `j`-th chunk of the file to
each listener, only the last of them wraps, the read position after it is 0,
and the chunks put one after the other are the file content byte for
byte. -/
theorem C21_stream_until_first_wrap (content : List Nat) (s : Nat) (state : State)
    (station : Station) (hs : state.Stations[s]? = some station)
    (hl : ∀ d ∈ station.Listeners, d < state.heap.length) :
    (∀ pos, (tickFile content pos).data.take (tickFile content pos).n
        = (content.drop pos).take chunkSize ∧
      ((content.drop pos).take chunkSize).length ≤ chunkSize) ∧
    (∀ pos, chunkSize ≤ content.length - pos →
      tick content s state pos = .done ⟨pos + chunkSize, false, state,
        station.Listeners.map
          (fun c => (state.udpConn c, (content.drop pos).take chunkSize))⟩) ∧
    (∀ pos, content.length - pos < chunkSize → station.Listeners.Nodup →
      (∀ d ∈ station.Listeners, state.songChan d = []) →
      ∃ state1, notify s state = .done state1 ∧
        tick content s state pos = .done ⟨0, true, state1,
          station.Listeners.map
            (fun c => (state.udpConn c, (content.drop pos).take chunkSize))⟩) ∧
    (∀ pos c, content.length - pos < chunkSize → c ∈ station.Listeners →
      (state.songChan c).length = chanCap →
      ∃ state1, notify s state = .blocked state1 ∧
        tick content s state pos = .blocked ⟨0, true, state1, []⟩) ∧
    (station.Listeners.Nodup → (∀ d ∈ station.Listeners, state.songChan d = []) →
      ∃ state1, notify s state = .done state1 ∧
        startLoop content s (content.length / chunkSize + 1) state 0
          = .done ((List.range (content.length / chunkSize + 1)).map (fun j =>
              (⟨if j + 1 = content.length / chunkSize + 1 then 0 else (j + 1) * chunkSize,
                decide (j + 1 = content.length / chunkSize + 1),
                if j + 1 = content.length / chunkSize + 1 then state1 else state,
                station.Listeners.map (fun c => (state.udpConn c, chunkAt content j))⟩ :
                TickResult)))) ∧
    ((List.range (content.length / chunkSize + 1)).map (chunkAt content)).flatten = content ∧
    (∀ j, (chunkAt content j).length ≤ chunkSize) := by
  have hc := chunkSize_eq
  refine ⟨?_, ?_, ?_, ?_, ?_, chunkAt_flatten content, chunkAt_length content⟩
  · intro pos
    refine ⟨(tickFile_spec content pos).2.2.2, ?_⟩
    rw [List.length_take]
    exact Nat.min_le_left _ _
  · intro pos hfull
    have hnw : ¬ content.length - pos < chunkSize := by omega
    have hw : (tickFile content pos).wrap = false := by
      rw [Bool.eq_false_iff]
      intro h
      exact hnw ((tickFile_spec content _).2.1.1 h)
    have hp : (tickFile content pos).pos = pos + chunkSize := by
      rw [(tickFile_spec content _).2.2.1, if_neg hnw]
    have ht := tick_nowrap content s state station pos hs hl hw
    rw [hp] at ht
    exact ht
  · intro pos hlt hnd hempty
    have hw : (tickFile content pos).wrap = true := (tickFile_spec content _).2.1.2 hlt
    have hp : (tickFile content pos).pos = 0 := by
      rw [(tickFile_spec content _).2.2.1, if_pos hlt]
    obtain ⟨state1, h1, _⟩ := notifyLoop_done station.Songname station.Listeners state hnd
      (fun d hd => ⟨hl d hd, hempty d hd⟩)
    have hn : notify s state = .done state1 := by
      simp only [notify, hs]
      exact h1
    have ht := tick_wrap_done content s state state1 station pos hs hn hl hw
    rw [hp] at ht
    exact ⟨state1, hn, ht⟩
  · intro pos c hlt hc hfull
    have hw : (tickFile content pos).wrap = true := (tickFile_spec content _).2.1.2 hlt
    have hp : (tickFile content pos).pos = 0 := by
      rw [(tickFile_spec content _).2.2.1, if_pos hlt]
    obtain ⟨state1, h1, _⟩ :=
      notifyLoop_blocked station.Songname c station.Listeners state hl hc (by omega)
    have hn : notify s state = .blocked state1 := by
      simp only [notify, hs]
      exact h1
    have ht := tick_wrap_blocked content s state state1 pos hn hw
    rw [hp] at ht
    exact ⟨state1, hn, ht⟩
  · intro hnd hempty
    obtain ⟨state1, h1, _⟩ := notifyLoop_done station.Songname station.Listeners state hnd
      (fun d hd => ⟨hl d hd, hempty d hd⟩)
    have hn : notify s state = .done state1 := by
      simp only [notify, hs]
      exact h1
    refine ⟨state1, hn, ?_⟩
    have h := startLoop_pass content s state state1 station hs hn hl
      (content.length / chunkSize) 0 (by omega)
    rw [Nat.zero_mul] at h
    rw [h]
    refine congrArg Run.done (List.map_congr_left fun i _ => ?_)
    simp only [Nat.zero_add]


theorem demoSong_length : demoSong.length = 2500 := by
  simp [demoSong]

/-- C21 (amended) at the file `demoSong` of 2500 bytes and station 0 of
`demoState`, whose one listener is client 0 with an empty channel: the pass
has three turns, at the read positions 0, 1024 and 2048, the third wraps,
and the three payloads make up the file.  At the state `demoPending`, where
the channel of the listener is full, the turn at position 2048 is blocked
and sends nothing. -/
theorem C21_stream_until_first_wrap_witness :
    demoState.Stations[0]? = some ⟨[97], [0]⟩ ∧
    (∀ d ∈ (Station.mk [97] [0]).Listeners, d < demoState.heap.length) ∧
    demoSong.length / chunkSize + 1 = 3 ∧
    tick demoSong 0 demoState 1024
      = .done ⟨2048, false, demoState, [(0, (demoSong.drop 1024).take 1024)]⟩ ∧
    (∃ state1, notify 0 demoPending = .blocked state1 ∧
      tick demoSong 0 demoPending 2048 = .blocked ⟨0, true, state1, []⟩) ∧
    startLoop demoSong 0 3 demoState 0
      = .done [⟨1024, false, demoState, [(0, chunkAt demoSong 0)]⟩,
          ⟨2048, false, demoState, [(0, chunkAt demoSong 1)]⟩,
          ⟨0, true, demoPending, [(0, chunkAt demoSong 2)]⟩] ∧
    (chunkAt demoSong 0 ++ chunkAt demoSong 1 ++ chunkAt demoSong 2) = demoSong := by
  have hc := chunkSize_eq
  have hlen := demoSong_length
  have hn3 : demoSong.length / chunkSize + 1 = 3 := by rw [hlen, hc]
  have hs : demoState.Stations[0]? = some ⟨[97], [0]⟩ := rfl
  have hl : ∀ d ∈ (Station.mk [97] [0]).Listeners, d < demoState.heap.length := by decide
  have hl2 : ∀ d ∈ (Station.mk [97] [0]).Listeners, d < demoPending.heap.length := by decide
  have hnot : notify 0 demoState = .done demoPending := by decide
  have h := C21_stream_until_first_wrap demoSong 0 demoState ⟨[97], [0]⟩ hs hl
  have hp := C21_stream_until_first_wrap demoSong 0 demoPending ⟨[97], [0]⟩ rfl hl2
  refine ⟨hs, hl, hn3, ?_, ?_, ?_, ?_⟩
  · have h1 := h.2.1 1024 (by rw [hlen, hc]; decide)
    rw [hc] at h1
    exact h1
  · exact hp.2.2.2.1 2048 0 (by rw [hlen, hc]; decide) (by decide) (by decide)
  · obtain ⟨state1, h1, h2⟩ := h.2.2.2.2.1 (by decide) (by decide)
    rw [hnot] at h1
    cases h1
    rw [hn3] at h2
    rw [h2]
    simp [List.range_succ, hc]
    decide
  · have h3 := h.2.2.2.2.2.1
    rw [hn3] at h3
    simpa [List.range_succ] using h3

/-! ## Lemmas for the end of a session -/

theorem SameMembership_stationOf {s s1 : State} (h : SameMembership s s1) (c : Nat) :
    s1.stationOf c = s.stationOf c := by
  have hm := congrArg (fun l => l[c]?) h.2.2.2
  simp only [List.getElem?_map] at hm
  unfold State.stationOf
  cases h1 : s1.heap[c]? <;> cases h2 : s.heap[c]? <;> simp_all

theorem SameMembership_length {s s1 : State} (h : SameMembership s s1) :
    s1.heap.length = s.heap.length := by
  have hm := congrArg List.length h.2.2.2
  simpa using hm

theorem SameMembership_listeners {s s1 : State} (h : SameMembership s s1) (i : Nat) :
    s1.listeners i = s.listeners i := by
  simp [State.listeners, h.2.1]

theorem SameMembership_trans {s s1 s2 : State} (h1 : SameMembership s s1)
    (h2 : SameMembership s1 s2) : SameMembership s s2 :=
  ⟨h2.1.trans h1.1, h2.2.1.trans h1.2.1, h2.2.2.1.trans h1.2.2.1, h2.2.2.2.trans h1.2.2.2⟩

/-- The invariant does not depend on what the channels hold. -/
theorem Inv_of_SameMembership {s s1 : State} (h : SameMembership s s1) (hI : Inv s) :
    Inv s1 := by
  refine ⟨?_, ?_, ?_, ?_, ?_, ?_⟩
  · intro c hc
    rw [h.1] at hc
    rw [SameMembership_length h]
    exact hI.clients_lt c hc
  · rw [h.1]
    exact hI.clients_nodup
  · rw [h.2.2.1, h.1]
    exact hI.waitGroup_eq
  · intro c i hc
    rw [SameMembership_stationOf h] at hc
    rw [h.2.1]
    exact hI.station_lt c i hc
  · intro i c hc
    rw [SameMembership_listeners h] at hc
    rw [SameMembership_stationOf h]
    exact hI.listener_station i c hc
  · intro i
    rw [SameMembership_listeners h]
    exact hI.listeners_nodup i

/-- Taking a value out of, or putting one into, a channel of a client leaves
the membership as it is. -/
theorem SameMembership_set (heap : List Client) (clients : List Nat)
    (stations : List Station) (wg : Int) (c : Nat) (cl : Client) (hc : heap[c]? = some cl)
    (x : List Int) (y : List (List Nat)) :
    SameMembership (State.mk heap clients stations wg)
      (State.mk (heap.set c ⟨cl.Station, cl.TcpConn, cl.UdpConn, x, y⟩) clients stations wg) := by
  refine ⟨rfl, rfl, rfl, ?_⟩
  apply List.ext_getElem?
  intro n
  simp only [List.getElem?_map, List.getElem?_set]
  by_cases h : c = n
  · subst h
    have hlt : c < heap.length := by
      by_contra hn
      rw [List.getElem?_eq_none (by omega)] at hc
      cases hc
    simp [hlt, hc]
  · simp [h]

/-- On a state that satisfies the invariant, `RemoveClient` on a client of the
client list returns a state in which the client is in no list. -/
theorem RemoveClient_gone {s : State} (hI : Inv s) (c : Nat) (hc : c ∈ s.clients) :
    ∃ s1, s.RemoveClient c = some s1 ∧ c ∉ s1.clients ∧ ∀ i, c ∉ s1.listeners i := by
  have hpos : 0 < s.waitGroup := by
    rw [hI.waitGroup_eq]
    exact_mod_cast List.length_pos_of_mem hc
  obtain ⟨s1, h1, hclients, _, _, _, _, _, hlist⟩ :=
    RemoveClient_spec s c hc (hI.clients_lt c hc) (hI.station_lt c) hpos
  refine ⟨s1, h1, ?_, ?_⟩
  · rw [hclients]
    exact hI.clients_nodup.not_mem_erase
  · intro i
    rw [hlist]
    exact not_mem_unsub hI c i

end kit

namespace server

open protocol kit

/-! ## Lemmas on the session code -/

/-- What `conn.Write(buf)` does: the call is recorded, nothing else of the
connection but the failure script changes, and the error is nil unless the
script says that this call fails. -/
theorem Write_spec (conn : TcpConn) (buf : List Nat) :
    (conn.Write buf).1.writes = conn.writes ++ [buf] ∧
    (conn.Write buf).1.input = conn.input ∧ (conn.Write buf).1.id = conn.id ∧
    (conn.Write buf).1.closed = conn.closed ∧
    ((conn.Write buf).2.2 = none ↔ conn.failures.head? ≠ some true) := by
  unfold TcpConn.Write
  split <;> simp_all

theorem WriteMessage_invalidCommand (conn : TcpConn) (s : List Nat) :
    WriteMessage conn (.invalidCommand (NewInvalidCommand s))
      = conn.Write (4 :: s.length % 256 :: s) := by
  simp [WriteMessage, Message.Marshal, Marshal_NewInvalidCommand]

theorem WriteMessage_announce (conn : TcpConn) (s : List Nat) :
    WriteMessage conn (.announce (NewAnnounce s)) = conn.Write (3 :: s.length % 256 :: s) := by
  simp [WriteMessage, Message.Marshal, Marshal_NewAnnounce]

theorem WriteMessage_stationsReply (conn : TcpConn) (s : List Nat) :
    WriteMessage conn (.stationsReply (NewStationsReply s))
      = conn.Write (255 :: s.length % 256 :: s) := by
  simp [WriteMessage, Message.Marshal, Marshal_NewStationsReply]

theorem Marshal_NewWelcome (v : Nat) (hv : v < 65536) :
    (NewWelcome v).Marshal = (some [2, v / 256, v % 256], none) := by
  have h : v / 256 % 256 = v / 256 := by omega
  simp [NewWelcome, Welcome.Marshal, marshalFixed, binaryWriteU8, binaryWriteU16, h,
    WelcomeReplyType]

theorem WriteMessage_welcome (conn : TcpConn) (v : Nat) (hv : v < 65536) :
    WriteMessage conn (.welcome (NewWelcome v)) = conn.Write [2, v / 256, v % 256] := by
  simp [WriteMessage, Message.Marshal, Marshal_NewWelcome v hv]

/-! ## The claims on the session code -/

/-- C14. For a server with `N` stations and a `SetStation` message whose
16-bit station number is at least `N`, `handleSetStation` returns `false`
after exactly one `Write`, of the frame of
`InvalidCommand("invalid station number")`; the membership state it hands
back is the one it was given (`State.SetStation` is not called), so every
subscriber list and the station of the client are unchanged. -/
theorem C14_out_of_range_tune (state : State) (conn : TcpConn) (s : SetStation)
    (client : Nat) (hN : state.Stations.length ≤ s.StationNumber) :
    ∃ conn1, handleSetStation state conn s client = some (state, conn1, false) ∧
      conn1.writes = conn.writes ++ [4 :: 22 :: goString "invalid station number"] ∧
      conn1.input = conn.input := by
  have hmod : state.Stations.length % 65536 ≤ s.StationNumber :=
    le_trans (Nat.mod_le _ _) hN
  have hlen : (goString "invalid station number").length % 256 = 22 := by decide
  have hw := Write_spec conn (4 :: 22 :: goString "invalid station number")
  refine ⟨(conn.Write (4 :: 22 :: goString "invalid station number")).1, ?_, hw.1, hw.2.1⟩
  unfold handleSetStation
  rw [if_pos hmod, WriteMessage_invalidCommand, hlen]

/-- C14 at the state `demoState` (two stations) and the station number 7. -/
theorem C14_out_of_range_tune_witness :
    demoState.Stations.length ≤ 7 ∧
    ∃ conn1, handleSetStation demoState (freshConn []) ⟨1, 7⟩ 0
        = some (demoState, conn1, false) ∧
      conn1.writes = (freshConn []).writes ++ [4 :: 22 :: goString "invalid station number"] ∧
      conn1.input = (freshConn []).input :=
  ⟨by decide, C14_out_of_range_tune demoState (freshConn []) ⟨1, 7⟩ 0 (by decide)⟩

/-- What `handleSetStation` does for a station number `x < N`, in any state
in which the client is a live record: `State.SetStation(x, client)` is
called and returns, then exactly one `Write` is made, of the bytes that
`Marshal` gives for `NewAnnounce(name)` with `name` the `Songname` of station
`x`, and the result is `true` exactly when that write succeeds.  The bytes
are the tag 3, the length of the name modulo 256 and the name; when the name
has at most 253 bytes they decode to `Announce(name)`. -/
theorem handleSetStation_in_range (state : State) (conn : TcpConn) (s : SetStation)
    (client : Nat) (hlt : client < state.heap.length)
    (hst : ∀ i, state.stationOf client = some i → i < state.Stations.length)
    (hN : state.Stations.length ≤ 65535)
    (hs : s.StationNumber < state.Stations.length) :
    ∃ state1 station conn1 ok,
      state.SetStation (s.StationNumber : Int) client = some state1 ∧
      state.Stations[s.StationNumber]? = some station ∧
      handleSetStation state conn s client = some (state1, conn1, ok) ∧
      conn1.writes
        = conn.writes ++ [3 :: station.Songname.length % 256 :: station.Songname] ∧
      (ok = true ↔ conn.failures.head? ≠ some true) ∧
      (station.Songname.length ≤ 253 →
        ReadMessage (3 :: station.Songname.length % 256 :: station.Songname) false
          = (.ret (some (.announce (NewAnnounce station.Songname)), none), [])) := by
  obtain ⟨state1, h1, _, _, _, hlen, hnames, hso, _⟩ :=
    SetStation_spec state s.StationNumber client hlt hst hs
  have hmod : ¬ state.Stations.length % 65536 ≤ s.StationNumber := by
    rw [Nat.mod_eq_of_lt (by omega)]
    omega
  have hstation : state.Stations[s.StationNumber]? = some state.Stations[s.StationNumber] :=
    List.getElem?_eq_getElem hs
  have hs1 : s.StationNumber < state1.Stations.length := by omega
  have hstation1 :
      state1.Stations[s.StationNumber]? = some state1.Stations[s.StationNumber] :=
    List.getElem?_eq_getElem hs1
  have hname : state1.Stations[s.StationNumber].Songname
      = state.Stations[s.StationNumber].Songname := by
    have := congrArg (fun l => l[s.StationNumber]?) hnames
    simpa [List.getElem?_map, hstation, hstation1] using this
  have hso1 : state1.stationOf client = some s.StationNumber := by
    rw [hso]
    simp
  obtain ⟨c, hheap, hcS⟩ : ∃ c, state1.heap[client]? = some c ∧
      c.Station = some s.StationNumber := by
    unfold State.stationOf at hso1
    cases hh : state1.heap[client]? with
    | none => simp [hh] at hso1
    | some c => exact ⟨c, rfl, by simpa [hh] using hso1⟩
  have hw := Write_spec conn
    (3 :: state.Stations[s.StationNumber].Songname.length % 256
      :: state.Stations[s.StationNumber].Songname)
  refine ⟨state1, state.Stations[s.StationNumber], _,
    decide ((conn.Write
      (3 :: state.Stations[s.StationNumber].Songname.length % 256
        :: state.Stations[s.StationNumber].Songname)).2.2 = none),
    h1, hstation, ?_, hw.1, ?_, ?_⟩
  · unfold handleSetStation
    rw [if_neg hmod]
    simp only [h1, hheap, hcS, hstation1, hname, WriteMessage_announce]
  · simp only [decide_eq_true_eq]
    exact hw.2.2.2.2
  · intro hshort
    exact (decode_encode_sized _ false hshort).1

set_option maxRecDepth 100000 in
/-- C15 (fails on the code). The server is started with the one song file
`longName`, a path of 256 bytes, and has one client; the client sends
`SetStation(0)`, which is in range.  `handleSetStation` moves the client to
station 0 and returns `true` after one `Write`, but the bytes written are the
tag 3, the length byte 0 (256 modulo 256) and the 256 bytes of the name: that
is not the frame of `Announce(name)`.  The decoder of the same package reads
it as `Announce` of the empty name and leaves the 256 bytes of the name in
the stream, where the next `ReadMessage` finds the unknown tag 46. -/
theorem C15_long_name_announce_malformed :
    longName.length = 256 ∧ Reachable [longName] longNameState ∧
    0 ∈ longNameState.clients ∧ 0 < longNameState.Stations.length ∧
    longNameState.Stations.length ≤ 65535 ∧
    longNameState.Stations[0]? = some ⟨longName, []⟩ ∧
    longNameState.SetStation 0 0
      = some ⟨[⟨some 0, 7, 9000, [], []⟩], [0], [⟨longName, [0]⟩], 1⟩ ∧
    handleSetStation longNameState (freshConn []) ⟨1, 0⟩ 0
      = some (⟨[⟨some 0, 7, 9000, [], []⟩], [0], [⟨longName, [0]⟩], 1⟩,
          ⟨7, [], [3 :: 0 :: longName], [], false⟩, true) ∧
    ReadMessage (3 :: 0 :: longName) false
      = (.ret (some (.announce ⟨3, 0, []⟩), none), longName) ∧
    Message.announce ⟨3, 0, []⟩ ≠ Message.announce (NewAnnounce longName) ∧
    ReadMessage longName false
      = (.ret (none, some Error.unknownMessageType), longName.tail) :=
  ⟨by decide, ⟨[.addClient 7 9000], by decide⟩, by decide, by decide, by decide, by decide,
    by decide, by decide, by decide, by decide, by decide⟩

/-- C16. For a message that `ReadMessage` can return and whose tag is neither
1 nor 254, that is a `Hello`, `Welcome`, `Announce`, `InvalidCommand` or
`StationsReply`, `handleCommand` returns `false` after exactly one `Write`,
of the frame of `InvalidCommand("invalid command")`, and hands back the
membership state it was given. -/
theorem C16_other_commands_rejected (state : State) (conn : TcpConn) (client : Nat)
    (m : Message)
    (hm : ∃ stream tm rest, ReadMessage stream tm = (.ret (some m, none), rest))
    (h1 : m.GetType ≠ 1) (h254 : m.GetType ≠ 254) :
    ((∃ h, m = .hello h) ∨ (∃ w, m = .welcome w) ∨ (∃ a, m = .announce a) ∨
      (∃ i, m = .invalidCommand i) ∨ (∃ r, m = .stationsReply r)) ∧
    ∃ conn1, handleCommand state conn m client = some (state, conn1, false) ∧
      conn1.writes = conn.writes ++ [4 :: 15 :: goString "invalid command"] ∧
      conn1.input = conn.input := by
  obtain ⟨stream, tm, rest, hr⟩ := hm
  have htag := ReadMessage_GetType hr
  constructor
  · cases m with
    | hello h => exact Or.inl ⟨h, rfl⟩
    | setStation s => exact absurd htag h1
    | welcome w => exact Or.inr (Or.inl ⟨w, rfl⟩)
    | announce a => exact Or.inr (Or.inr (Or.inl ⟨a, rfl⟩))
    | invalidCommand i => exact Or.inr (Or.inr (Or.inr (Or.inl ⟨i, rfl⟩)))
    | stationsCommand s => exact absurd htag h254
    | stationsReply r => exact Or.inr (Or.inr (Or.inr (Or.inr ⟨r, rfl⟩)))
  · have hlen : (goString "invalid command").length % 256 = 15 := by decide
    have hw := Write_spec conn (4 :: 15 :: goString "invalid command")
    refine ⟨(conn.Write (4 :: 15 :: goString "invalid command")).1, ?_, hw.1, hw.2.1⟩
    unfold handleCommand
    rw [if_neg (by simpa [SetStationCommandType] using h1),
      if_neg (by simpa [StationsCommandType] using h254), WriteMessage_invalidCommand, hlen]

/-- C16 at a second `Hello(9000)`, decoded from the bytes `0, 35, 40`. -/
theorem C16_other_commands_rejected_witness :
    (∃ stream tm rest,
      ReadMessage stream tm = (.ret (some (Message.hello ⟨0, 9000⟩), none), rest)) ∧
    (((∃ h, Message.hello ⟨0, 9000⟩ = .hello h) ∨ (∃ w, Message.hello ⟨0, 9000⟩ = .welcome w) ∨
      (∃ a, Message.hello ⟨0, 9000⟩ = .announce a) ∨
      (∃ i, Message.hello ⟨0, 9000⟩ = .invalidCommand i) ∨
      (∃ r, Message.hello ⟨0, 9000⟩ = .stationsReply r)) ∧
    ∃ conn1, handleCommand demoState (freshConn []) (.hello ⟨0, 9000⟩) 0
        = some (demoState, conn1, false) ∧
      conn1.writes = (freshConn []).writes ++ [4 :: 15 :: goString "invalid command"] ∧
      conn1.input = (freshConn []).input) :=
  ⟨⟨[0, 35, 40], false, [], by decide⟩,
    C16_other_commands_rejected demoState (freshConn []) 0 (.hello ⟨0, 9000⟩)
      ⟨[0, 35, 40], false, [], by decide⟩ (by decide) (by decide)⟩

theorem listingLoop_eq (stations : List Station) (i : Nat) (result : List Nat) :
    listingLoop stations i result = result ++ listingFrom i stations := by
  induction stations generalizing i result with
  | nil => simp [listingLoop, listingFrom]
  | cons station rest ih =>
    rw [listingLoop, ih, listingFrom]
    simp [List.append_assoc]

/-- What `handleStationsCommand` does for every list of stations and every
`StationsCommand` value: exactly one `Write` is made, of the bytes that
`Marshal` gives for `NewStationsReply(listing)`, where the listing is, for
every station in index order, the decimal index, a space, the song name and a
newline; the membership state is handed back as it was given and the result
is `true` exactly when the write succeeds.  The bytes are the tag 255, the
length of the listing modulo 256 and the listing; when the listing has at
most 253 bytes they decode to `StationsReply(listing)`.  For the stations
`a`, `b`, `c` the listing is `0 a\n1 b\n2 c\n`. -/
theorem handleStationsCommand_listing (state : State) (conn : TcpConn)
    (s : StationsCommand) (client : Nat) :
    (∃ conn1 ok,
      handleStationsCommand state conn s client = (state, conn1, ok) ∧
      (Message.stationsReply (NewStationsReply (listingFrom 0 state.Stations))).Marshal
        = (some (255 :: (listingFrom 0 state.Stations).length % 256
            :: listingFrom 0 state.Stations), none) ∧
      conn1.writes = conn.writes ++
        [255 :: (listingFrom 0 state.Stations).length % 256
          :: listingFrom 0 state.Stations] ∧
      conn1.input = conn.input ∧
      (ok = true ↔ conn.failures.head? ≠ some true)) ∧
    ((listingFrom 0 state.Stations).length ≤ 253 →
      ReadMessage (255 :: (listingFrom 0 state.Stations).length % 256
          :: listingFrom 0 state.Stations) false
        = (.ret (some (.stationsReply (NewStationsReply (listingFrom 0 state.Stations))),
            none), [])) ∧
    listingFrom 0 [⟨goString "a", []⟩, ⟨goString "b", []⟩, ⟨goString "c", []⟩]
      = goString "0 a\n1 b\n2 c\n" := by
  refine ⟨?_, ?_, ?_⟩
  · have hw := Write_spec conn
      (255 :: (listingFrom 0 state.Stations).length % 256 :: listingFrom 0 state.Stations)
    refine ⟨_, decide ((conn.Write
        (255 :: (listingFrom 0 state.Stations).length % 256
          :: listingFrom 0 state.Stations)).2.2 = none), ?_, ?_, hw.1, hw.2.1, ?_⟩
    · unfold handleStationsCommand
      simp only [listingLoop_eq, List.nil_append, WriteMessage_stationsReply]
    · exact Marshal_NewStationsReply _
    · simp only [decide_eq_true_eq]
      exact hw.2.2.2.2
  · intro hshort
    exact (decode_encode_sized _ false hshort).2.2
  · decide

set_option maxRecDepth 100000 in
/-- C17 (fails on the code). The server is started with 60 song files named
`a`, so that the listing `0 a\n1 a\n ... 59 a\n` has 290 bytes, and a client
sends `StationsCommand`.  `handleStationsCommand` hands back the state and
returns `true` after one `Write`, but the bytes written are the tag 255, the
length byte 34 (290 modulo 256) and the 290 bytes of the listing: that is
not the frame of a `StationsReply` whose payload is the listing.  The decoder
of the same package reads a `StationsReply` with the first 34 bytes of the
listing, which end in the middle of the line of station 8, and leaves the
other 256 bytes in the stream. -/
theorem C17_long_listing_malformed :
    sixtyStations.Stations.length = 60 ∧
    (listingFrom 0 sixtyStations.Stations).length = 290 ∧
    handleStationsCommand sixtyStations (freshConn []) ⟨254, 0⟩ 0
      = (sixtyStations,
          ⟨7, [], [255 :: 34 :: listingFrom 0 sixtyStations.Stations], [], false⟩, true) ∧
    ReadMessage (255 :: 34 :: listingFrom 0 sixtyStations.Stations) false
      = (.ret (some (.stationsReply
            ⟨255, 34, goString "0 a\n1 a\n2 a\n3 a\n4 a\n5 a\n6 a\n7 a\n8 "⟩), none),
          (listingFrom 0 sixtyStations.Stations).drop 34) ∧
    goString "0 a\n1 a\n2 a\n3 a\n4 a\n5 a\n6 a\n7 a\n8 "
      ≠ listingFrom 0 sixtyStations.Stations ∧
    ((listingFrom 0 sixtyStations.Stations).drop 34).length = 256 := by
  decide

theorem handshake_hello (state : State) (tcpConn : TcpConn) (dial : Nat → Option Nat)
    (h : Hello) (rest : List Nat)
    (hr : ReadMessage tcpConn.input true = (.ret (some (.hello h), none), rest)) :
    handshake state tcpConn dial
      = .ret ((dial h.UdpPort, (dial h.UdpPort).isSome),
          ((TcpConn.mk tcpConn.id rest tcpConn.writes tcpConn.failures tcpConn.closed).Write
            [2, state.Stations.length % 65536 / 256, state.Stations.length % 65536 % 256]).1) := by
  have hv : state.Stations.length % 65536 < 65536 := Nat.mod_lt _ (by decide)
  unfold handshake
  rw [hr]
  simp only [WriteMessage_welcome _ _ hv]
  cases dial h.UdpPort <;> rfl

theorem handshake_other (state : State) (tcpConn : TcpConn) (dial : Nat → Option Nat)
    (a : Option Message) (e : Option Error) (rest : List Nat)
    (hr : ReadMessage tcpConn.input true = (.ret (a, e), rest))
    (hno : ∀ h, ¬ (a = some (.hello h) ∧ e = none)) :
    handshake state tcpConn dial
      = .ret ((none, false),
          ⟨tcpConn.id, rest, tcpConn.writes, tcpConn.failures, tcpConn.closed⟩) := by
  unfold handshake
  rw [hr]
  cases e with
  | some err => rfl
  | none =>
    cases a with
    | none => rfl
    | some m =>
      cases m with
      | hello h => exact absurd ⟨rfl, rfl⟩ (hno h)
      | _ => rfl

/-- C18 (counterexample). First, with two stations, a `Hello(9000)` frame and
a `net.Dial` that returns an error: `handshake` has written `Welcome(2)` and
returns failure, and `handle` closes the connection without calling
`AddClient`, although the frame decodes to a `Hello`.  Second, with 65536
stations and the same frame, `handshake` writes the frame `2, 0, 0`, that is
`Welcome(0)` and not `Welcome(65536)`. -/
theorem C18_greeting_not_only_hello :
    (ReadMessage [0, 35, 40] true = (.ret (some (.hello ⟨0, 9000⟩), none), []) ∧
      handshake demoState (freshConn [0, 35, 40]) (fun _ => none)
        = .ret ((none, false), ⟨7, [], [[2, 0, 2]], [], false⟩) ∧
      handleGreeting demoState (freshConn [0, 35, 40]) (fun _ => none)
        = .ret (demoState, ⟨7, [], [[2, 0, 2]], [], true⟩, none)) ∧
    (manyStations.Stations.length = 65536 ∧
      handshake manyStations (freshConn [0, 35, 40]) (fun _ => some 3)
        = .ret ((some 3, true), ⟨7, [], [[2, 0, 0]], [], false⟩)) := by
  refine ⟨⟨by decide, by decide, by decide⟩, List.length_replicate _ _, ?_⟩
  have hr : ReadMessage (freshConn [0, 35, 40]).input true
      = (.ret (some (.hello ⟨0, 9000⟩), none), []) := by decide
  have hlen : manyStations.Stations.length = 65536 := List.length_replicate _ _
  rw [handshake_hello manyStations (freshConn [0, 35, 40]) (fun _ => some 3) ⟨0, 9000⟩ [] hr,
    hlen]
  rfl

/-- C18 (amended). With `N` stations: when the first frame decodes to a
`Hello`, `handshake` makes exactly one `Write`, of the frame of
`Welcome(N mod 65536)`, and then dials the UDP port of the peer; it returns
success, and `handle` goes on to `AddClient`, exactly when the dial
succeeds, and when the dial fails `handle` closes the connection and adds no
client.  When `ReadMessage` returns another message or an error,
`handshake` writes nothing and returns failure, and `handle` closes the
connection and adds no client. -/
theorem C18_greeting (state : State) (tcpConn : TcpConn) (dial : Nat → Option Nat) :
    (∀ h rest, ReadMessage tcpConn.input true = (.ret (some (.hello h), none), rest) →
      ∃ conn1,
        conn1.writes = tcpConn.writes ++
          [[2, state.Stations.length % 65536 / 256, state.Stations.length % 65536 % 256]] ∧
        conn1.input = rest ∧
        handshake state tcpConn dial
          = .ret ((dial h.UdpPort, (dial h.UdpPort).isSome), conn1) ∧
        (∀ udpConn, dial h.UdpPort = some udpConn →
          handleGreeting state tcpConn dial
            = .ret ((state.AddClient tcpConn.id udpConn).1, conn1,
                some (state.AddClient tcpConn.id udpConn).2)) ∧
        (dial h.UdpPort = none →
          handleGreeting state tcpConn dial = .ret (state, conn1.Close, none))) ∧
    (∀ a e rest, ReadMessage tcpConn.input true = (.ret (a, e), rest) →
      (∀ h, ¬ (a = some (.hello h) ∧ e = none)) →
      handshake state tcpConn dial
          = .ret ((none, false),
              ⟨tcpConn.id, rest, tcpConn.writes, tcpConn.failures, tcpConn.closed⟩) ∧
        handleGreeting state tcpConn dial
          = .ret (state, ⟨tcpConn.id, rest, tcpConn.writes, tcpConn.failures, true⟩, none)) := by
  constructor
  · intro h rest hr
    have hs := handshake_hello state tcpConn dial h rest hr
    have hw := Write_spec
      (TcpConn.mk tcpConn.id rest tcpConn.writes tcpConn.failures tcpConn.closed)
      [2, state.Stations.length % 65536 / 256, state.Stations.length % 65536 % 256]
    refine ⟨_, hw.1, hw.2.1, hs, ?_, ?_⟩
    · intro udpConn hd
      unfold handleGreeting
      rw [hs, hd]
      simp only [Option.isSome_some, hw.2.2.1]
    · intro hd
      unfold handleGreeting
      rw [hs, hd]
  · intro a e rest hr hno
    have hs := handshake_other state tcpConn dial a e rest hr hno
    refine ⟨hs, ?_⟩
    unfold handleGreeting
    rw [hs]
    rfl

/-- C18 (amended) at the state `demoState`: a `Hello(9000)` with a dial that
returns the connection 3, and a `SetStation(0)` sent as the first frame. -/
theorem C18_greeting_witness :
    (∃ conn1,
      conn1.writes = (freshConn [0, 35, 40]).writes ++
        [[2, demoState.Stations.length % 65536 / 256,
          demoState.Stations.length % 65536 % 256]] ∧
      conn1.input = [] ∧
      handshake demoState (freshConn [0, 35, 40]) (fun _ => some 3)
        = .ret (((fun _ => some 3) (Hello.mk 0 9000).UdpPort,
            ((fun _ => some 3 : Nat → Option Nat) (Hello.mk 0 9000).UdpPort).isSome), conn1) ∧
      (∀ udpConn, (fun _ => some 3 : Nat → Option Nat) (Hello.mk 0 9000).UdpPort = some udpConn →
        handleGreeting demoState (freshConn [0, 35, 40]) (fun _ => some 3)
          = .ret ((demoState.AddClient (freshConn [0, 35, 40]).id udpConn).1, conn1,
              some (demoState.AddClient (freshConn [0, 35, 40]).id udpConn).2)) ∧
      ((fun _ => some 3 : Nat → Option Nat) (Hello.mk 0 9000).UdpPort = none →
        handleGreeting demoState (freshConn [0, 35, 40]) (fun _ => some 3)
          = .ret (demoState, conn1.Close, none))) ∧
    (handshake demoState (freshConn [1, 0, 0]) (fun _ => some 3)
        = .ret ((none, false), ⟨7, [], [], [], false⟩) ∧
      handleGreeting demoState (freshConn [1, 0, 0]) (fun _ => some 3)
        = .ret (demoState, ⟨7, [], [], [], true⟩, none)) :=
  ⟨(C18_greeting demoState (freshConn [0, 35, 40]) (fun _ => some 3)).1 ⟨0, 9000⟩ []
      (by decide),
    (C18_greeting demoState (freshConn [1, 0, 0]) (fun _ => some 3)).2
      (some (.setStation ⟨1, 0⟩)) none [] (by decide)
      (by
        intro h hh
        cases hh.1)⟩

theorem handleStationsCommand_eq (state : State) (conn : TcpConn) (s : StationsCommand)
    (client : Nat) :
    handleStationsCommand state conn s client
      = (state,
          (conn.Write (255 :: (listingFrom 0 state.Stations).length % 256
            :: listingFrom 0 state.Stations)).1,
          decide ((conn.Write (255 :: (listingFrom 0 state.Stations).length % 256
            :: listingFrom 0 state.Stations)).2.2 = none)) := by
  unfold handleStationsCommand
  simp only [listingLoop_eq, List.nil_append, WriteMessage_stationsReply]

/-- C23. `NewStationsCommand()` is a `SetStation` value with tag 254 and
station number 0, not a `StationsCommand` value.  Its `Marshal()` is the
three bytes 254, 0, 0; `ReadMessage` decodes these bytes to a
`StationsCommand`, and `handleCommand` passes that message to
`handleStationsCommand`: the one frame written is a `StationsReply` (tag
255) with the listing, the state is unchanged, and neither `handleSetStation`
nor the invalid-command branch is taken. -/
theorem C23_stations_command_dispatch :
    NewStationsCommand = (⟨254, 0⟩ : SetStation) ∧
    (∀ c : StationsCommand, Message.setStation NewStationsCommand ≠ Message.stationsCommand c) ∧
    NewStationsCommand.Marshal = (some [254, 0, 0], none) ∧
    (∀ rest tm, ReadMessage (254 :: 0 :: 0 :: rest) tm
      = (.ret (some (.stationsCommand ⟨254, 0⟩), none), rest)) ∧
    ∀ (state : State) (conn : TcpConn) (client : Nat),
      handleCommand state conn (.stationsCommand ⟨254, 0⟩) client
        = some (handleStationsCommand state conn ⟨254, 0⟩ client) ∧
      ∃ conn1 ok,
        handleCommand state conn (.stationsCommand ⟨254, 0⟩) client
          = some (state, conn1, ok) ∧
        conn1.writes = conn.writes ++
          [255 :: (listingFrom 0 state.Stations).length % 256
            :: listingFrom 0 state.Stations] := by
  refine ⟨rfl, fun c hc => Message.noConfusion hc, (by decide), ?_, ?_⟩
  · intro rest tm
    rw [ReadMessage_fixed 254 0 0 rest tm (by decide), decodeBuffer_fixed 254 0 0 (by decide)]
    rfl
  · intro state conn client
    have hd : handleCommand state conn (.stationsCommand ⟨254, 0⟩) client
        = some (handleStationsCommand state conn ⟨254, 0⟩ client) := by
      simp [handleCommand, Message.GetType, SetStationCommandType, StationsCommandType]
    refine ⟨hd, _,
      decide ((conn.Write (255 :: (listingFrom 0 state.Stations).length % 256
        :: listingFrom 0 state.Stations)).2.2 = none),
      ?_, (Write_spec conn _).1⟩
    rw [hd, handleStationsCommand_eq]

/-! ## Lemmas on the loop of `handle` -/

theorem handleSetStation_out_of_range (state : State) (conn : TcpConn) (s : SetStation)
    (client : Nat) (hN : state.Stations.length ≤ s.StationNumber) :
    handleSetStation state conn s client
      = some (state, (conn.Write (4 :: 22 :: goString "invalid station number")).1, false) := by
  have hmod : state.Stations.length % 65536 ≤ s.StationNumber :=
    le_trans (Nat.mod_le _ _) hN
  have hlen : (goString "invalid station number").length % 256 = 22 := by decide
  unfold handleSetStation
  rw [if_pos hmod, WriteMessage_invalidCommand, hlen]

/-- `handleSetStation` hands back a state that satisfies the invariant and
has the same client list. -/
theorem handleSetStation_Inv {state s1 : State} {conn c1 : TcpConn} {msg : SetStation}
    {client : Nat} {ok : Bool} (hI : kit.Inv state) (hc : client < state.heap.length)
    (h : handleSetStation state conn msg client = some (s1, c1, ok)) :
    kit.Inv s1 ∧ s1.clients = state.clients := by
  unfold handleSetStation at h
  split_ifs at h with hle
  · split at h
    simp only [Option.some.injEq, Prod.mk.injEq] at h
    obtain ⟨rfl, _, _⟩ := h
    exact ⟨hI, rfl⟩
  · have hx : msg.StationNumber < state.Stations.length := by
      have := Nat.mod_le state.Stations.length 65536
      omega
    obtain ⟨s2, h2, hclients, _⟩ :=
      SetStation_spec state msg.StationNumber client hc (hI.station_lt client) hx
    rw [h2] at h
    simp only at h
    split at h
    · cases h
    · split at h
      · cases h
      · split at h
        · cases h
        · simp only [Option.some.injEq, Prod.mk.injEq] at h
          obtain ⟨rfl, _, _⟩ := h
          exact ⟨Inv_SetStation hI msg.StationNumber client hc hx h2, hclients⟩

/-- `handleCommand` hands back a state that satisfies the invariant and has
the same client list. -/
theorem handleCommand_Inv {state s1 : State} {conn c1 : TcpConn} {a : Message}
    {client : Nat} {ok : Bool} (hI : kit.Inv state) (hc : client < state.heap.length)
    (h : handleCommand state conn a client = some (s1, c1, ok)) :
    kit.Inv s1 ∧ s1.clients = state.clients := by
  unfold handleCommand at h
  split_ifs at h
  · cases a with
    | setStation s => exact handleSetStation_Inv hI hc h
    | _ =>
      simp only [Option.some.injEq, Prod.mk.injEq] at h
      obtain ⟨rfl, _, _⟩ := h
      exact ⟨hI, rfl⟩
  · cases a with
    | stationsCommand s =>
      simp only [handleStationsCommand_eq, Option.some.injEq, Prod.mk.injEq] at h
      obtain ⟨rfl, _, _⟩ := h
      exact ⟨hI, rfl⟩
    | _ =>
      simp only [Option.some.injEq, Prod.mk.injEq] at h
      obtain ⟨rfl, _, _⟩ := h
      exact ⟨hI, rfl⟩
  · split at h
    simp only [Option.some.injEq, Prod.mk.injEq] at h
    obtain ⟨rfl, _, _⟩ := h
    exact ⟨hI, rfl⟩

theorem Write_fails (conn : TcpConn) (buf : List Nat) (h : conn.failures.head? = some true) :
    (conn.Write buf).2.2 = some WriteError.conn := by
  unfold TcpConn.Write
  split <;> simp_all

/-- A turn of the loop of `handle` after which `handle` has returned leaves
the client of the session in no list. -/
theorem handleTurn_returned {state s2 : State} {conn conn2 : TcpConn} {client : Nat}
    {r : Ready} (hI : kit.Inv state) (hc : client ∈ state.clients)
    (h : handleTurn state conn client r = .returned s2 conn2) :
    client ∉ s2.clients ∧ ∀ i, client ∉ s2.listeners i := by
  have hlt := hI.clients_lt client hc
  cases r with
  | socket a =>
    cases a with
    | none =>
      obtain ⟨s1, h1, hg⟩ := RemoveClient_gone hI client hc
      simp only [handleTurn, h1, Turn.returned.injEq] at h
      rw [← h.1]
      exact hg
    | some m =>
      simp only [handleTurn] at h
      split at h
      · cases h
      · cases h
      · rename_i state1 conn1 hcmd
        obtain ⟨hI1, hcl⟩ := handleCommand_Inv hI hlt hcmd
        obtain ⟨s1, h1, hg⟩ := RemoveClient_gone hI1 client (by rw [hcl]; exact hc)
        simp only [h1, Turn.returned.injEq] at h
        rw [← h.1]
        exact hg
  | song =>
    obtain ⟨heap, clients, stations, wg⟩ := state
    simp only [handleTurn] at h
    split at h
    · cases h
    · rename_i c hget
      split at h
      · cases h
      · split at h
        · cases h
        · have hsm := SameMembership_set heap clients stations wg client c hget
            c.CloseChan (by assumption)
          have hI1 := Inv_of_SameMembership hsm hI
          obtain ⟨s1, h1, hg⟩ := RemoveClient_gone hI1 client hc
          simp only [h1, Turn.returned.injEq] at h
          rw [← h.1]
          exact hg
  | close =>
    obtain ⟨heap, clients, stations, wg⟩ := state
    simp only [handleTurn] at h
    split at h
    · cases h
    · rename_i c hget
      split at h
      · cases h
      · have hsm := SameMembership_set heap clients stations wg client c hget
          (by assumption) c.SongChan
        have hI1 := Inv_of_SameMembership hsm hI
        obtain ⟨s1, h1, hg⟩ := RemoveClient_gone hI1 client hc
        simp only [h1, Turn.returned.injEq] at h
        rw [← h.1]
        exact hg

/-- C22. Let the membership be that of a reachable state (the channels may
hold anything) and let `client` be the live client of a session.  Each way
out of the loop of `handle` ends with one `RemoveClient(client)`, applied to
the state that the turn has reached: when the reading side is closed
(`socketChan` yields nil), when `handleCommand` returns `false`, when the
`Announce` of a received song name cannot be written, and when the close
signal is received; and whenever `handle` has returned, the client is neither
in the client list nor in any `Listeners` list.  In particular a
decoded `SetStation` with a station number that is not below the station
count (7 with 2 stations) ends the session with the client in no `Listeners`
list. -/
theorem C22_session_end_removes_client (files : List (List Nat)) (s0 state : State)
    (h0 : Reachable files s0) (hsame : SameMembership s0 state) (conn : TcpConn)
    (client : Nat) (hc : client ∈ state.clients) :
    (∃ s1, state.RemoveClient client = some s1 ∧
      handleTurn state conn client (.socket none) = .returned s1 conn) ∧
    (∀ a s1 conn1, handleCommand state conn a client = some (s1, conn1, false) →
      ∃ s2, s1.RemoveClient client = some s2 ∧
        handleTurn state conn client (.socket (some a)) = .returned s2 conn1.Close) ∧
    (∀ name rest, state.songChan client = name :: rest →
      conn.failures.head? = some true →
      ∃ s1 s2 conn1, SameMembership state s1 ∧ s1.songChan client = rest ∧
        s1.RemoveClient client = some s2 ∧
        handleTurn state conn client .song = .returned s2 conn1) ∧
    (∀ v rest, state.closeChan client = v :: rest →
      ∃ s1 s2, SameMembership state s1 ∧ s1.closeChan client = rest ∧
        s1.RemoveClient client = some s2 ∧
        handleTurn state conn client .close = .returned s2 conn) ∧
    (∀ r s2 conn2, handleTurn state conn client r = .returned s2 conn2 →
      client ∉ s2.clients ∧
        ∀ (i : Nat) (si : Station), s2.Stations[i]? = some si → client ∉ si.Listeners) ∧
    (∀ x : Nat, state.Stations.length ≤ x →
      ∃ s2 conn2,
        handleTurn state conn client
            (.socket (some (.setStation ⟨SetStationCommandType, x⟩))) = .returned s2 conn2 ∧
        client ∉ s2.clients ∧
        ∀ (i : Nat) (si : Station), s2.Stations[i]? = some si → client ∉ si.Listeners) := by
  have hI : kit.Inv state := Inv_of_SameMembership hsame (Inv_of_Reachable h0)
  have hlt := hI.clients_lt client hc
  have hgone : ∀ r s2 conn2, handleTurn state conn client r = .returned s2 conn2 →
      client ∉ s2.clients ∧
        ∀ (i : Nat) (si : Station), s2.Stations[i]? = some si → client ∉ si.Listeners := by
    intro r s2 conn2 h
    obtain ⟨h1, h2⟩ := handleTurn_returned hI hc h
    refine ⟨h1, fun i si hi => ?_⟩
    rw [← listeners_of_getElem? hi]
    exact h2 i
  have hcmd : ∀ a s1 conn1, handleCommand state conn a client = some (s1, conn1, false) →
      ∃ s2, s1.RemoveClient client = some s2 ∧
        handleTurn state conn client (.socket (some a)) = .returned s2 conn1.Close := by
    intro a s1 conn1 h
    obtain ⟨hI1, hcl⟩ := handleCommand_Inv hI hlt h
    obtain ⟨s2, h2, _⟩ := RemoveClient_gone hI1 client (by rw [hcl]; exact hc)
    exact ⟨s2, h2, by simp only [handleTurn, h, h2]⟩
  refine ⟨?_, hcmd, ?_, ?_, hgone, ?_⟩
  · obtain ⟨s1, h1, _⟩ := RemoveClient_gone hI client hc
    exact ⟨s1, h1, by simp only [handleTurn, h1]⟩
  · intro name rest hch hfail
    obtain ⟨heap, clients, stations, wg⟩ := state
    have hget : heap[client]? = some heap[client] := List.getElem?_eq_getElem hlt
    have hsc : heap[client].SongChan = name :: rest := by
      simpa [State.songChan, hget] using hch
    have hsm := SameMembership_set heap clients stations wg client heap[client] hget
      heap[client].CloseChan rest
    obtain ⟨s2, h2, _⟩ := RemoveClient_gone (Inv_of_SameMembership hsm hI) client hc
    have hw := Write_fails conn (3 :: name.length % 256 :: name) hfail
    refine ⟨_, s2, (conn.Write (3 :: name.length % 256 :: name)).1, hsm, ?_, h2, ?_⟩
    · rw [songChan_set heap clients stations wg client _ client hlt, if_pos rfl]
    · simp only [handleTurn, hget, hsc, WriteMessage_announce]
      generalize conn.Write (3 :: name.length % 256 :: name) = w at hw
      obtain ⟨c1, n, e⟩ := w
      simp only at hw
      subst hw
      simp only [h2]
  · intro v rest hch
    obtain ⟨heap, clients, stations, wg⟩ := state
    have hget : heap[client]? = some heap[client] := List.getElem?_eq_getElem hlt
    have hcc : heap[client].CloseChan = v :: rest := by
      simpa [State.closeChan, hget] using hch
    have hsm := SameMembership_set heap clients stations wg client heap[client] hget
      rest heap[client].SongChan
    obtain ⟨s2, h2, _⟩ := RemoveClient_gone (Inv_of_SameMembership hsm hI) client hc
    refine ⟨_, s2, hsm, ?_, h2, ?_⟩
    · simp [State.closeChan, hlt]
    · simp only [handleTurn, hget, hcc, h2]
  · intro x hN
    have hout := handleSetStation_out_of_range state conn ⟨SetStationCommandType, x⟩
      client hN
    have hcom : handleCommand state conn (.setStation ⟨SetStationCommandType, x⟩) client
        = some (state, (conn.Write (4 :: 22 :: goString "invalid station number")).1, false) := by
      simp only [handleCommand, Message.GetType, if_true, hout]
    obtain ⟨s2, _, h2⟩ := hcmd _ _ _ hcom
    exact ⟨s2, _, h2, hgone _ _ _ h2⟩

/-- C22 at the state `demoState` (two stations, client 0 tuned to station 0)
with a decoded `SetStation(7)`, and at the state `demoClosing` with the close
signal. -/
theorem C22_session_end_removes_client_witness :
    Reachable demoFiles demoState ∧ SameMembership demoState demoState ∧
    SameMembership demoState demoClosing ∧ 0 ∈ demoState.clients ∧
    0 ∈ demoState.listeners 0 ∧ demoState.Stations.length ≤ 7 ∧
    (∃ s2 conn2,
      handleTurn demoState (freshConn []) 0
          (.socket (some (.setStation ⟨SetStationCommandType, 7⟩))) = .returned s2 conn2 ∧
      0 ∉ s2.clients ∧
      ∀ (i : Nat) (si : Station), s2.Stations[i]? = some si → 0 ∉ si.Listeners) ∧
    (∃ s1 s2, SameMembership demoClosing s1 ∧ s1.closeChan 0 = [] ∧
      s1.RemoveClient 0 = some s2 ∧
      handleTurn demoClosing (freshConn []) 0 .close = .returned s2 (freshConn [])) :=
  ⟨⟨demoOps, by decide⟩, ⟨rfl, rfl, rfl, rfl⟩, ⟨rfl, rfl, rfl, rfl⟩, by decide, by decide,
    by decide,
    (C22_session_end_removes_client demoFiles demoState demoState ⟨demoOps, by decide⟩
      ⟨rfl, rfl, rfl, rfl⟩ (freshConn []) 0 (by decide)).2.2.2.2.2 7 (by decide),
    (C22_session_end_removes_client demoFiles demoState demoClosing ⟨demoOps, by decide⟩
      ⟨rfl, rfl, rfl, rfl⟩ (freshConn []) 0 (by decide)).2.2.2.1 1 [] (by decide)⟩

end server

end Snowcast
